import Mathlib

/-!
# tfspp: typed table container and TFS text codec

A shallow embedding of `src/data.h` and `src/tfs_dataframe.h`.

* A `std::string` is a list of characters, a `std::vector` is a list, an `int` is an
  integer (the cast from `long` wraps modulo `2^32`).
* A `std::map<std::string, V>` is an association list kept in ascending key order.
* Code that can throw, or whose behaviour C++ leaves undefined (an out-of-range
  `operator[]`, a function that ends without `return`), returns `Except Error`.
* The template parameter `real` stays a parameter; the C library's `strtod` and the
  stream output of a `real` are the operations of the class `RealText`.
* Loops over the input are driven by a fuel counter; running out of fuel is the
  error `Error.out_of_fuel`, and the fuel passed by the top-level functions is
  shown to be enough wherever a result is claimed.
-/

namespace tfs

/-- The characters of a `std::string`. -/
abbrev Str := List Char

deriving instance DecidableEq for Except

/-- What a call can end in instead of a result. -/
inductive Error where
  /-- A `std::runtime_error` thrown by the code, with its message. -/
  | runtime_error (what : String)
  /-- `std::get` on a variant that holds another alternative. -/
  | bad_variant_access
  /-- Behaviour the language leaves undefined: out-of-range `operator[]`, dereferencing
  `end()`, reading a union member that is not active, a missing `return`. -/
  | undefined_behaviour
  /-- The fuel of a loop model ran out. -/
  | out_of_fuel
  deriving DecidableEq, Repr

/-! ## C and C++ library functions used by the code -/

/-- Stream output and `strtod` for the template parameter `real`. -/
class RealText (real : Type) where
  /-- The C library's `strtod` (result converted to `real`). -/
  strtod : Str → real
  /-- The text `os << x` writes for a `real` at the default stream settings. -/
  put : real → Str
  /-- The value `0.0`. -/
  zero : real

/-- The C locale's `isspace`. -/
def isspace (c : Char) : Bool :=
  c == ' ' || c == '\t' || c == '\n' || c == '\x0b' || c == '\x0c' || c == '\r'

/-- The C locale's `isdigit`. -/
def isdigit (c : Char) : Bool := decide (48 ≤ c.toNat) && decide (c.toNat ≤ 57)

/-- The digit run read by `strtol` in base 10, accumulated onto `acc`. -/
def strtol_digits : Str → Nat → Nat
  | [], acc => acc
  | c :: cs, acc => if isdigit c then strtol_digits cs (acc * 10 + (c.toNat - 48)) else acc

def LONG_MAX : Int := 9223372036854775807

def LONG_MIN : Int := -9223372036854775808

/-- The C library's `strtol(s, &end, 10)`: leading white space is skipped, an optional
sign and the longest run of digits are read, the rest is ignored; no digits give 0 and
a value out of range is clamped. -/
def strtol (s : Str) : Int :=
  match s.dropWhile isspace with
  | [] => 0
  | c :: t =>
    if c = '-' then max (-(strtol_digits t 0 : Int)) LONG_MIN
    else if c = '+' then min (strtol_digits t 0 : Int) LONG_MAX
    else min (strtol_digits (c :: t) 0 : Int) LONG_MAX

/-- The conversion `static_cast<int>(long)`: reduction modulo `2^32` into the `int` range. -/
def int_of_long (x : Int) : Int := (x + 2147483648) % 4294967296 - 2147483648

/-- The decimal digit character of `d < 10`. -/
def digit_char (d : Nat) : Char := Char.ofNat (48 + d)

/-- The decimal digits of `n` put in front of `acc`. -/
def put_nat_aux : Nat → Nat → Str → Str
  | 0, _, acc => acc
  | fuel + 1, n, acc =>
    if n < 10 then digit_char n :: acc
    else put_nat_aux fuel (n / 10) (digit_char (n % 10) :: acc)

/-- The text `os << n` writes for a non-negative integer. -/
def put_nat (n : Nat) : Str := put_nat_aux (n + 1) n []

/-- The text `os << i` writes for an `int`. -/
def put_int (i : Int) : Str :=
  if i < 0 then '-' :: put_nat i.natAbs else put_nat i.natAbs

/-- The text written by `os << std::setw(w) << s`: right-justified, filled with spaces. -/
def setw (w : Nat) (s : Str) : Str := List.replicate (w - s.length) ' ' ++ s

/-- The operator `<` of `std::string`: lexicographic on the character codes. -/
def str_lt : Str → Str → Bool
  | [], [] => false
  | [], _ :: _ => true
  | _ :: _, [] => false
  | a :: as, b :: bs =>
    if a.toNat < b.toNat then true
    else if b.toNat < a.toNat then false
    else str_lt as bs

/-- A `std::map<std::string, V>`: the entries in ascending key order. -/
abbrev std_map (V : Type) := List (Str × V)

/-- The lookup `m.find(k)`. -/
def map_find {V : Type} : std_map V → Str → Option V
  | [], _ => none
  | (k', v') :: rest, k => if k' = k then some v' else map_find rest k

/-- The call `m.insert(std::make_pair(k, v))`: an existing entry for `k` is kept. -/
def map_insert {V : Type} : std_map V → Str → V → std_map V
  | [], k, v => [(k, v)]
  | (k', v') :: rest, k, v =>
    if str_lt k k' then (k, v) :: (k', v') :: rest
    else if str_lt k' k then (k', v') :: map_insert rest k v
    else (k', v') :: rest

/-- The assignment `m[k] = v`: an existing entry for `k` is replaced. -/
def map_assign {V : Type} : std_map V → Str → V → std_map V
  | [], k, v => [(k, v)]
  | (k', v') :: rest, k, v =>
    if str_lt k k' then (k, v) :: (k', v') :: rest
    else if str_lt k' k then (k', v') :: map_assign rest k v
    else (k', v) :: rest

/-- The read `m[k]`: the stored value, or a value-initialised one that is inserted. -/
def map_index {V : Type} (m : std_map V) (k : Str) (dflt : V) : V × std_map V :=
  match map_find m k with
  | some v => (v, m)
  | none => (dflt, map_insert m k dflt)

/-- The element access `v[i]` of a `std::vector`. -/
def vec_at {α : Type} (v : List α) (i : Nat) : Except Error α :=
  match v.get? i with
  | some x => pure x
  | none => throw Error.undefined_behaviour

/-! ## data.h -/

def FIELDWIDTH : Nat := 15

inductive DataType where
  | S
  | LE
  | D
  | B
  | C
  deriving DecidableEq, Repr

/-- The payload `std::variant<int, real, bool, std::complex<real>, std::string>`. -/
inductive variant (real : Type) where
  | int (i : Int)
  | real (r : real)
  | bool (b : Bool)
  | complex (re im : real)
  | string (s : Str)
  deriving DecidableEq, Repr

structure data_value (real : Type) where
  type : DataType
  payload : variant real
  deriving DecidableEq, Repr

/-- The constructor `data_value()`. -/
def data_value.default (real : Type) : data_value real := ⟨DataType.D, variant.int 0⟩

/-- The constructor `data_value(int i)`. -/
def data_value.from_int (real : Type) (i : Int) : data_value real := ⟨DataType.D, variant.int i⟩

/-- The constructor `data_value(double d)`. -/
def data_value.from_double {real : Type} (d : real) : data_value real :=
  ⟨DataType.LE, variant.real d⟩

/-- The constructor `data_value(bool b)`. -/
def data_value.from_bool (real : Type) (b : Bool) : data_value real :=
  ⟨DataType.B, variant.bool b⟩

/-- The constructor `data_value(const std::string& s)`. -/
def data_value.from_string (real : Type) (s : Str) : data_value real :=
  ⟨DataType.S, variant.string s⟩

def data_value.pretty_print {real : Type} [RealText real] (v : data_value real) :
    Except Error Str :=
  match v.type with
  | DataType.S =>
    match v.payload with
    | variant.string s => pure s
    | _ => throw Error.bad_variant_access
  | DataType.D =>
    match v.payload with
    | variant.int i => pure (put_int i)
    | _ => throw Error.bad_variant_access
  | DataType.LE =>
    match v.payload with
    | variant.real r => pure (RealText.put r)
    | _ => throw Error.bad_variant_access
  | DataType.C =>
    match v.payload with
    | variant.complex re im =>
      pure ("(".toList ++ RealText.put re ++ ",".toList ++ RealText.put im ++ ")".toList)
    | _ => throw Error.bad_variant_access
  | DataType.B =>
    match v.payload with
    | variant.bool b => pure (if b then "True".toList else "False".toList)
    | _ => throw Error.bad_variant_access

def data_value.get_int {real : Type} (v : data_value real) : Except Error Int :=
  if v.type = DataType.D then
    match v.payload with
    | variant.int i => pure i
    | _ => throw Error.bad_variant_access
  else throw (Error.runtime_error "not an int")

def data_value.get_double {real : Type} (v : data_value real) : Except Error real :=
  if v.type = DataType.LE then
    match v.payload with
    | variant.real r => pure r
    | _ => throw Error.bad_variant_access
  else throw (Error.runtime_error "not a double")

def data_value.get_complex {real : Type} [RealText real] (v : data_value real) :
    Except Error (real × real) :=
  if v.type = DataType.C then
    match v.payload with
    | variant.complex re im => pure (re, im)
    | _ => throw Error.bad_variant_access
  else if v.type = DataType.LE then
    match v.payload with
    | variant.real r => pure (r, RealText.zero)
    | _ => throw Error.bad_variant_access
  else throw (Error.runtime_error "not a complex")

def data_value.get_string {real : Type} (v : data_value real) : Except Error Str :=
  if v.type = DataType.S then
    match v.payload with
    | variant.string s => pure s
    | _ => throw Error.bad_variant_access
  else throw (Error.runtime_error "not a string")

/-- The union `udata_vec`: the member that is active, with its vector. -/
inductive udata_vec (real : Type) where
  | string_vector (v : List Str)
  | double_vector (v : List real)
  | int_vector (v : List Int)
  | bool_vector (v : List Bool)
  deriving DecidableEq, Repr

structure data_vector (real : Type) where
  payload : udata_vec real
  type : DataType
  name : Str
  deriving DecidableEq, Repr

/-- The constructor `data_vector(DataType t, const std::string& s)`: kinds `B` and `C`
get no vector of their own, the union keeps the string vector of `udata_vec()`. -/
def data_vector.new (real : Type) (t : DataType) (s : Str) : data_vector real :=
  match t with
  | DataType.LE => ⟨udata_vec.double_vector [], t, s⟩
  | DataType.D => ⟨udata_vec.int_vector [], t, s⟩
  | DataType.S => ⟨udata_vec.string_vector [], t, s⟩
  | DataType.B => ⟨udata_vec.string_vector [], t, s⟩
  | DataType.C => ⟨udata_vec.string_vector [], t, s⟩

/-- The copy constructor `data_vector(const data_vector& other)`: it copies `type`, `name`
and the union member its `switch` selects for the kind. Reading a member that is not the
active one is undefined; this is so for every column made by `data_vector(DataType::B, s)`,
whose `bool_vector` is never constructed. The `switch` has no case for kind `C`: the copy
keeps the string vector of `udata_vec()`. -/
def data_vector.copy {real : Type} (other : data_vector real) :
    Except Error (data_vector real) :=
  match other.type with
  | DataType.B =>
    match other.payload with
    | udata_vec.bool_vector xs => pure ⟨udata_vec.bool_vector xs, other.type, other.name⟩
    | _ => throw Error.undefined_behaviour
  | DataType.LE =>
    match other.payload with
    | udata_vec.double_vector xs => pure ⟨udata_vec.double_vector xs, other.type, other.name⟩
    | _ => throw Error.undefined_behaviour
  | DataType.D =>
    match other.payload with
    | udata_vec.int_vector xs => pure ⟨udata_vec.int_vector xs, other.type, other.name⟩
    | _ => throw Error.undefined_behaviour
  | DataType.S =>
    match other.payload with
    | udata_vec.string_vector xs => pure ⟨udata_vec.string_vector xs, other.type, other.name⟩
    | _ => throw Error.undefined_behaviour
  | DataType.C => pure ⟨udata_vec.string_vector [], other.type, other.name⟩

/-- The elements of a `std::vector<data_vector<real>>` copied into a new block, in order. -/
def copy_all {real : Type} : List (data_vector real) → Except Error (List (data_vector real))
  | [] => pure []
  | c :: cs => do
    let c ← c.copy
    let cs ← copy_all cs
    pure (c :: cs)

/-- The growth of `columns` by one element at its end (`push_back`, `emplace_back`), the new
element being already built. The vector moves its elements to a larger block; the move
constructor of `data_vector` is not `noexcept`, so they are copy-constructed. The capacity
(`reserve`) is not tracked: every growth is taken to move the elements. -/
def vector_grow {real : Type} (columns : List (data_vector real)) (c : data_vector real) :
    Except Error (List (data_vector real)) := do
  let columns ← copy_all columns
  pure (columns ++ [c])

def data_vector.as_real_vector {real : Type} (v : data_vector real) : Except Error (List real) :=
  if v.type ≠ DataType.LE then throw (Error.runtime_error "this is not a double vector")
  else
    match v.payload with
    | udata_vec.double_vector xs => pure xs
    | _ => throw Error.undefined_behaviour

def data_vector.as_string_vector {real : Type} (v : data_vector real) :
    Except Error (List Str) :=
  if v.type ≠ DataType.S then throw (Error.runtime_error "this is not a string vector")
  else
    match v.payload with
    | udata_vec.string_vector xs => pure xs
    | _ => throw Error.undefined_behaviour

def data_vector.as_int_vector {real : Type} (v : data_vector real) : Except Error (List Int) :=
  if v.type ≠ DataType.D then throw (Error.runtime_error "this is not an int vector")
  else
    match v.payload with
    | udata_vec.int_vector xs => pure xs
    | _ => throw Error.undefined_behaviour

/-- The accessor `as_real_vector_mut`: the const accessor with the const cast away. -/
def data_vector.as_real_vector_mut {real : Type} (v : data_vector real) :
    Except Error (List real) := v.as_real_vector

def data_vector.as_string_vector_mut {real : Type} (v : data_vector real) :
    Except Error (List Str) := v.as_string_vector

def data_vector.as_int_vector_mut {real : Type} (v : data_vector real) :
    Except Error (List Int) := v.as_int_vector

/-- The overload `push_back(int i)`. -/
def data_vector.push_back_int {real : Type} (v : data_vector real) (i : Int) :
    Except Error (data_vector real) := do
  let xs ← v.as_int_vector_mut
  pure { v with payload := udata_vec.int_vector (xs ++ [i]) }

/-- The overload `push_back(double d)`. -/
def data_vector.push_back_double {real : Type} (v : data_vector real) (d : real) :
    Except Error (data_vector real) := do
  let xs ← v.as_real_vector_mut
  pure { v with payload := udata_vec.double_vector (xs ++ [d]) }

/-- The overload `push_back(const std::string& s)`. -/
def data_vector.push_back_string {real : Type} (v : data_vector real) (s : Str) :
    Except Error (data_vector real) := do
  let xs ← v.as_string_vector_mut
  pure { v with payload := udata_vec.string_vector (xs ++ [s]) }

/-- The overload `push_back(bool b)`. -/
def data_vector.push_back_bool {real : Type} (v : data_vector real) (b : Bool) :
    Except Error (data_vector real) :=
  if v.type ≠ DataType.B then throw (Error.runtime_error "this is not a bool vector")
  else
    match v.payload with
    | udata_vec.bool_vector xs => pure { v with payload := udata_vec.bool_vector (xs ++ [b]) }
    | _ => throw Error.undefined_behaviour

def data_vector.convert_back {real : Type} [RealText real] (v : data_vector real) (s : Str) :
    Except Error (data_vector real) :=
  match v.type with
  | DataType.D => v.push_back_int (int_of_long (strtol s))
  | DataType.LE => v.push_back_double (RealText.strtod s)
  | DataType.S => v.push_back_string s
  | _ => pure v

def data_vector.size {real : Type} (v : data_vector real) : Except Error Nat :=
  match v.type with
  | DataType.D =>
    match v.payload with
    | udata_vec.int_vector xs => pure xs.length
    | _ => throw Error.undefined_behaviour
  | DataType.LE =>
    match v.payload with
    | udata_vec.double_vector xs => pure xs.length
    | _ => throw Error.undefined_behaviour
  | DataType.S =>
    match v.payload with
    | udata_vec.string_vector xs => pure xs.length
    | _ => throw Error.undefined_behaviour
  | _ => throw Error.undefined_behaviour

/-- The text `print_at(i, os)` appends to the stream. -/
def data_vector.print_at {real : Type} [RealText real] (v : data_vector real) (i : Nat) :
    Except Error Str :=
  match v.type with
  | DataType.D =>
    match v.payload with
    | udata_vec.int_vector xs => do
      let x ← vec_at xs i
      pure (setw FIELDWIDTH (put_int x) ++ [' '])
    | _ => throw Error.undefined_behaviour
  | DataType.LE =>
    match v.payload with
    | udata_vec.double_vector xs => do
      let x ← vec_at xs i
      pure (setw FIELDWIDTH (RealText.put x) ++ [' '])
    | _ => throw Error.undefined_behaviour
  | DataType.S =>
    match v.payload with
    | udata_vec.string_vector xs => do
      let x ← vec_at xs i
      pure (setw FIELDWIDTH x ++ [' '])
    | _ => throw Error.undefined_behaviour
  | _ => pure []

def DT_from_string (token : Str) : DataType :=
  if token = "%d".toList then DataType.D
  else if token = "%le".toList then DataType.LE
  else if token = "%b".toList then DataType.B
  else DataType.S

def string_fromDT (t : DataType) : Str :=
  match t with
  | DataType.D => "%d".toList
  | DataType.LE => "%le".toList
  | _ => "%s".toList

/-! ## tfs_dataframe.h -/

structure dataframe (real : Type) where
  columns : List (data_vector real)
  column_headers : std_map Nat
  properties : std_map (data_value real)
  idx : std_map Nat
  ini_complete : Bool
  deriving DecidableEq, Repr

/-- The constructor `dataframe()`. -/
def dataframe.empty (real : Type) : dataframe real := ⟨[], [], [], [], false⟩

/-- The overloads `add_column(const std::vector<double>& vec, name)` and
`add_column(std::vector<real>&& vec, name)`. -/
def dataframe.add_column_double {real : Type} (df : dataframe real) (vec : List real)
    (name : Str) : Except Error (dataframe real) := do
  let columns ← vector_grow df.columns ⟨udata_vec.double_vector vec, DataType.LE, name⟩
  pure { df with
    column_headers := map_assign df.column_headers name df.columns.length
    columns := columns }

/-- The overload `add_column(const std::vector<std::string>& vec, name)`. -/
def dataframe.add_column_string {real : Type} (df : dataframe real) (vec : List Str)
    (name : Str) : Except Error (dataframe real) := do
  let columns ← vector_grow df.columns ⟨udata_vec.string_vector vec, DataType.S, name⟩
  pure { df with
    column_headers := map_assign df.column_headers name df.columns.length
    columns := columns }

/-- The overload `add_column(const std::vector<int>& vec, name)`. -/
def dataframe.add_column_int {real : Type} (df : dataframe real) (vec : List Int)
    (name : Str) : Except Error (dataframe real) := do
  let columns ← vector_grow df.columns ⟨udata_vec.int_vector vec, DataType.D, name⟩
  pure { df with
    column_headers := map_assign df.column_headers name df.columns.length
    columns := columns }

/-- The overload `add_column(const data_vector<real>& vec, name)`: `push_back(vec)` builds
the new element with the copy constructor. -/
def dataframe.add_column_vector {real : Type} (df : dataframe real) (vec : data_vector real)
    (name : Str) : Except Error (dataframe real) := do
  let v ← vec.copy
  let columns ← vector_grow df.columns v
  pure { df with
    column_headers := map_assign df.column_headers name df.columns.length
    columns := columns }

/-- The overload `add_column(name, t)`: `emplace_back(t, name)` builds the new element in
place; the reference it returns is to the last column. -/
def dataframe.add_column_kind {real : Type} (df : dataframe real) (name : Str)
    (t : DataType) : Except Error (dataframe real) := do
  let columns ← vector_grow df.columns (data_vector.new real t name)
  pure { df with
    column_headers := map_assign df.column_headers name df.columns.length
    columns := columns }

/-- The lookup `get_property(key)`, that is `properties[key]`: the value and the table after
the call. -/
def dataframe.get_property {real : Type} (df : dataframe real) (key : Str) :
    data_value real × dataframe real :=
  let r := map_index df.properties key (data_value.default real)
  (r.1, { df with properties := r.2 })

/-- The call `insert_property(key, value)`; `value` is the `data_value<real>{value}` the
function builds from its argument. -/
def dataframe.insert_property {real : Type} (df : dataframe real) (key : Str)
    (value : data_value real) : dataframe real :=
  { df with properties := map_insert df.properties key value }

def dataframe.size {real : Type} (df : dataframe real) : Except Error Nat :=
  if df.columns.length = 0 then pure 0
  else
    match df.column_headers with
    | [] => throw Error.undefined_behaviour
    | kvp :: _ => do
      let c ← vec_at df.columns kvp.2
      c.size

/-- The lookup `get_index(key)`, that is `idx[key]`. -/
def dataframe.get_index {real : Type} (df : dataframe real) (key : Str) :
    Nat × dataframe real :=
  let r := map_index df.idx key 0
  (r.1, { df with idx := r.2 })

/-- The lookup `get_column(name)`, that is `columns[column_headers[name]]`. -/
def dataframe.get_column {real : Type} (df : dataframe real) (name : Str) :
    Except Error (data_vector real × dataframe real) :=
  let r := map_index df.column_headers name 0
  do
    let c ← vec_at df.columns r.1
    pure (c, { df with column_headers := r.2 })

/-- The lookup `get_column(index)`. -/
def dataframe.get_column_at {real : Type} (df : dataframe real) (index : Nat) :
    Except Error (data_vector real) := vec_at df.columns index

/-- Offset of the first character of `s` that is one of `delims`. -/
def first_of (delims : Str) : Str → Option Nat
  | [] => none
  | c :: cs => if c ∈ delims then some 0 else (first_of delims cs).map (· + 1)

/-- Offset of the first character of `s` that is none of `delims`. -/
def first_not_of (delims : Str) : Str → Option Nat
  | [] => none
  | c :: cs => if c ∈ delims then (first_not_of delims cs).map (· + 1) else some 0

/-- The call `str.find_first_of(delims, pos)`; `none` is `npos`. -/
def find_first_of (str delims : Str) (pos : Nat) : Option Nat :=
  (first_of delims (str.drop pos)).map (· + pos)

/-- The call `str.find_first_not_of(delims, pos)`; `none` is `npos`. -/
def find_first_not_of (str delims : Str) (pos : Nat) : Option Nat :=
  (first_not_of delims (str.drop pos)).map (· + pos)

/-- The `while (lastPos < length + 1)` loop of `tokenize`. -/
def tokenize_loop (str delimiters : Str) (trimEmpty : Bool) (length : Nat) :
    Nat → Option Nat → List Str → Except Error (List Str)
  | 0, _, _ => throw Error.out_of_fuel
  | fuel + 1, lastPos, tokens =>
    match lastPos with
    | none => pure tokens
    | some lp =>
      if lp < length + 1 then
        let pos := (find_first_of str delimiters lp).getD length
        let tokens :=
          if pos ≠ lp ∨ trimEmpty = false then tokens ++ [(str.drop lp).take (pos - lp)]
          else tokens
        tokenize_loop str delimiters trimEmpty length fuel
          (find_first_not_of str delimiters pos) tokens
      else pure tokens

/-- The function `tokenize(str, tokens, delimiters, trimEmpty)`: the token container after
the call. The callers in this file pass the defaults `" "` and `false`. -/
def tokenize (str : Str) (tokens : List Str) (delimiters : Str) (trimEmpty : Bool) :
    Except Error (List Str) :=
  tokenize_loop str delimiters trimEmpty str.length (str.length + 1)
    (find_first_not_of str delimiters 0) tokens

/-- A `std::ifstream`: the characters not read yet, and whether the stream is `good()`. -/
structure ifstream where
  buf : Str
  good : Bool
  deriving DecidableEq, Repr

/-- The call `std::getline(file, line)`: whether it succeeded, the stream and the line after
it. A stream that is not good leaves `line` as it is; otherwise `line` is erased and filled
up to the next newline, which is dropped; reaching the end of the input sets `eofbit`, and
extracting nothing fails. -/
def getline (file : ifstream) (line : Str) : Bool × ifstream × Str :=
  if file.good = false then (false, file, line)
  else
    match file.buf with
    | [] => (false, ⟨[], false⟩, [])
    | c :: cs =>
      match (c :: cs).dropWhile (· ≠ '\n') with
      | [] => (true, ⟨[], false⟩, (c :: cs).takeWhile (· ≠ '\n'))
      | _ :: rest => (true, ⟨rest, true⟩, (c :: cs).takeWhile (· ≠ '\n'))

/-- The string joined by `std::copy(first, last, std::ostream_iterator(ss, " "))`. -/
def copy_tokens : List Str → Str
  | [] => []
  | t :: ts => t ++ [' '] ++ copy_tokens ts

def dataframe.read_property {real : Type} [RealText real] (df : dataframe real) (line : Str) :
    Except Error (dataframe real) := do
  let tokens ← tokenize line [] [' '] false
  let t2 ← vec_at tokens 2
  match DT_from_string t2 with
  | DataType.D => do
    let t1 ← vec_at tokens 1
    let t3 ← vec_at tokens 3
    pure { df with
      properties := map_insert df.properties t1 (data_value.from_int real (int_of_long (strtol t3))) }
  | DataType.LE => do
    let t1 ← vec_at tokens 1
    let t3 ← vec_at tokens 3
    pure { df with
      properties := map_insert df.properties t1 (data_value.from_double (RealText.strtod t3)) }
  | _ => do
    let t1 ← vec_at tokens 1
    pure { df with
      properties :=
        map_insert df.properties t1 (data_value.from_string real (copy_tokens (tokens.drop 3))) }

/-- The loop of `read_column_headers` over the tokens after the first, from index `i`. -/
def insert_headers (m : std_map Nat) : List Str → Nat → std_map Nat
  | [], _ => m
  | t :: ts, i => insert_headers (map_insert m t i) ts (i + 1)

/-- The function `read_column_headers`; with no token at all the bound `tokens.size() - 1`
wraps around and `tokens[1]` is out of range. -/
def dataframe.read_column_headers {real : Type} (df : dataframe real) (line : Str) :
    Except Error (dataframe real) := do
  let tokens ← tokenize line [] [' '] false
  match tokens with
  | [] => throw Error.undefined_behaviour
  | _ :: names => pure { df with column_headers := insert_headers df.column_headers names 0 }

/-- The loop of `read_column_types` over the tokens after the first: one
`columns.emplace_back(DT_from_string(token), "")` each. -/
def emplace_types {real : Type} (columns : List (data_vector real)) :
    List Str → Except Error (List (data_vector real))
  | [] => pure columns
  | t :: ts => do
    let columns ← vector_grow columns (data_vector.new real (DT_from_string t) [])
    emplace_types columns ts

/-- The function `read_column_types`; with no token at all `tokens.begin() + 1` is past
the end. -/
def dataframe.read_column_types {real : Type} (df : dataframe real) (line : Str) :
    Except Error (dataframe real) := do
  let tokens ← tokenize line [] [' '] false
  match tokens with
  | [] => throw Error.undefined_behaviour
  | _ :: tags => do
    let columns ← emplace_types df.columns tags
    pure { df with columns := columns }

/-- The loop of `read_line` over the tokens, from index `i`. -/
def read_line_loop {real : Type} [RealText real] :
    List (data_vector real) → List Str → Nat → Except Error (List (data_vector real))
  | columns, [], _ => pure columns
  | columns, t :: ts, i => do
    let c ← vec_at columns i
    let c ← c.convert_back t
    read_line_loop (columns.set i c) ts (i + 1)

def dataframe.read_line {real : Type} [RealText real] (df : dataframe real) (line : Str) :
    Except Error (dataframe real) := do
  let tokens ← tokenize line [] [' '] false
  let columns ← read_line_loop df.columns tokens 0
  pure { df with columns := columns }

def dataframe.check_ini {real : Type} (df : dataframe real) : dataframe real :=
  if 0 < df.columns.length ∧ df.columns.length = df.column_headers.length then
    { df with ini_complete := true }
  else df

/-- The character `line[0]`; for an empty string it is the terminating null character. -/
def line_front (line : Str) : Char := line.headD (Char.ofNat 0)

/-- The body of the first loop of the constructor: dispatch on `line[0]`, then `check_ini`. -/
def dataframe.read_header_line {real : Type} [RealText real] (df : dataframe real)
    (line : Str) : Except Error (dataframe real) := do
  let df ←
    if line_front line = '@' then df.read_property line
    else if line_front line = '*' then df.read_column_headers line
    else if line_front line = '$' then df.read_column_types line
    else pure df
  pure df.check_ini

/-- The loop `while (std::getline(file, line) && !ini_complete)` of the constructor. -/
def header_loop {real : Type} [RealText real] :
    Nat → ifstream → Str → dataframe real → Except Error (ifstream × Str × dataframe real)
  | 0, _, _, _ => throw Error.out_of_fuel
  | fuel + 1, file, line, df =>
    let r := getline file line
    if r.1 = true ∧ df.ini_complete = false then do
      let df ← df.read_header_line r.2.2
      header_loop fuel r.2.1 r.2.2 df
    else pure (r.2.1, r.2.2, df)

/-- The loop `do read_line(line); while (std::getline(file, line));` of the constructor. -/
def row_loop {real : Type} [RealText real] :
    Nat → ifstream → Str → dataframe real → Except Error (dataframe real)
  | 0, _, _, _ => throw Error.out_of_fuel
  | fuel + 1, file, line, df => do
    let df ← df.read_line line
    let r := getline file line
    if r.1 = true then row_loop fuel r.2.1 r.2.2 df
    else pure df

/-- The loop of the constructor that fills `idx` from the index column, from row `i`. -/
def insert_index (m : std_map Nat) : List Str → Nat → std_map Nat
  | [], _ => m
  | s :: rest, i => insert_index (map_insert m s i) rest (i + 1)

/-- The constructor `dataframe(path, index)` on a file that holds `text`. -/
def dataframe.read {real : Type} [RealText real] (text : Str) (index : Str) :
    Except Error (dataframe real) := do
  let r ← header_loop (text.length + 1) ⟨text, true⟩ [] (dataframe.empty real)
  let df ← row_loop (text.length + 1) r.1 r.2.1 r.2.2
  if index = [] then pure df
  else do
    let c ← df.get_column index
    match c.1.payload with
    | udata_vec.string_vector index_col =>
      pure { c.2 with idx := insert_index c.2.idx index_col 0 }
    | _ => throw Error.undefined_behaviour

/-- The property lines written by `to_file`. -/
def write_properties {real : Type} [RealText real] :
    std_map (data_value real) → Except Error Str
  | [] => pure []
  | kvp :: rest => do
    let v ← kvp.2.pretty_print
    let tail ← write_properties rest
    pure ("@ ".toList ++ setw 32 kvp.1 ++ " ".toList ++ setw 4 (string_fromDT kvp.2.type)
      ++ " ".toList ++ v ++ "\n".toList ++ tail)

/-- The names written by `to_file` after `"* "`. -/
def write_headers : std_map Nat → Str
  | [] => []
  | kvp :: rest => setw FIELDWIDTH kvp.1 ++ " ".toList ++ write_headers rest

/-- The type tags written by `to_file` after `"$ "`. -/
def write_types {real : Type} (columns : List (data_vector real)) :
    std_map Nat → Except Error Str
  | [] => pure []
  | c :: rest => do
    let col ← vec_at columns c.2
    let tail ← write_types columns rest
    pure (setw FIELDWIDTH (string_fromDT col.type) ++ " ".toList ++ tail)

/-- The fields of row `i` written by `to_file`. -/
def write_row {real : Type} [RealText real] (columns : List (data_vector real)) (i : Nat) :
    std_map Nat → Except Error Str
  | [] => pure []
  | c :: rest => do
    let col ← vec_at columns c.2
    let field ← col.print_at i
    let tail ← write_row columns i rest
    pure (field ++ tail)

/-- The row lines `i, i + 1, ...` written by `to_file`, `n` of them. -/
def write_rows {real : Type} [RealText real] (df : dataframe real) :
    Nat → Nat → Except Error Str
  | 0, _ => pure []
  | n + 1, i => do
    let row ← write_row df.columns i df.column_headers
    let tail ← write_rows df n (i + 1)
    pure ("  ".toList ++ row ++ "\n".toList ++ tail)

/-- The text `to_file` writes to a file that could be opened. -/
def dataframe.to_file {real : Type} [RealText real] (df : dataframe real) :
    Except Error Str := do
  let props ← write_properties df.properties
  let types ← write_types df.columns df.column_headers
  let n ← df.size
  let rows ← write_rows df n 0
  pure (props ++ "* ".toList ++ write_headers df.column_headers ++ "\n$ ".toList ++ types
    ++ "\n".toList ++ rows)

/-! ## Example instantiation -/

/-- A `real` with whole values only, written and read like an `int`; it instantiates the
template parameter where examples are evaluated. -/
structure whole where
  val : Int
  deriving DecidableEq, Repr

instance : RealText whole where
  strtod s := ⟨strtol s⟩
  put x := put_int x.val
  zero := ⟨0⟩

/-- The calls of the test `ReadAndWriteTest` on `dataframe()`, without its `doubles` column
and with whole values for `Q1` and `Q2`. -/
def twiss_calls : Except Error (dataframe whole) := do
  let t0 := dataframe.empty whole
  let t1 ← t0.add_column_string
    ["one".toList, "two".toList, "three".toList, "four".toList, "five".toList] "strings".toList
  let t2 ← t1.add_column_int [1, 2, 3, 4, 5] "ints".toList
  let t3 := t2.insert_property "Q1".toList (data_value.from_double (⟨62⟩ : whole))
  let t4 := t3.insert_property "Q2".toList (data_value.from_double (⟨60⟩ : whole))
  pure (t4.insert_property "Comment".toList (data_value.from_string whole "hello world".toList))

/-- The table of the test `ReadAndWriteTest` as `twiss_calls` leaves it. -/
def twiss : dataframe whole :=
  ⟨[⟨udata_vec.string_vector ["one".toList, "two".toList, "three".toList, "four".toList,
        "five".toList], DataType.S, "strings".toList⟩,
      ⟨udata_vec.int_vector [1, 2, 3, 4, 5], DataType.D, "ints".toList⟩],
    [("ints".toList, 1), ("strings".toList, 0)],
    [("Comment".toList, data_value.from_string whole "hello world".toList),
      ("Q1".toList, data_value.from_double (⟨62⟩ : whole)),
      ("Q2".toList, data_value.from_double (⟨60⟩ : whole))],
    [], false⟩

/-! ## Vocabulary of the statements -/

/-- A sequence handed to `add_column(sequence, name)`; its element type picks the overload. -/
inductive sequence (real : Type) where
  | ints (v : List Int)
  | doubles (v : List real)
  | strings (v : List Str)
  deriving DecidableEq, Repr

/-- The call `add_column(sequence, name)`, resolved by the element type of the sequence. -/
def dataframe.add_column {real : Type} (df : dataframe real) (seq : sequence real)
    (name : Str) : Except Error (dataframe real) :=
  match seq with
  | sequence.ints v => df.add_column_int v name
  | sequence.doubles v => df.add_column_double v name
  | sequence.strings v => df.add_column_string v name

/-- The column `add_column(sequence, name)` stores. -/
def sequence.column {real : Type} (seq : sequence real) (name : Str) : data_vector real :=
  match seq with
  | sequence.ints v => ⟨udata_vec.int_vector v, DataType.D, name⟩
  | sequence.doubles v => ⟨udata_vec.double_vector v, DataType.LE, name⟩
  | sequence.strings v => ⟨udata_vec.string_vector v, DataType.S, name⟩

/-- The kind and the active union member of a column agree (kinds `B` and `C` have no
member of their own). -/
def data_vector.consistent {real : Type} (v : data_vector real) : Bool :=
  match v.type, v.payload with
  | DataType.D, udata_vec.int_vector _ => true
  | DataType.LE, udata_vec.double_vector _ => true
  | DataType.S, udata_vec.string_vector _ => true
  | DataType.B, _ => true
  | DataType.C, _ => true
  | _, _ => false

/-- The keys of a map are strictly ascending, as in every `std::map`. -/
def map_sorted {V : Type} (m : std_map V) : Prop :=
  m.Pairwise (fun a b => str_lt a.1 b.1 = true)

/-- The value fits an `int`. -/
def int_range (i : Int) : Prop := -2147483648 ≤ i ∧ i ≤ 2147483647

/-- The table after two columns were added under the names `b` and then `a`, of three rows
and of one row. -/
def two_lengths : dataframe whole :=
  ⟨[⟨udata_vec.int_vector [1, 2, 3], DataType.D, "b".toList⟩,
      ⟨udata_vec.int_vector [1], DataType.D, "a".toList⟩],
    [("a".toList, 1), ("b".toList, 0)], [], [], false⟩

/-- The string is not empty and holds neither a space nor a newline: written into a line
of the file it reads back as one token. -/
def token_ok (s : Str) : Prop := s ≠ [] ∧ ' ' ∉ s ∧ '\n' ∉ s

instance (s : Str) : Decidable (token_ok s) := by
  unfold token_ok
  exact inferInstance

/-- The maximal runs of characters other than the space in `rest`, the first one continuing
the run `cur` read so far. -/
def words_aux : Str → Str → List Str
  | cur, [] => if cur = [] then [] else [cur]
  | cur, c :: cs =>
    if c = ' ' then (if cur = [] then words_aux [] cs else cur :: words_aux [] cs)
    else words_aux (cur ++ [c]) cs

/-- The maximal runs of characters other than the space, in order of occurrence. -/
def words (s : Str) : List Str := words_aux [] s

/-- The text made of the given lines, each one ended by a newline. -/
def unlines : List Str → Str
  | [] => []
  | l :: ls => l ++ '\n' :: unlines ls

/-- The column of kind `t` that `convert_back` builds from the tokens `toks`, starting from
the empty column `data_vector(t, "")`. -/
def converted {real : Type} [RealText real] (t : DataType) (toks : List Str) :
    data_vector real :=
  match t with
  | DataType.D =>
    ⟨udata_vec.int_vector (toks.map (fun s => int_of_long (strtol s))), DataType.D, []⟩
  | DataType.LE => ⟨udata_vec.double_vector (toks.map RealText.strtod), DataType.LE, []⟩
  | DataType.S => ⟨udata_vec.string_vector toks, DataType.S, []⟩
  | DataType.B => data_vector.new real DataType.B []
  | DataType.C => data_vector.new real DataType.C []

/-- For each of the first `n` positions, the tokens the rows hold at that position. -/
def column_tokens (n : Nat) (rows : List (List Str)) : List (List Str) :=
  (List.range n).map (fun j => rows.map (fun r => r.getD j []))

/-- The fields `to_file` writes for the texts `ts`: each right-justified in 15 characters
and followed by a space. -/
def fields : List Str → Str
  | [] => []
  | t :: ts => setw FIELDWIDTH t ++ ' ' :: fields ts

/-- The texts `print_at` writes for the elements of a column, without padding. -/
def cell_texts {real : Type} [RealText real] (c : data_vector real) : List Str :=
  match c.payload with
  | udata_vec.int_vector xs => xs.map put_int
  | udata_vec.double_vector xs => xs.map RealText.put
  | udata_vec.string_vector xs => xs
  | udata_vec.bool_vector _ => []

/-- The text `os << value` writes for a property value (empty when `pretty_print` throws). -/
def value_text {real : Type} [RealText real] (v : data_value real) : Str :=
  match v.pretty_print with
  | Except.ok s => s
  | Except.error _ => []

/-- The line `to_file` writes for a property, without its newline. -/
def property_line {real : Type} [RealText real] (kvp : Str × data_value real) : Str :=
  '@' :: ' ' :: (setw 32 kvp.1 ++ ' ' :: (setw 4 (string_fromDT kvp.2.type) ++ ' ' ::
    value_text kvp.2))

/-- The header line `to_file` writes for the names, without its newline. -/
def header_line (names : List Str) : Str := '*' :: ' ' :: fields names

/-- The type line `to_file` writes for the columns, without its newline. -/
def type_line {real : Type} (cs : List (data_vector real)) : Str :=
  '$' :: ' ' :: fields (cs.map (fun c => string_fromDT c.type))

/-- The line `to_file` writes for row `i` of the columns, without its newline. -/
def row_line {real : Type} [RealText real] (cs : List (data_vector real)) (i : Nat) : Str :=
  ' ' :: ' ' :: fields (cs.map (fun c => (cell_texts c).getD i []))

/-- The column can be written and read back: its kind is `D`, `LE` or `S`, the stored
sequence is of that kind, every `int` is in range, the text written for every float is one
token that `strtod` reads back as that float, and every string is one token. -/
def column_ok {real : Type} [RealText real] (c : data_vector real) : Prop :=
  match c.type, c.payload with
  | DataType.D, udata_vec.int_vector xs => ∀ x ∈ xs, int_range x
  | DataType.LE, udata_vec.double_vector xs =>
    ∀ x ∈ xs, token_ok (RealText.put x) ∧ RealText.strtod (RealText.put x) = x
  | DataType.S, udata_vec.string_vector xs => ∀ x ∈ xs, token_ok x
  | _, _ => False

/-- The property value can be written and read back: an `int` in range, or a float whose
text is one token that `strtod` reads back as that float. -/
def property_ok {real : Type} [RealText real] (v : data_value real) : Prop :=
  match v.type, v.payload with
  | DataType.D, variant.int i => int_range i
  | DataType.LE, variant.real r =>
    token_ok (RealText.put r) ∧ RealText.strtod (RealText.put r) = r
  | _, _ => False

/-- The names, numbered from `i` on. -/
def number_from : Nat → List Str → std_map Nat
  | _, [] => []
  | i, t :: ts => (t, i) :: number_from (i + 1) ts

/-- The column as the constructor rebuilds it: same kind and elements, empty name. -/
def data_vector.unnamed {real : Type} (c : data_vector real) : data_vector real :=
  ⟨c.payload, c.type, []⟩

/-- The table built from `dataframe()` by the calls `add_column(sequence, name)`, in the
order of the list. -/
def build {real : Type} (cols : List (sequence real × Str)) : Except Error (dataframe real) :=
  cols.foldlM (fun df c => df.add_column c.1 c.2) (dataframe.empty real)

instance (i : Int) : Decidable (int_range i) := by
  unfold int_range
  exact inferInstance

/-- The sequence can be written and read back as a column of `R` rows: every `int` is in
range, every string is one token, and the text written for every float is one token that
`strtod` reads back as that float. -/
def sequence_ok {real : Type} [RealText real] (seq : sequence real) (R : Nat) : Prop :=
  match seq with
  | sequence.ints v => v.length = R ∧ ∀ x ∈ v, int_range x
  | sequence.strings v => v.length = R ∧ ∀ x ∈ v, token_ok x
  | sequence.doubles v =>
    v.length = R ∧ ∀ x ∈ v, token_ok (RealText.put x) ∧ RealText.strtod (RealText.put x) = x

/-- The `strings` and `ints` columns of the test `ReadAndWriteTest`. -/
def test_columns : List (sequence whole × Str) :=
  [(sequence.strings ["one".toList, "two".toList, "three".toList, "four".toList,
      "five".toList], "strings".toList),
    (sequence.ints [1, 2, 3, 4, 5], "ints".toList)]

/-- One `int` column of one row whose name holds a space, as
`build [(sequence.ints [7], "a b")]` leaves it. -/
def spaced_name : dataframe whole :=
  ⟨[⟨udata_vec.int_vector [7], DataType.D, "a b".toList⟩], [("a b".toList, 0)], [], [], false⟩

/-- One string column of one row whose cell holds a single space between two words, as
`build [(sequence.strings ["x y"], "s")]` leaves it. -/
def spaced_cell : dataframe whole :=
  ⟨[⟨udata_vec.string_vector ["x y".toList], DataType.S, "s".toList⟩], [("s".toList, 0)], [],
    [], false⟩

/-- One string column of one row whose cell is the empty string, as
`build [(sequence.strings [""], "a")]` leaves it. -/
def empty_cell : dataframe whole :=
  ⟨[⟨udata_vec.string_vector [[]], DataType.S, "a".toList⟩], [("a".toList, 0)], [], [],
    false⟩

/-- A table without columns and with one `int` property under the empty key. -/
def empty_key : dataframe whole :=
  (dataframe.empty whole).insert_property [] (data_value.from_int whole 5)

/-- The column holds the sequence: it has the kind of the sequence's element type and the
accessor of that kind returns exactly the sequence. -/
def holds {real : Type} (col : data_vector real) (seq : sequence real) : Prop :=
  match seq with
  | sequence.ints v => col.type = DataType.D ∧ col.as_int_vector = Except.ok v
  | sequence.strings v => col.type = DataType.S ∧ col.as_string_vector = Except.ok v
  | sequence.doubles v => col.type = DataType.LE ∧ col.as_real_vector = Except.ok v

/-- The `strings` and `ints` columns of the test `ReadAndWriteTest` with two properties:
the table `build test_columns` with `Q1` and then `N` inserted. -/
def test_table : dataframe whole :=
  ⟨[⟨udata_vec.string_vector ["one".toList, "two".toList, "three".toList, "four".toList,
        "five".toList], DataType.S, "strings".toList⟩,
      ⟨udata_vec.int_vector [1, 2, 3, 4, 5], DataType.D, "ints".toList⟩],
    [("ints".toList, 1), ("strings".toList, 0)],
    [("N".toList, data_value.from_int whole 3),
      ("Q1".toList, data_value.from_double (⟨62⟩ : whole))],
    [], false⟩

/-- The registered columns of `test_table`, by ascending name. -/
def test_table_columns : List (data_vector whole) :=
  [⟨udata_vec.int_vector [1, 2, 3, 4, 5], DataType.D, "ints".toList⟩,
    ⟨udata_vec.string_vector ["one".toList, "two".toList, "three".toList, "four".toList,
      "five".toList], DataType.S, "strings".toList⟩]

/-- The number written by a run of decimal digits. -/
def decimal (ds : Str) : Nat := ds.foldl (fun acc c => acc * 10 + (c.toNat - 48)) 0

/-- The string starts with a digit, or with a sign that a digit follows. -/
def numeric_start (s : Str) : Bool :=
  match s with
  | [] => false
  | c :: t => isdigit c || ((c == '-' || c == '+') && (t.head?.map isdigit).getD false)

/-- The column after `convert_back(t)` on a column of kind `D`, `LE` or `S`: the conversion
of the token is appended to the stored sequence. -/
def appended {real : Type} [RealText real] (c : data_vector real) (t : Str) :
    data_vector real :=
  match c.payload with
  | udata_vec.int_vector xs =>
    { c with payload := udata_vec.int_vector (xs ++ [int_of_long (strtol t)]) }
  | udata_vec.double_vector xs =>
    { c with payload := udata_vec.double_vector (xs ++ [RealText.strtod t]) }
  | udata_vec.string_vector xs => { c with payload := udata_vec.string_vector (xs ++ [t]) }
  | udata_vec.bool_vector _ => c

/-- The column is of kind `D`, `LE` or `S` and stores a sequence of that kind. -/
def readable {real : Type} (c : data_vector real) : Prop :=
  c.consistent = true ∧ c.type ≠ DataType.B ∧ c.type ≠ DataType.C

instance {real : Type} (c : data_vector real) : Decidable (readable c) := by
  unfold readable
  exact inferInstance

/-- A table of two `int` columns with one row, as the constructor leaves it. -/
def two_columns : dataframe whole :=
  ⟨[⟨udata_vec.int_vector [1], DataType.D, []⟩, ⟨udata_vec.int_vector [2], DataType.D, []⟩],
    [("a".toList, 0), ("b".toList, 1)], [], [], true⟩

/-- The 0-based position of the first occurrence of `x` in the list (its length when `x`
does not occur). -/
def first_index (l : List Str) (x : Str) : Nat :=
  match l with
  | [] => 0
  | t :: ts => if t = x then 0 else first_index ts x + 1

/-- The kind and the active alternative of a property value agree, as every constructor of
`data_value` leaves them. -/
def data_value.consistent {real : Type} (v : data_value real) : Bool :=
  match v.type, v.payload with
  | DataType.D, variant.int _ => true
  | DataType.LE, variant.real _ => true
  | DataType.B, variant.bool _ => true
  | DataType.C, variant.complex _ _ => true
  | DataType.S, variant.string _ => true
  | _, _ => false

/-- A table of one string and one `int` column with one row, one property and the index
of its string column, as the constructor leaves it. -/
def indexed_table : dataframe whole :=
  ⟨[⟨udata_vec.string_vector ["x".toList], DataType.S, []⟩,
      ⟨udata_vec.int_vector [1], DataType.D, []⟩],
    [("n".toList, 0), ("v".toList, 1)], [("N".toList, data_value.from_int whole 3)],
    [("x".toList, 0)], true⟩

/-- The computation ended: with a result or with an error of the program, and not because
the bound on the number of loop iterations was reached. -/
def terminated {α : Type} (x : Except Error α) : Prop := x ≠ Except.error Error.out_of_fuel

/-- The number of characters a stream can still deliver. -/
def ifstream.remaining (file : ifstream) : Nat := if file.good then file.buf.length else 0

/-- The column can be written and parsed: its kind is `D`, `LE` or `S`, the stored sequence
is of that kind, every `int` is in range, the text written for every float is one token,
and every string is one token. -/
def column_printable {real : Type} [RealText real] (c : data_vector real) : Prop :=
  match c.type, c.payload with
  | DataType.D, udata_vec.int_vector xs => ∀ x ∈ xs, int_range x
  | DataType.LE, udata_vec.double_vector xs => ∀ x ∈ xs, token_ok (RealText.put x)
  | DataType.S, udata_vec.string_vector xs => ∀ x ∈ xs, token_ok x
  | _, _ => False

/-- The property value can be written on one line and parsed: an `int` in range, a float
whose text is one token, or a string without a newline. -/
def property_printable {real : Type} [RealText real] (v : data_value real) : Prop :=
  match v.type, v.payload with
  | DataType.D, variant.int i => int_range i
  | DataType.LE, variant.real r => token_ok (RealText.put r)
  | DataType.S, variant.string s => '\n' ∉ s
  | _, _ => False

/-- The value `read_property` stores for the line `to_file` writes for `v`: the float read
from the text of a float, the tokens of a string joined by `copy_tokens`; an `int` in range
is read as itself. -/
def reread {real : Type} [RealText real] (v : data_value real) : data_value real :=
  match v.type, v.payload with
  | DataType.LE, variant.real r => data_value.from_double (RealText.strtod (RealText.put r))
  | DataType.S, variant.string s => data_value.from_string real (copy_tokens (words s))
  | _, _ => v

/-- The table can be written and the text parsed. Its registered columns, in the order of
`column_headers`, are `cs`; each of them can be written and parsed and has `R` elements; a
table with no registered name has no column; the keys of `column_headers` and of
`properties` are ascending, as in every `std::map`, and each is one token; every property
value is an `int`, a float whose text is one token, or a string without a newline. -/
structure printable {real : Type} [RealText real] (df : dataframe real)
    (cs : List (data_vector real)) (R : Nat) : Prop where
  registered : List.Forall₂ (fun kv c => df.columns.get? kv.2 = some c) df.column_headers cs
  columns_ok : ∀ c ∈ cs, column_printable c ∧ (cell_texts c).length = R
  unregistered : df.column_headers = [] → df.columns = [] ∧ R = 0
  headers_sorted : map_sorted df.column_headers
  names_ok : ∀ kv ∈ df.column_headers, token_ok kv.1
  properties_sorted : map_sorted df.properties
  properties_ok : ∀ kv ∈ df.properties, token_ok kv.1 ∧ property_printable kv.2

/-- The text written for every float of the column is also the text written for the float
read from it. -/
def column_stable {real : Type} [RealText real] (c : data_vector real) : Prop :=
  match c.payload with
  | udata_vec.double_vector xs =>
    ∀ x ∈ xs, RealText.put (RealText.strtod (RealText.put x) : real) = RealText.put x
  | _ => True

/-- The property value is an `int`, or a float whose text is also the text written for the
float read from it. -/
def property_stable {real : Type} [RealText real] (v : data_value real) : Prop :=
  match v.type, v.payload with
  | DataType.D, variant.int _ => True
  | DataType.LE, variant.real r =>
    RealText.put (RealText.strtod (RealText.put r) : real) = RealText.put r
  | _, _ => False

/-- The registered columns of `twiss`, by ascending name. -/
def twiss_columns : List (data_vector whole) :=
  [⟨udata_vec.int_vector [1, 2, 3, 4, 5], DataType.D, "ints".toList⟩,
    ⟨udata_vec.string_vector ["one".toList, "two".toList, "three".toList, "four".toList,
      "five".toList], DataType.S, "strings".toList⟩]

/-! # Properties -/

/-! ## The order of `std::string` and `std::map` -/

theorem str_lt_irrefl (a : Str) : str_lt a a = false := by
  induction a with
  | nil => rfl
  | cons c cs ih => simp [str_lt, ih]

theorem str_lt_asymm : ∀ (a b : Str), str_lt a b = true → str_lt b a = false
  | [], [], h => by simp [str_lt] at h
  | [], _ :: _, _ => by simp [str_lt]
  | _ :: _, [], h => by simp [str_lt] at h
  | a :: as, b :: bs, h => by
    simp only [str_lt] at h ⊢
    by_cases h1 : a.toNat < b.toNat
    · have h2 : ¬ b.toNat < a.toNat := by omega
      simp [h2, h1]
    · by_cases h2 : b.toNat < a.toNat
      · simp [h1, h2] at h
      · simp only [h1, h2, if_false] at h ⊢
        exact str_lt_asymm as bs h

theorem char_eq_of_toNat {a b : Char} (h : a.toNat = b.toNat) : a = b := by
  rw [← Char.ofNat_toNat a, ← Char.ofNat_toNat b, h]

theorem str_lt_total : ∀ (a b : Str), str_lt a b = false → str_lt b a = false → a = b
  | [], [], _, _ => rfl
  | [], _ :: _, h, _ => by simp [str_lt] at h
  | _ :: _, [], _, h => by simp [str_lt] at h
  | a :: as, b :: bs, h, h' => by
    simp only [str_lt] at h h'
    by_cases h1 : a.toNat < b.toNat
    · simp [h1] at h
    · by_cases h2 : b.toNat < a.toNat
      · simp [h2] at h'
      · simp only [h1, h2, if_false] at h h'
        have hc : a = b := char_eq_of_toNat (by omega)
        rw [hc, str_lt_total as bs h h']

theorem str_lt_trans : ∀ (a b c : Str), str_lt a b = true → str_lt b c = true →
    str_lt a c = true
  | [], [], _, h, _ => by simp [str_lt] at h
  | [], _ :: _, [], _, h => by simp [str_lt] at h
  | [], _ :: _, _ :: _, _, _ => by simp [str_lt]
  | _ :: _, [], _, h, _ => by simp [str_lt] at h
  | _ :: _, _ :: _, [], _, h => by simp [str_lt] at h
  | a :: as, b :: bs, c :: cs, h, h' => by
    simp only [str_lt] at h h' ⊢
    by_cases h1 : a.toNat < b.toNat
    · by_cases h2 : b.toNat < c.toNat
      · have : a.toNat < c.toNat := by omega
        simp [this]
      · by_cases h3 : c.toNat < b.toNat
        · simp [h2, h3] at h'
        · have : a.toNat < c.toNat := by omega
          simp [this]
    · by_cases h1' : b.toNat < a.toNat
      · simp [h1, h1'] at h
      · simp only [h1, h1', if_false] at h
        by_cases h2 : b.toNat < c.toNat
        · have : a.toNat < c.toNat := by omega
          simp [this]
        · by_cases h3 : c.toNat < b.toNat
          · simp [h2, h3] at h'
          · simp only [h2, h3, if_false] at h'
            have e1 : ¬ a.toNat < c.toNat := by omega
            have e2 : ¬ c.toNat < a.toNat := by omega
            simp only [e1, e2, if_false]
            exact str_lt_trans as bs cs h h'

theorem str_lt_ne {a b : Str} (h : str_lt a b = true) : a ≠ b := by
  intro e
  rw [e, str_lt_irrefl] at h
  exact Bool.false_ne_true h

theorem map_find_insert_self {V : Type} (m : std_map V) (k : Str) (v : V)
    (h : map_find m k = none) : map_find (map_insert m k v) k = some v := by
  induction m with
  | nil => simp [map_insert, map_find]
  | cons kv rest ih =>
    obtain ⟨k', v'⟩ := kv
    simp only [map_find] at h
    by_cases e : k' = k
    · simp [e] at h
    · simp only [e, if_false] at h
      simp only [map_insert]
      by_cases h1 : str_lt k k' = true
      · simp [h1, map_find]
      · by_cases h2 : str_lt k' k = true
        · simp [h1, h2, map_find, e, ih h]
        · exact absurd (str_lt_total k' k (by simpa using h2) (by simpa using h1)) e

theorem map_find_insert_other {V : Type} (m : std_map V) (k j : Str) (v : V) (hj : j ≠ k) :
    map_find (map_insert m k v) j = map_find m j := by
  induction m with
  | nil => simp [map_insert, map_find, Ne.symm hj]
  | cons kv rest ih =>
    obtain ⟨k', v'⟩ := kv
    simp only [map_insert]
    by_cases h1 : str_lt k k' = true
    · simp [h1, map_find, Ne.symm hj]
    · by_cases h2 : str_lt k' k = true
      · simp [h1, h2, map_find, ih]
      · simp [h1, h2]

theorem map_find_assign_self {V : Type} (m : std_map V) (k : Str) (v : V) :
    map_find (map_assign m k v) k = some v := by
  induction m with
  | nil => simp [map_assign, map_find]
  | cons kv rest ih =>
    obtain ⟨k', v'⟩ := kv
    simp only [map_assign]
    by_cases h1 : str_lt k k' = true
    · simp [h1, map_find]
    · by_cases h2 : str_lt k' k = true
      · simp [h1, h2, map_find, str_lt_ne h2, ih]
      · have e := str_lt_total k' k (by simpa using h2) (by simpa using h1)
        subst e
        simp [str_lt_irrefl, map_find]

theorem map_find_assign_other {V : Type} (m : std_map V) (k j : Str) (v : V) (hj : j ≠ k) :
    map_find (map_assign m k v) j = map_find m j := by
  induction m with
  | nil => simp [map_assign, map_find, Ne.symm hj]
  | cons kv rest ih =>
    obtain ⟨k', v'⟩ := kv
    simp only [map_assign]
    by_cases h1 : str_lt k k' = true
    · simp [h1, map_find, Ne.symm hj]
    · by_cases h2 : str_lt k' k = true
      · simp [h1, h2, map_find, ih]
      · have e := str_lt_total k' k (by simpa using h2) (by simpa using h1)
        subst e
        simp [str_lt_irrefl, map_find, Ne.symm hj]

/-- In a map with ascending keys, `insert` keeps an entry that is already there. -/
theorem map_insert_present {V : Type} (m : std_map V) (k : Str) (v w : V)
    (hs : map_sorted m) (h : map_find m k = some w) : map_insert m k v = m := by
  induction m with
  | nil => simp [map_find] at h
  | cons kv rest ih =>
    obtain ⟨k', v'⟩ := kv
    have hs' := List.pairwise_cons.mp hs
    simp only [map_find] at h
    simp only [map_insert]
    by_cases e : k' = k
    · subst e
      simp [str_lt_irrefl]
    · simp only [e, if_false] at h
      have hin : ∃ w', (k, w') ∈ rest := by
        clear ih hs hs'
        induction rest with
        | nil => simp [map_find] at h
        | cons kv2 rest2 ih2 =>
          obtain ⟨k2, v2⟩ := kv2
          simp only [map_find] at h
          by_cases e2 : k2 = k
          · exact ⟨v2, by simp [e2]⟩
          · simp only [e2, if_false] at h
            obtain ⟨w', hw'⟩ := ih2 h
            exact ⟨w', List.mem_cons_of_mem _ hw'⟩
      obtain ⟨w', hw'⟩ := hin
      have hlt : str_lt k' k = true := hs'.1 (k, w') hw'
      have hnlt : str_lt k k' = false := str_lt_asymm _ _ hlt
      simp [hlt, hnlt, ih hs'.2 h]

/-! ## Table operations -/

theorem copy_all_self {real : Type} :
    ∀ (cols : List (data_vector real)), (∀ c ∈ cols, c.copy = Except.ok c) →
      copy_all cols = Except.ok cols
  | [], _ => rfl
  | c :: cs, h => by
    simp only [copy_all, h c (List.mem_cons_self _ _),
      copy_all_self cs (fun x hx => h x (List.mem_cons_of_mem _ hx)), bind, Except.bind,
      pure, Except.pure]

theorem copy_all_mem {real : Type} :
    ∀ (cols : List (data_vector real)), copy_all cols = Except.ok cols →
      ∀ c ∈ cols, c.copy = Except.ok c
  | [], _, c, hc => by simp at hc
  | d :: ds, h, c, hc => by
    simp only [copy_all, bind, Except.bind] at h
    cases hd : d.copy with
    | error e => simp [hd] at h
    | ok d' =>
      simp only [hd] at h
      cases hds : copy_all ds with
      | error e => simp [hds] at h
      | ok ds' =>
        simp only [hds, pure, Except.pure, Except.ok.injEq, List.cons.injEq] at h
        rcases List.mem_cons.mp hc with rfl | hc'
        · rw [hd, h.1]
        · exact copy_all_mem ds (by rw [hds, h.2]) c hc'

theorem copy_all_append {real : Type} (cols : List (data_vector real)) (c : data_vector real)
    (h : copy_all cols = Except.ok cols) (hc : c.copy = Except.ok c) :
    copy_all (cols ++ [c]) = Except.ok (cols ++ [c]) := by
  apply copy_all_self
  intro x hx
  rcases List.mem_append.mp hx with hx | hx
  · exact copy_all_mem cols h x hx
  · rw [List.mem_singleton.mp hx]
    exact hc

theorem sequence_column_copy {real : Type} (seq : sequence real) (name : Str) :
    (seq.column name).copy = Except.ok (seq.column name) := by
  cases seq <;> rfl

theorem vector_grow_self {real : Type} (cols : List (data_vector real)) (c : data_vector real)
    (h : copy_all cols = Except.ok cols) : vector_grow cols c = Except.ok (cols ++ [c]) := by
  simp only [vector_grow, h, bind, Except.bind, pure, Except.pure]

/-- On a table whose columns can be copied, `add_column(sequence, name)` appends the column
of the sequence and assigns its position to the name. -/
theorem add_column_ok {real : Type} (df : dataframe real) (seq : sequence real) (name : Str)
    (h : copy_all df.columns = Except.ok df.columns) :
    df.add_column seq name = Except.ok { df with
      column_headers := map_assign df.column_headers name df.columns.length
      columns := df.columns ++ [seq.column name] } := by
  cases seq <;>
    simp only [dataframe.add_column, dataframe.add_column_int, dataframe.add_column_double,
      dataframe.add_column_string, vector_grow_self _ _ h, bind, Except.bind, pure,
      Except.pure, sequence.column]

theorem vec_at_append_length {α : Type} (xs : List α) (x : α) :
    vec_at (xs ++ [x]) xs.length = Except.ok x := by
  simp [vec_at, pure, Except.pure]

/-- After `add_column(sequence, name)` on a table with `n` columns, each of which can be
copied, there are `n + 1` columns, the first `n` are the old ones, column `n` has the kind
of the sequence's element type, the given name and the given elements, `column_headers`
maps `name` to `n` and every other name to what it mapped to before, nothing else changes,
and `get_column(name)` returns the new column. -/
theorem add_column_appends {real : Type} (df : dataframe real) (seq : sequence real)
    (name : Str) (hcopy : copy_all df.columns = Except.ok df.columns) :
    ∃ t, df.add_column seq name = Except.ok t ∧
      t.columns.length = df.columns.length + 1 ∧
      t.columns.take df.columns.length = df.columns ∧
      (∃ col, t.columns.get? df.columns.length = some col ∧
        col.name = name ∧ holds col seq ∧
        t.get_column name = Except.ok (col, t)) ∧
      (∀ other, map_find t.column_headers other =
        if other = name then some df.columns.length else map_find df.column_headers other) ∧
      t.properties = df.properties ∧ t.idx = df.idx ∧ t.ini_complete = df.ini_complete ∧
      copy_all t.columns = Except.ok t.columns := by
  refine ⟨_, add_column_ok df seq name hcopy, ?_, ?_, ?_, ?_, rfl, rfl, rfl, ?_⟩
  · simp
  · simp
  · refine ⟨seq.column name, ?_, ?_, ?_, ?_⟩
    · simp [List.get?_eq_getElem?]
    · cases seq <;> rfl
    · cases seq <;> exact ⟨rfl, rfl⟩
    · simp only [dataframe.get_column, map_index, map_find_assign_self, vec_at_append_length]
      rfl
  · intro other
    by_cases h : other = name
    · simp [h, map_find_assign_self]
    · simp [h, map_find_assign_other]
  · exact copy_all_append _ _ hcopy (sequence_column_copy seq name)

/-- C9 (defect found): `add_column("flag", DataType::B)` on `dataframe()` gives a table with
one column of kind `B`, whose `bool_vector` the constructor never builds. The next
`add_column(sequence, name)` grows `columns`, the column of kind `B` is copy-constructed,
and the copy reads that `bool_vector`: the call is undefined and the old column is not
left as it was. After a column of kind `D` the same call appends the new column. -/
theorem add_column_after_bool_column :
    (dataframe.empty whole).add_column_kind "flag".toList DataType.B =
      Except.ok ⟨[data_vector.new whole DataType.B "flag".toList], [("flag".toList, 0)], [],
        [], false⟩ ∧
    (data_vector.new whole DataType.B "flag".toList).copy =
      Except.error Error.undefined_behaviour ∧
    (do
      let t ← (dataframe.empty whole).add_column_kind "flag".toList DataType.B
      t.add_column (sequence.ints [1]) "x".toList) =
      Except.error Error.undefined_behaviour ∧
    (do
      let t ← (dataframe.empty whole).add_column_kind "flag".toList DataType.D
      t.add_column (sequence.ints [1]) "x".toList) =
      Except.ok ⟨[data_vector.new whole DataType.D "flag".toList,
          ⟨udata_vec.int_vector [1], DataType.D, "x".toList⟩],
        [("flag".toList, 0), ("x".toList, 1)], [], [], false⟩ := by
  decide

/-- C10 (as stated, refuted): with column `b` of three rows added first and column `a` of
one row added second, `size()` is 1, the length of the column under the smallest name, while
the first-inserted column has length 3. -/
theorem size_first_inserted_counterexample :
    two_lengths.size = Except.ok 1 ∧
    (two_lengths.get_column_at 0 >>= data_vector.size) = Except.ok 3 := by
  decide

/-- C10 (amended): `size()` is 0 for a table with no columns; for a table with at least one
column it is the size of the column registered under the first key of `column_headers`,
the smallest name in the order of `std::string`. -/
theorem size_spec {real : Type} (df : dataframe real) :
    (df.columns = [] → df.size = Except.ok 0) ∧
    (∀ k i rest c, df.columns ≠ [] → df.column_headers = (k, i) :: rest →
      df.columns.get? i = some c → df.size = c.size) := by
  constructor
  · intro h
    simp [dataframe.size, h, pure, Except.pure]
  · intro k i rest c h1 h2 h3
    have hl : df.columns.length ≠ 0 := by
      intro h
      exact h1 (List.length_eq_zero.mp h)
    simp only [dataframe.size, hl, if_false, h2, vec_at, h3]
    rfl

theorem size_spec_witness :
    ("a".toList, 1) :: [("b".toList, 0)] = two_lengths.column_headers ∧
    two_lengths.size =
      (⟨udata_vec.int_vector [1], DataType.D, "a".toList⟩ : data_vector whole).size :=
  ⟨by decide, (size_spec two_lengths).2 "a".toList 1 [("b".toList, 0)]
    ⟨udata_vec.int_vector [1], DataType.D, "a".toList⟩ (by decide) (by decide) (by decide)⟩

/-- C6 (as stated, refuted): on the test table neither `missing` key is stored, yet
`get_property` returns the value-initialised `data_value` (kind `D`, payload 0) and
`get_column` returns column 0; no error is raised. -/
theorem lookup_missing_counterexample :
    map_find twiss.properties "missing".toList = none ∧
    map_find twiss.column_headers "missing".toList = none ∧
    (twiss.get_property "missing".toList).1 = ⟨DataType.D, variant.int 0⟩ ∧
    (twiss.get_column "missing".toList).map Prod.fst = twiss.get_column_at 0 ∧
    (twiss.get_column_at 0).map data_vector.name = Except.ok "strings".toList := by
  decide

/-- C6 (amended): for a key that is not stored, `get_property(key)` raises no error: it
returns the value-initialised `data_value` (kind `D`, payload 0) and stores it under the
key; for a name that is not registered in a table with at least one column,
`get_column(name)` raises no error: it registers the name at position 0 and returns
column 0. -/
theorem lookup_missing {real : Type} (df : dataframe real) (key : Str) :
    (map_find df.properties key = none →
      (df.get_property key).1 = data_value.default real ∧
      (df.get_property key).1 = ⟨DataType.D, variant.int 0⟩ ∧
      map_find (df.get_property key).2.properties key = some (data_value.default real)) ∧
    (∀ c, map_find df.column_headers key = none → df.columns.get? 0 = some c →
      ∃ df', df.get_column key = Except.ok (c, df') ∧
        map_find df'.column_headers key = some 0 ∧ df'.columns = df.columns) := by
  constructor
  · intro h
    have e1 : (df.get_property key).1 = data_value.default real := by
      simp only [dataframe.get_property, map_index, h]
    have e2 : map_find (df.get_property key).2.properties key =
        some (data_value.default real) := by
      simp only [dataframe.get_property, map_index, h]
      exact map_find_insert_self _ _ _ h
    exact ⟨e1, e1, e2⟩
  · intro c h h0
    refine ⟨{ df with column_headers := map_insert df.column_headers key 0 }, ?_, ?_, rfl⟩
    · simp only [dataframe.get_column, map_index, h, vec_at, h0]
      rfl
    · exact map_find_insert_self _ _ _ h

theorem lookup_missing_witness :
    (twiss.get_property "missing".toList).1 = data_value.default whole ∧
    ∃ df', twiss.get_column "missing".toList =
        Except.ok (⟨udata_vec.string_vector ["one".toList, "two".toList, "three".toList,
          "four".toList, "five".toList], DataType.S, "strings".toList⟩, df') ∧
      map_find df'.column_headers "missing".toList = some 0 ∧ df'.columns = twiss.columns :=
  ⟨((lookup_missing twiss "missing".toList).1 (by decide)).1,
    (lookup_missing twiss "missing".toList).2 _ (by decide) (by decide)⟩

/-- C7: for a column whose kind and stored sequence agree, `as_int_vector` returns the
stored sequence when the kind is `D` and throws otherwise, `as_real_vector` does so for
kind `LE` and `as_string_vector` for kind `S`; the `_mut` accessors behave alike. -/
theorem accessor_type_safety {real : Type} (v : data_vector real)
    (h : v.consistent = true) :
    (if v.type = DataType.D then
        ∃ xs, v.payload = udata_vec.int_vector xs ∧ v.as_int_vector = Except.ok xs
      else v.as_int_vector = Except.error (Error.runtime_error "this is not an int vector")) ∧
    (if v.type = DataType.LE then
        ∃ xs, v.payload = udata_vec.double_vector xs ∧ v.as_real_vector = Except.ok xs
      else v.as_real_vector =
        Except.error (Error.runtime_error "this is not a double vector")) ∧
    (if v.type = DataType.S then
        ∃ xs, v.payload = udata_vec.string_vector xs ∧ v.as_string_vector = Except.ok xs
      else v.as_string_vector =
        Except.error (Error.runtime_error "this is not a string vector")) ∧
    v.as_int_vector_mut = v.as_int_vector ∧
    v.as_real_vector_mut = v.as_real_vector ∧
    v.as_string_vector_mut = v.as_string_vector := by
  obtain ⟨payload, type, name⟩ := v
  cases type <;> cases payload <;>
    simp_all [data_vector.consistent, data_vector.as_int_vector, data_vector.as_real_vector,
      data_vector.as_string_vector, data_vector.as_int_vector_mut,
      data_vector.as_real_vector_mut, data_vector.as_string_vector_mut, pure, Except.pure,
      throw, throwThe, MonadExceptOf.throw]

theorem accessor_type_safety_witness :
    (∃ xs, (⟨udata_vec.int_vector [1, 2], DataType.D, []⟩ : data_vector whole).payload =
        udata_vec.int_vector xs ∧
      (⟨udata_vec.int_vector [1, 2], DataType.D, []⟩ : data_vector whole).as_int_vector =
        Except.ok xs) ∧
    (⟨udata_vec.int_vector [1, 2], DataType.D, []⟩ : data_vector whole).as_string_vector =
      Except.error (Error.runtime_error "this is not a string vector") :=
  ⟨by simpa using (accessor_type_safety
      (⟨udata_vec.int_vector [1, 2], DataType.D, []⟩ : data_vector whole) (by decide)).1,
    by simpa using (accessor_type_safety
      (⟨udata_vec.int_vector [1, 2], DataType.D, []⟩ : data_vector whole) (by decide)).2.2.1⟩

/-- C8 (as stated, refuted): the test table holds `Q1` as a float; after
`insert_property("Q1", 5)` the lookup `get_property("Q1")` still returns the float: the
earlier entry is not overwritten. -/
theorem insert_property_overwrite_counterexample :
    map_find twiss.properties "Q1".toList = some (data_value.from_double (⟨62⟩ : whole)) ∧
    ((twiss.insert_property "Q1".toList (data_value.from_int whole 5)).get_property
      "Q1".toList).1 = data_value.from_double (⟨62⟩ : whole) ∧
    ((twiss.insert_property "Q1".toList (data_value.from_int whole 5)).get_property
      "Q1".toList).1 ≠ data_value.from_int whole 5 := by
  decide

/-- C8 (amended): the `data_value` built from an int, a float, a bool or a string has kind
`D`, `LE`, `B` or `S` and that value as payload; after `insert_property(key, v)` on a table
that has no property `key`, `get_property(key)` returns the value built from `v`; when `key`
is already present the table is left as it was and `get_property(key)` returns the earlier
entry. -/
theorem insert_property_get {real : Type} (df : dataframe real) (key : Str)
    (v : data_value real) (i : Int) (d : real) (b : Bool) (s : Str) :
    (data_value.from_int real i = ⟨DataType.D, variant.int i⟩ ∧
      data_value.from_double d = ⟨DataType.LE, variant.real d⟩ ∧
      data_value.from_bool real b = ⟨DataType.B, variant.bool b⟩ ∧
      data_value.from_string real s = ⟨DataType.S, variant.string s⟩) ∧
    (map_find df.properties key = none →
      ((df.insert_property key v).get_property key).1 = v ∧
      ((df.insert_property key v).get_property key).2 = df.insert_property key v) ∧
    (∀ w, map_sorted df.properties → map_find df.properties key = some w →
      df.insert_property key v = df ∧
      ((df.insert_property key v).get_property key).1 = w) := by
  refine ⟨⟨rfl, rfl, rfl, rfl⟩, ?_, ?_⟩
  · intro h
    have hf := map_find_insert_self df.properties key v h
    constructor <;> simp only [dataframe.get_property, dataframe.insert_property, map_index, hf]
  · intro w hs h
    have hi := map_insert_present df.properties key v w hs h
    have e : df.insert_property key v = df := by
      simp only [dataframe.insert_property, hi]
    refine ⟨e, ?_⟩
    rw [e]
    simp only [dataframe.get_property, map_index, h]

theorem insert_property_get_witness :
    ((twiss.insert_property "Q3".toList (data_value.from_int whole 5)).get_property
      "Q3".toList).1 = data_value.from_int whole 5 ∧
    ((twiss.insert_property "Q1".toList (data_value.from_int whole 5)).get_property
      "Q1".toList).1 = data_value.from_double (⟨62⟩ : whole) :=
  ⟨((insert_property_get twiss "Q3".toList (data_value.from_int whole 5) 0 ⟨0⟩ false []).2.1
      (by decide)).1,
    ((insert_property_get twiss "Q1".toList (data_value.from_int whole 5) 0 ⟨0⟩ false []).2.2
      (data_value.from_double (⟨62⟩ : whole)) (by unfold map_sorted; decide) (by decide)).2⟩

/-! ## Writing and reading an `int` -/

theorem digit_char_facts (d : Nat) (h : d < 10) :
    isdigit (digit_char d) = true ∧ (digit_char d).toNat - 48 = d ∧
    digit_char d ≠ ' ' ∧ digit_char d ≠ '\n' ∧ digit_char d ≠ '-' ∧ digit_char d ≠ '+' ∧
    isspace (digit_char d) = false := by
  interval_cases d <;> decide

theorem strtol_digits_cons_digit (d : Nat) (h : d < 10) (cs : Str) (a : Nat) :
    strtol_digits (digit_char d :: cs) a = strtol_digits cs (a * 10 + d) := by
  obtain ⟨h1, h2, _⟩ := digit_char_facts d h
  simp [strtol_digits, h1, h2]

theorem strtol_digits_put_nat_aux : ∀ (fuel n : Nat) (acc : Str), n < fuel →
    ∃ k, ∀ a, strtol_digits (put_nat_aux fuel n acc) a = strtol_digits acc (a * 10 ^ k + n)
  | 0, _, _, h => absurd h (Nat.not_lt_zero _)
  | fuel + 1, n, acc, h => by
    by_cases hn : n < 10
    · refine ⟨1, fun a => ?_⟩
      simp only [put_nat_aux, hn, if_true, pow_one]
      exact strtol_digits_cons_digit n hn acc a
    · have hlt : n / 10 < fuel := by omega
      obtain ⟨k, hk⟩ := strtol_digits_put_nat_aux fuel (n / 10) (digit_char (n % 10) :: acc) hlt
      refine ⟨k + 1, fun a => ?_⟩
      simp only [put_nat_aux, hn, if_false]
      rw [hk a, strtol_digits_cons_digit (n % 10) (Nat.mod_lt _ (by decide))]
      congr 1
      rw [pow_succ]
      have := Nat.div_add_mod n 10
      nlinarith [this]

theorem strtol_digits_put_nat (n : Nat) : strtol_digits (put_nat n) 0 = n := by
  obtain ⟨k, hk⟩ := strtol_digits_put_nat_aux (n + 1) n [] (Nat.lt_succ_self n)
  rw [put_nat, hk 0]
  simp [strtol_digits]

/-- Every character written for a number is a digit, and there is at least one. -/
theorem put_nat_aux_chars : ∀ (fuel n : Nat) (acc : Str), n < fuel →
    ∃ d t, d < 10 ∧ put_nat_aux fuel n acc = digit_char d :: t ∧
      ∀ c ∈ t, (∃ e, e < 10 ∧ c = digit_char e) ∨ c ∈ acc
  | 0, _, _, h => absurd h (Nat.not_lt_zero _)
  | fuel + 1, n, acc, h => by
    by_cases hn : n < 10
    · refine ⟨n, acc, hn, ?_, fun c hc => Or.inr hc⟩
      simp only [put_nat_aux, hn, if_true]
    · have hlt : n / 10 < fuel := by omega
      obtain ⟨d, t, hd, ht, hall⟩ :=
        put_nat_aux_chars fuel (n / 10) (digit_char (n % 10) :: acc) hlt
      refine ⟨d, t, hd, ?_, fun c hc => ?_⟩
      · simp only [put_nat_aux, hn, if_false, ht]
      · rcases hall c hc with h1 | h1
        · exact Or.inl h1
        · rcases List.mem_cons.mp h1 with h2 | h2
          · exact Or.inl ⟨n % 10, Nat.mod_lt _ (by decide), h2⟩
          · exact Or.inr h2

theorem put_nat_chars (n : Nat) :
    ∃ d t, d < 10 ∧ put_nat n = digit_char d :: t ∧ ∀ c ∈ t, ∃ e, e < 10 ∧ c = digit_char e := by
  obtain ⟨d, t, hd, ht, hall⟩ := put_nat_aux_chars (n + 1) n [] (Nat.lt_succ_self n)
  refine ⟨d, t, hd, ht, fun c hc => ?_⟩
  rcases hall c hc with h1 | h1
  · exact h1
  · simp at h1

theorem put_int_token (i : Int) : token_ok (put_int i) := by
  obtain ⟨d, t, hd, ht, hall⟩ := put_nat_chars i.natAbs
  have hd' := digit_char_facts d hd
  have hsp : ' ' ∉ put_nat i.natAbs := by
    rw [ht]
    intro hm
    rcases List.mem_cons.mp hm with h1 | h1
    · exact hd'.2.2.1 h1.symm
    · obtain ⟨e, he, hce⟩ := hall _ h1
      exact (digit_char_facts e he).2.2.1 hce.symm
  have hnl : '\n' ∉ put_nat i.natAbs := by
    rw [ht]
    intro hm
    rcases List.mem_cons.mp hm with h1 | h1
    · exact hd'.2.2.2.1 h1.symm
    · obtain ⟨e, he, hce⟩ := hall _ h1
      exact (digit_char_facts e he).2.2.2.1 hce.symm
  unfold put_int
  by_cases hi : i < 0
  · simp only [hi, if_true]
    refine ⟨by simp, ?_, ?_⟩
    · intro hm
      rcases List.mem_cons.mp hm with h1 | h1
      · exact absurd h1 (by decide)
      · exact hsp h1
    · intro hm
      rcases List.mem_cons.mp hm with h1 | h1
      · exact absurd h1 (by decide)
      · exact hnl h1
  · simp only [hi, if_false]
    exact ⟨by simp [ht], hsp, hnl⟩

theorem strtol_put_int (i : Int) (h : int_range i) : strtol (put_int i) = i := by
  obtain ⟨d, t, hd, ht, _⟩ := put_nat_chars i.natAbs
  obtain ⟨_, _, _, _, hminus, hplus, hspace⟩ := digit_char_facts d hd
  have hv := strtol_digits_put_nat i.natAbs
  obtain ⟨hlo, hhi⟩ := h
  unfold put_int
  by_cases hi : i < 0
  · simp only [hi, if_true]
    have hs : isspace '-' = false := by decide
    simp only [strtol, List.dropWhile, hs, if_true, hv, LONG_MIN]
    omega
  · simp only [hi, if_false]
    rw [ht] at hv ⊢
    simp only [strtol, List.dropWhile, hspace, hminus, hplus, if_false, hv, LONG_MAX]
    omega

theorem int_of_long_id (i : Int) (h : int_range i) : int_of_long i = i := by
  obtain ⟨hlo, hhi⟩ := h
  unfold int_of_long
  omega

/-! ## `tokenize` returns the maximal runs of non-space characters -/

theorem words_aux_spaces (k : Nat) (s : Str) :
    words_aux [] (List.replicate k ' ' ++ s) = words_aux [] s := by
  induction k with
  | zero => rfl
  | succ k ih => simp [List.replicate_succ, words_aux, ih]

theorem words_aux_run (t : Str) (ht : ' ' ∉ t) : ∀ (cur s : Str),
    words_aux cur (t ++ s) = words_aux (cur ++ t) s := by
  induction t with
  | nil => intro cur s; simp
  | cons c cs ih =>
    intro cur s
    have hc : c ≠ ' ' := fun e => ht (by simp [e])
    have hcs : ' ' ∉ cs := fun e => ht (List.mem_cons_of_mem _ e)
    show words_aux cur (c :: (cs ++ s)) = _
    rw [words_aux]
    simp only [hc, if_false]
    rw [ih hcs]
    simp

theorem words_nil : words [] = [] := rfl

theorem words_spaces (k : Nat) (s : Str) : words (List.replicate k ' ' ++ s) = words s :=
  words_aux_spaces k s

theorem words_space (s : Str) : words (' ' :: s) = words s := by
  simp [words, words_aux]

theorem words_token_end (t : Str) (hne : t ≠ []) (ht : ' ' ∉ t) : words t = [t] := by
  have := words_aux_run t ht [] []
  simp only [List.append_nil, List.nil_append] at this
  rw [words, this]
  simp [words_aux, hne]

theorem words_token (t : Str) (hne : t ≠ []) (ht : ' ' ∉ t) (s : Str) :
    words (t ++ ' ' :: s) = t :: words s := by
  rw [words, words_aux_run t ht]
  simp [words_aux, hne, words]

theorem words_setw (w : Nat) (t : Str) (hne : t ≠ []) (ht : ' ' ∉ t) (s : Str) :
    words (setw w t ++ ' ' :: s) = t :: words s := by
  rw [setw, List.append_assoc, words_spaces, words_token t hne ht]

/-- From a character other than the space on, the first word is the run up to the next
space and the other words are those of what follows the run. -/
theorem words_run (c : Char) (cs : Str) (hc : c ≠ ' ') :
    words (c :: cs) =
      (c :: cs).takeWhile (fun x => !decide (x = ' ')) ::
        words ((c :: cs).dropWhile (fun x => !decide (x = ' '))) := by
  have hsplit := List.takeWhile_append_dropWhile (fun x => !decide (x = ' ')) (c :: cs)
  have htok : ' ' ∉ (c :: cs).takeWhile (fun x => !decide (x = ' ')) := by
    intro hm
    have := List.mem_takeWhile_imp hm
    simp at this
  have hne : (c :: cs).takeWhile (fun x => !decide (x = ' ')) ≠ [] := by
    simp [List.takeWhile, hc]
  cases hd : (c :: cs).dropWhile (fun x => !decide (x = ' ')) with
  | nil =>
    rw [hd, List.append_nil] at hsplit
    rw [hsplit, words_nil]
    exact words_token_end _ (by simp) (by rw [← hsplit]; exact htok)
  | cons x rest =>
    have hx : x = ' ' := by
      have := List.head_dropWhile_not (fun x => !decide (x = ' ')) (c :: cs) (by rw [hd]; simp)
      simp only [hd, List.head_cons] at this
      simpa using this
    subst hx
    rw [hd] at hsplit
    conv_lhs => rw [← hsplit]
    rw [words_token _ hne htok, words_space]

theorem first_of_none (s : Str) (h : first_of [' '] s = none) :
    s.takeWhile (fun x => !decide (x = ' ')) = s ∧
    s.dropWhile (fun x => !decide (x = ' ')) = [] := by
  induction s with
  | nil => simp
  | cons c cs ih =>
    simp only [first_of, List.mem_singleton] at h
    by_cases hc : c = ' '
    · simp [hc] at h
    · simp only [hc, if_false, Option.map_eq_none'] at h
      simp [List.takeWhile, List.dropWhile, hc, ih h]

theorem first_of_some (s : Str) (k : Nat) (h : first_of [' '] s = some k) :
    k < s.length ∧ s.take k = s.takeWhile (fun x => !decide (x = ' ')) ∧
    s.drop k = s.dropWhile (fun x => !decide (x = ' ')) := by
  induction s generalizing k with
  | nil => simp [first_of] at h
  | cons c cs ih =>
    simp only [first_of, List.mem_singleton] at h
    by_cases hc : c = ' '
    · simp only [hc, if_true, Option.some.injEq] at h
      subst h
      simp [List.takeWhile, List.dropWhile, hc]
    · simp only [hc, if_false, Option.map_eq_some'] at h
      obtain ⟨j, hj, hk⟩ := h
      subst hk
      obtain ⟨h1, h2, h3⟩ := ih j hj
      simp [List.takeWhile, List.dropWhile, hc, h1, h2, h3]

theorem first_not_of_none (s : Str) (h : first_not_of [' '] s = none) : words s = [] := by
  induction s with
  | nil => rfl
  | cons c cs ih =>
    simp only [first_not_of, List.mem_singleton] at h
    by_cases hc : c = ' '
    · simp only [hc, if_true, Option.map_eq_none'] at h
      rw [hc, words_space, ih h]
    · simp [hc] at h

theorem first_not_of_some (s : Str) (k : Nat) (h : first_not_of [' '] s = some k) :
    k < s.length ∧ words s = words (s.drop k) ∧ ∃ c cs, s.drop k = c :: cs ∧ c ≠ ' ' := by
  induction s generalizing k with
  | nil => simp [first_not_of] at h
  | cons c cs ih =>
    simp only [first_not_of, List.mem_singleton] at h
    by_cases hc : c = ' '
    · simp only [hc, if_true, Option.map_eq_some'] at h
      obtain ⟨j, hj, hk⟩ := h
      subst hk
      obtain ⟨h1, h2, h3⟩ := ih j hj
      refine ⟨by simp [h1], ?_, ?_⟩
      · rw [hc, words_space, h2]
        simp
      · simpa using h3
    · simp only [hc, if_false, Option.some.injEq] at h
      subst h
      exact ⟨by simp, rfl, c, cs, rfl, hc⟩

theorem tokenize_loop_words (str : Str) : ∀ (fuel q : Nat) (acc : List Str),
    q ≤ str.length → str.length - q < fuel →
    tokenize_loop str [' '] false str.length fuel (find_first_not_of str [' '] q) acc =
      Except.ok (acc ++ words (str.drop q))
  | 0, _, _, _, h => absurd h (Nat.not_lt_zero _)
  | fuel + 1, q, acc, hq, hfuel => by
    unfold find_first_not_of
    cases hfn : first_not_of [' '] (str.drop q) with
    | none =>
      simp only [Option.map_none', tokenize_loop, first_not_of_none _ hfn, List.append_nil]
      rfl
    | some k =>
      obtain ⟨hk, hw, c, cs, hdrop, hc⟩ := first_not_of_some _ k hfn
      rw [List.length_drop] at hk
      rw [List.drop_drop, add_comm q k] at hw hdrop
      have hlp : k + q < str.length + 1 := by omega
      have hff : find_first_of str [' '] (k + q) =
          (first_of [' '] (c :: cs)).map (· + (k + q)) := by
        rw [find_first_of, hdrop]
      have hlen : (c :: cs).length = str.length - (k + q) := by
        rw [← hdrop, List.length_drop]
      simp only [Option.map_some', tokenize_loop, hlp, if_true, or_true]
      rw [hw, hdrop, words_run c cs hc, hff]
      cases hfo : first_of [' '] (c :: cs) with
      | none =>
        obtain ⟨ht, hd⟩ := first_of_none _ hfo
        have htake : (c :: cs).take (str.length - (k + q)) = c :: cs := by
          rw [← hlen, List.take_length]
        simp only [Option.map_none', Option.getD_none, htake]
        rw [ht, hd]
        have ih := tokenize_loop_words str fuel str.length (acc ++ [c :: cs]) (le_refl _)
          (by omega)
        rw [List.drop_length] at ih
        rw [ih]
        simp
      | some j =>
        obtain ⟨hj, ht, hd⟩ := first_of_some _ j hfo
        rw [hlen] at hj
        have hsub : j + (k + q) - (k + q) = j := by omega
        simp only [Option.map_some', Option.getD_some, hsub]
        have hj0 : j ≠ 0 := by
          intro h0
          rw [h0] at ht
          simp [List.takeWhile, hc] at ht
        have ih := tokenize_loop_words str fuel (j + (k + q)) (acc ++ [(c :: cs).take j])
          (by omega) (by omega)
        rw [ih]
        have hdd : str.drop (j + (k + q)) = (c :: cs).drop j := by
          rw [← hdrop, List.drop_drop]
          congr 1
          omega
        rw [hdd, hd, ht]
        simp

/-- The function `tokenize` with the default arguments never runs out of fuel: it appends
the words of the string. -/
theorem tokenize_words (str : Str) (tokens : List Str) :
    tokenize str tokens [' '] false = Except.ok (tokens ++ words str) := by
  have := tokenize_loop_words str (str.length + 1) 0 tokens (Nat.zero_le _) (by omega)
  simpa [tokenize] using this

/-! ## Reading lines -/

theorem getline_line (l rest line : Str) (h : '\n' ∉ l) :
    getline ⟨l ++ '\n' :: rest, true⟩ line = (true, ⟨rest, true⟩, l) := by
  have hall : ∀ a ∈ l, (fun x => decide (x ≠ '\n')) a = true := by
    intro a ha
    have : a ≠ '\n' := fun e => h (e ▸ ha)
    simpa using this
  have hd : (l ++ '\n' :: rest).dropWhile (fun x => decide (x ≠ '\n')) = '\n' :: rest := by
    rw [List.dropWhile_append_of_pos hall]
    simp [List.dropWhile]
  have ht : (l ++ '\n' :: rest).takeWhile (fun x => decide (x ≠ '\n')) = l := by
    rw [List.takeWhile_append_of_pos hall]
    simp [List.takeWhile]
  cases hb : l ++ '\n' :: rest with
  | nil => simp at hb
  | cons c cs =>
    rw [hb] at hd ht
    simp only [getline, Bool.true_eq_false, if_false, hd, ht]

theorem getline_end (line : Str) : getline ⟨[], true⟩ line = (false, ⟨[], false⟩, []) := rfl

theorem getline_not_good (buf line : Str) :
    getline ⟨buf, false⟩ line = (false, ⟨buf, false⟩, line) := rfl

/-- An unterminated last line is read, and leaves the stream at its end. -/
theorem getline_last (l line : Str) (h : '\n' ∉ l) (hne : l ≠ []) :
    getline ⟨l, true⟩ line = (true, ⟨[], false⟩, l) := by
  have hall : ∀ a ∈ l, (fun x => decide (x ≠ '\n')) a = true := by
    intro a ha
    have : a ≠ '\n' := fun e => h (e ▸ ha)
    simpa using this
  have hd : l.dropWhile (fun x => decide (x ≠ '\n')) = [] :=
    List.dropWhile_eq_nil_iff.mpr hall
  have ht : l.takeWhile (fun x => decide (x ≠ '\n')) = l :=
    List.takeWhile_eq_self_iff.mpr hall
  cases l with
  | nil => exact absurd rfl hne
  | cons c cs => simp only [getline, Bool.true_eq_false, if_false, hd, ht]

/-! ## Reading data rows -/

theorem convert_back_converted {real : Type} [RealText real] (t : DataType) (toks : List Str)
    (s : Str) :
    (converted t toks : data_vector real).convert_back s =
      Except.ok (converted t (toks ++ [s])) := by
  cases t <;>
    simp [converted, data_vector.convert_back, data_vector.push_back_int,
      data_vector.push_back_double, data_vector.push_back_string,
      data_vector.as_int_vector_mut, data_vector.as_real_vector_mut,
      data_vector.as_string_vector_mut, data_vector.as_int_vector,
      data_vector.as_real_vector, data_vector.as_string_vector, data_vector.new,
      pure, Except.pure, bind, Except.bind]

theorem vec_at_append_cons {α : Type} (pre : List α) (x : α) (rest : List α) :
    vec_at (pre ++ x :: rest) pre.length = Except.ok x := by
  induction pre with
  | nil => rfl
  | cons a pre ih => simpa [vec_at] using ih

theorem set_append_cons {α : Type} (pre : List α) (x y : α) (rest : List α) :
    (pre ++ x :: rest).set pre.length y = pre ++ y :: rest := by
  induction pre with
  | nil => rfl
  | cons a pre ih => simp

theorem read_line_loop_converted {real : Type} [RealText real] :
    ∀ (r : List Str) (kinds : List DataType) (tokss : List (List Str))
      (pre : List (data_vector real)),
      kinds.length = r.length → tokss.length = r.length →
      read_line_loop (pre ++ List.zipWith converted kinds tokss) r pre.length =
        Except.ok (pre ++ List.zipWith converted kinds
          (List.zipWith (fun toks t => toks ++ [t]) tokss r))
  | [], kinds, tokss, pre, hk, ht => by
    have hk' : kinds = [] := List.length_eq_zero.mp hk
    subst hk'
    simp [read_line_loop, pure, Except.pure]
  | t :: ts, [], _, _, hk, _ => by simp at hk
  | t :: ts, _ :: _, [], _, _, ht => by simp at ht
  | t :: ts, k :: kinds, toks :: tokss, pre, hk, ht => by
    simp only [List.zipWith_cons_cons, read_line_loop, vec_at_append_cons,
      convert_back_converted, bind, Except.bind, set_append_cons]
    have ih := read_line_loop_converted ts kinds tokss (pre ++ [converted k (toks ++ [t])])
      (by simpa using hk) (by simpa using ht)
    simp only [List.length_append, List.length_singleton, List.append_assoc,
      List.singleton_append] at ih
    rw [ih]

theorem column_tokens_append (n : Nat) (done : List (List Str)) (r : List Str)
    (hr : r.length = n) :
    List.zipWith (fun toks t => toks ++ [t]) (column_tokens n done) r =
      column_tokens n (done ++ [r]) := by
  apply List.ext_getElem
  · simp [column_tokens, hr]
  · intro j h1 h2
    have hj : j < n := by simpa [column_tokens] using h2
    have hjr : j < r.length := by omega
    simp [column_tokens, List.getD_eq_getElem?_getD, List.getElem?_eq_getElem hjr]

theorem column_tokens_length (n : Nat) (rows : List (List Str)) :
    (column_tokens n rows).length = n := by
  simp [column_tokens]

/-- The function `read_line` on a row with as many tokens as there are columns appends the
conversion of each token to the column at its position. -/
theorem read_line_row {real : Type} [RealText real] (df : dataframe real) (l : Str)
    (kinds : List DataType) (done : List (List Str))
    (hdf : df.columns = List.zipWith converted kinds (column_tokens kinds.length done))
    (hl : (words l).length = kinds.length) :
    df.read_line l = Except.ok { df with
      columns := List.zipWith converted kinds (column_tokens kinds.length (done ++ [words l])) } := by
  have h := @read_line_loop_converted real _ (words l) kinds
    (column_tokens kinds.length done) [] hl.symm
    (by rw [column_tokens_length, hl])
  simp only [List.nil_append, List.length_nil] at h
  rw [column_tokens_append _ _ _ hl] at h
  simp only [dataframe.read_line, tokenize_words, List.nil_append, bind, Except.bind, hdf, h]
  rfl

theorem read_line_empty {real : Type} [RealText real] (df : dataframe real) :
    df.read_line [] = Except.ok df := by
  simp only [dataframe.read_line, tokenize_words, List.nil_append, words_nil, bind,
    Except.bind, read_line_loop]
  rfl

/-- The second loop of the constructor, entered with the row `l` read and the rows `rows`
still in the file, reads them all. -/
theorem row_loop_rows {real : Type} [RealText real] (kinds : List DataType) :
    ∀ (rows : List Str) (l : Str) (done : List (List Str)) (df : dataframe real) (fuel : Nat),
      (∀ x ∈ l :: rows, '\n' ∉ x ∧ (words x).length = kinds.length) →
      df.columns = List.zipWith converted kinds (column_tokens kinds.length done) →
      rows.length < fuel →
      row_loop fuel ⟨unlines rows, true⟩ l df = Except.ok { df with
        columns := List.zipWith converted kinds
          (column_tokens kinds.length (done ++ (l :: rows).map words)) }
  | _, _, _, _, 0, _, _, hf => absurd hf (Nat.not_lt_zero _)
  | [], l, done, df, fuel + 1, hall, hdf, _ => by
    have hl := (hall l (by simp)).2
    simp only [row_loop, read_line_row df l kinds done hdf hl, bind, Except.bind, unlines,
      getline_end]
    rfl
  | r :: rows, l, done, df, fuel + 1, hall, hdf, hf => by
    have hl := (hall l (by simp)).2
    have hr := (hall r (by simp)).1
    simp only [row_loop, read_line_row df l kinds done hdf hl, bind, Except.bind, unlines,
      getline_line r (unlines rows) l hr, if_true]
    have ih := row_loop_rows kinds rows r (done ++ [words l])
      { df with
        columns := List.zipWith converted kinds
          (column_tokens kinds.length (done ++ [words l])) }
      fuel (fun x hx => hall x (List.mem_cons_of_mem _ hx)) rfl (by simpa using hf)
    rw [ih]
    simp

/-! ## Reading the lines before the data rows -/

theorem read_property_frame {real : Type} [RealText real] (df df' : dataframe real) (l : Str)
    (h : df.read_property l = Except.ok df') :
    ∃ props, df' = { df with properties := props } := by
  simp only [dataframe.read_property, tokenize_words, List.nil_append, bind, Except.bind] at h
  cases h2 : vec_at (words l) 2 with
  | error e => simp [h2] at h
  | ok t2 =>
    simp only [h2] at h
    cases h1 : vec_at (words l) 1 with
    | error e => cases hd : DT_from_string t2 <;> simp [hd, h1] at h
    | ok t1 =>
      cases hd : DT_from_string t2 <;> simp only [hd, h1] at h
      · simp only [pure, Except.pure, Except.ok.injEq] at h
        exact ⟨_, h.symm⟩
      · cases h3 : vec_at (words l) 3 with
        | error e => simp [h3] at h
        | ok t3 =>
          simp only [h3, pure, Except.pure, Except.ok.injEq] at h
          exact ⟨_, h.symm⟩
      · cases h3 : vec_at (words l) 3 with
        | error e => simp [h3] at h
        | ok t3 =>
          simp only [h3, pure, Except.pure, Except.ok.injEq] at h
          exact ⟨_, h.symm⟩
      · simp only [pure, Except.pure, Except.ok.injEq] at h
        exact ⟨_, h.symm⟩
      · simp only [pure, Except.pure, Except.ok.injEq] at h
        exact ⟨_, h.symm⟩

theorem read_properties_frame {real : Type} [RealText real] :
    ∀ (plines : List Str) (df dfP : dataframe real),
      plines.foldlM (fun d l => d.read_property l) df = Except.ok dfP →
      ∃ props, dfP = { df with properties := props }
  | [], df, dfP, h => by
    simp only [List.foldlM_nil, pure, Except.pure, Except.ok.injEq] at h
    exact ⟨df.properties, h.symm⟩
  | l :: plines, df, dfP, h => by
    simp only [List.foldlM_cons, bind, Except.bind] at h
    cases h1 : df.read_property l with
    | error e => simp [h1] at h
    | ok df1 =>
      simp only [h1] at h
      obtain ⟨p1, hp1⟩ := read_property_frame df df1 l h1
      obtain ⟨p2, hp2⟩ := read_properties_frame plines df1 dfP h
      exact ⟨p2, by rw [hp2, hp1]⟩

theorem header_loop_step {real : Type} [RealText real] (fuel : Nat) (l rest line : Str)
    (df df' : dataframe real) (hl : '\n' ∉ l) (hini : df.ini_complete = false)
    (hr : df.read_header_line l = Except.ok df') :
    header_loop (fuel + 1) ⟨l ++ '\n' :: rest, true⟩ line df =
      header_loop fuel ⟨rest, true⟩ l df' := by
  simp only [header_loop, getline_line l rest line hl, hini, and_self, if_true, hr, bind,
    Except.bind]

theorem unlines_append (xs ys : List Str) : unlines (xs ++ ys) = unlines xs ++ unlines ys := by
  induction xs with
  | nil => rfl
  | cons x xs ih => simp [unlines, ih]

theorem unlines_length (xs : List Str) : xs.length ≤ (unlines xs).length := by
  induction xs with
  | nil => simp [unlines]
  | cons x xs ih =>
    simp only [unlines, List.length_append, List.length_cons]
    omega

theorem check_ini_no_columns {real : Type} (df : dataframe real) (h : df.columns = []) :
    df.check_ini = df := by
  simp [dataframe.check_ini, h]

theorem header_loop_properties {real : Type} [RealText real] :
    ∀ (plines : List Str) (df dfP : dataframe real) (fuel : Nat) (rest line : Str),
      (∀ l ∈ plines, '\n' ∉ l ∧ line_front l = '@') →
      plines.foldlM (fun d l => d.read_property l) df = Except.ok dfP →
      df.columns = [] → df.ini_complete = false →
      ∃ line', header_loop (fuel + plines.length) ⟨unlines plines ++ rest, true⟩ line df =
        header_loop fuel ⟨rest, true⟩ line' dfP
  | [], df, dfP, fuel, rest, line, _, h, _, _ => by
    simp only [List.foldlM_nil, pure, Except.pure, Except.ok.injEq] at h
    subst h
    exact ⟨line, rfl⟩
  | l :: plines, df, dfP, fuel, rest, line, hall, h, hc, hi => by
    simp only [List.foldlM_cons, bind, Except.bind] at h
    cases h1 : df.read_property l with
    | error e => simp [h1] at h
    | ok df1 =>
      simp only [h1] at h
      obtain ⟨p1, hp1⟩ := read_property_frame df df1 l h1
      have hc1 : df1.columns = [] := by rw [hp1]; exact hc
      have hi1 : df1.ini_complete = false := by rw [hp1]; exact hi
      obtain ⟨hnl, hfront⟩ := hall l (by simp)
      have hr : df.read_header_line l = Except.ok df1 := by
        simp only [dataframe.read_header_line, hfront, if_true, h1, bind, Except.bind, pure,
          Except.pure, check_ini_no_columns df1 hc1]
      obtain ⟨line', ih⟩ := header_loop_properties plines df1 dfP fuel rest l
        (fun x hx => hall x (List.mem_cons_of_mem _ hx)) h hc1 hi1
      refine ⟨line', ?_⟩
      rw [← ih]
      have := header_loop_step (fuel + plines.length) l (unlines plines ++ rest) line df df1
        hnl hi hr
      simpa [unlines, Nat.add_assoc] using this

theorem map_insert_length {V : Type} (m : std_map V) (k : Str) (v : V)
    (h : map_find m k = none) : (map_insert m k v).length = m.length + 1 := by
  induction m with
  | nil => rfl
  | cons kv rest ih =>
    obtain ⟨k', v'⟩ := kv
    simp only [map_find] at h
    by_cases e : k' = k
    · simp [e] at h
    · simp only [e, if_false] at h
      simp only [map_insert]
      by_cases h1 : str_lt k k' = true
      · simp [h1]
      · by_cases h2 : str_lt k' k = true
        · simp [h1, h2, ih h]
        · exact absurd (str_lt_total k' k (by simpa using h2) (by simpa using h1)) e

/-- The header names, pairwise distinct and not yet registered, are registered at their
positions; nothing else changes. -/
theorem insert_headers_spec : ∀ (names : List Str) (m : std_map Nat) (i : Nat),
    names.Nodup → (∀ n ∈ names, map_find m n = none) →
    (insert_headers m names i).length = m.length + names.length ∧
    (∀ j (hj : j < names.length),
      map_find (insert_headers m names i) (names.get ⟨j, hj⟩) = some (i + j)) ∧
    (∀ k, k ∉ names → map_find (insert_headers m names i) k = map_find m k)
  | [], m, i, _, _ => by simp [insert_headers]
  | t :: ts, m, i, hnd, hfresh => by
    have hnd' := List.nodup_cons.mp hnd
    have hft : map_find m t = none := hfresh t (by simp)
    have hfresh' : ∀ n ∈ ts, map_find (map_insert m t i) n = none := by
      intro n hn
      have hne : n ≠ t := fun e => hnd'.1 (e ▸ hn)
      rw [map_find_insert_other _ _ _ _ hne]
      exact hfresh n (List.mem_cons_of_mem _ hn)
    obtain ⟨h1, h2, h3⟩ := insert_headers_spec ts (map_insert m t i) (i + 1) hnd'.2 hfresh'
    refine ⟨?_, ?_, ?_⟩
    · simp only [insert_headers, h1, map_insert_length m t i hft, List.length_cons]
      omega
    · intro j hj
      cases j with
      | zero =>
        show map_find (insert_headers (map_insert m t i) ts (i + 1)) t = some (i + 0)
        rw [h3 t hnd'.1]
        exact map_find_insert_self m t i hft
      | succ j =>
        show map_find (insert_headers (map_insert m t i) ts (i + 1))
          (ts.get ⟨j, Nat.lt_of_succ_lt_succ hj⟩) = some (i + (j + 1))
        rw [h2 j (Nat.lt_of_succ_lt_succ hj)]
        congr 1
        omega
    · intro k hk
      have hkt : k ≠ t := fun e => hk (by simp [e])
      have hks : k ∉ ts := fun e => hk (List.mem_cons_of_mem _ e)
      simp only [insert_headers]
      rw [h3 k hks, map_find_insert_other _ _ _ _ hkt]

theorem new_eq_converted {real : Type} [RealText real] (t : DataType) :
    data_vector.new real t [] = converted t [] := by
  cases t <;> rfl

theorem new_columns_eq {real : Type} [RealText real] (tags : List Str) :
    tags.map (fun t => data_vector.new real (DT_from_string t) []) =
      List.zipWith converted (tags.map DT_from_string)
        (column_tokens (tags.map DT_from_string).length []) := by
  apply List.ext_getElem
  · simp [column_tokens]
  · intro j h1 h2
    simp [column_tokens, new_eq_converted]

theorem read_header_line_headers {real : Type} [RealText real] (df : dataframe real)
    (hline w0 : Str) (names : List Str) (hfront : line_front hline = '*')
    (hw : words hline = w0 :: names) (hc : df.columns = []) :
    df.read_header_line hline =
      Except.ok { df with column_headers := insert_headers df.column_headers names 0 } := by
  have h1 : ¬ ('*' = '@') := by decide
  simp only [dataframe.read_header_line, hfront, h1, if_false, if_true,
    dataframe.read_column_headers, tokenize_words, List.nil_append, hw, bind, Except.bind,
    pure, Except.pure]
  rw [check_ini_no_columns]
  exact hc

/-- A type line changes the columns only. -/
theorem read_column_types_frame {real : Type} (df d : dataframe real) (l : Str)
    (h : df.read_column_types l = Except.ok d) :
    ∃ cols, d = { df with columns := cols } := by
  simp only [dataframe.read_column_types, tokenize_words, List.nil_append, bind,
    Except.bind] at h
  cases hw : words l with
  | nil => simp [hw, throw, throwThe, MonadExceptOf.throw] at h
  | cons w ws =>
    simp only [hw] at h
    cases he : emplace_types df.columns ws with
    | error e => simp [he] at h
    | ok cols =>
      simp only [he, pure, Except.pure, Except.ok.injEq] at h
      exact ⟨cols, h.symm⟩

theorem new_copy {real : Type} (t : DataType) (s : Str) (h : t ≠ DataType.B) :
    (data_vector.new real t s).copy = Except.ok (data_vector.new real t s) := by
  cases t with
  | B => exact absurd rfl h
  | S => rfl
  | LE => rfl
  | D => rfl
  | C => rfl

/-- The loop of `read_column_types` appends one empty column per tag when no tag is `%b`
and the columns already there can be copied. -/
theorem emplace_types_ok {real : Type} :
    ∀ (tags : List Str) (cols : List (data_vector real)),
      copy_all cols = Except.ok cols → (∀ t ∈ tags, DT_from_string t ≠ DataType.B) →
      emplace_types cols tags =
        Except.ok (cols ++ tags.map (fun t => data_vector.new real (DT_from_string t) []))
  | [], cols, _, _ => by simp [emplace_types, pure, Except.pure]
  | t :: ts, cols, hc, hB => by
    have hnew := @new_copy real (DT_from_string t) [] (hB t (List.mem_cons_self _ _))
    have ih := emplace_types_ok ts (cols ++ [data_vector.new real (DT_from_string t) []])
      (copy_all_append cols _ hc hnew) (fun x hx => hB x (List.mem_cons_of_mem _ hx))
    simp only [emplace_types, vector_grow_self _ _ hc, bind, Except.bind, ih]
    simp

theorem read_header_line_types {real : Type} [RealText real] (df : dataframe real)
    (tline w1 : Str) (tags : List Str) (hfront : line_front tline = '$')
    (hw : words tline = w1 :: tags) (hc : df.columns = [])
    (hB : ∀ t ∈ tags, DT_from_string t ≠ DataType.B) :
    df.read_header_line tline =
      Except.ok (dataframe.check_ini { df with
        columns := tags.map (fun t => data_vector.new real (DT_from_string t) []) }) := by
  have h1 : ¬ ('$' = '@') := by decide
  have h2 : ¬ ('$' = '*') := by decide
  have he := @emplace_types_ok real tags [] rfl hB
  simp only [dataframe.read_header_line, hfront, h1, h2, if_false, if_true,
    dataframe.read_column_types, tokenize_words, List.nil_append, hw, bind, Except.bind,
    pure, Except.pure, hc, he]

/-- Reading a text made of property lines, a header line, a type line and data rows with
one token per column, every line ended by a newline: the table the constructor builds. -/
theorem read_lines {real : Type} [RealText real] (plines : List Str) (hline tline : Str)
    (rlines : List Str) (w0 w1 : Str) (names tags : List Str) (dfP : dataframe real)
    (hp : ∀ l ∈ plines, '\n' ∉ l ∧ line_front l = '@')
    (hP : plines.foldlM (fun d l => d.read_property l) (dataframe.empty real) = Except.ok dfP)
    (hh : '\n' ∉ hline ∧ line_front hline = '*' ∧ words hline = w0 :: names)
    (ht : '\n' ∉ tline ∧ line_front tline = '$' ∧ words tline = w1 :: tags)
    (hN : tags.length = names.length) (hnd : names.Nodup)
    (hr : ∀ l ∈ rlines, '\n' ∉ l ∧ (words l).length = names.length)
    (h0 : names ≠ [] ∨ rlines = [])
    (hB : ∀ t ∈ tags, DT_from_string t ≠ DataType.B) :
    dataframe.read (unlines (plines ++ hline :: tline :: rlines)) [] =
      Except.ok
        ⟨List.zipWith converted (tags.map DT_from_string)
            (column_tokens tags.length (rlines.map words)),
          insert_headers [] names 0, dfP.properties, [], decide (names ≠ [])⟩ := by
  obtain ⟨props, hprops⟩ := read_properties_frame plines _ dfP hP
  have hPc : dfP.columns = [] := by rw [hprops]; rfl
  have hPi : dfP.ini_complete = false := by rw [hprops]; rfl
  have hPh : dfP.column_headers = [] := by rw [hprops]; rfl
  have hPx : dfP.idx = [] := by rw [hprops]; rfl
  have htext : unlines (plines ++ hline :: tline :: rlines) =
      unlines plines ++ (hline ++ '\n' :: (tline ++ '\n' :: unlines rlines)) := by
    rw [unlines_append]
    rfl
  have hlen := unlines_length (plines ++ hline :: tline :: rlines)
  simp only [List.length_append, List.length_cons] at hlen
  have hf1 : ∃ f1, (unlines (plines ++ hline :: tline :: rlines)).length + 1 =
      (f1 + 1 + 1 + 1) + plines.length :=
    ⟨(unlines (plines ++ hline :: tline :: rlines)).length - plines.length - 2, by omega⟩
  obtain ⟨f1, hf1⟩ := hf1
  obtain ⟨line', hprop⟩ := header_loop_properties plines (dataframe.empty real) dfP
    (f1 + 1 + 1 + 1) (hline ++ '\n' :: (tline ++ '\n' :: unlines rlines)) [] hp hP rfl rfl
  have hstep1 := header_loop_step (f1 + 1 + 1) hline (tline ++ '\n' :: unlines rlines) line'
    dfP _ hh.1 hPi (read_header_line_headers dfP hline w0 names hh.2.1 hh.2.2 hPc)
  have hstep2 := header_loop_step (f1 + 1) tline (unlines rlines) hline
    { dfP with column_headers := insert_headers dfP.column_headers names 0 } _ ht.1 hPi
    (read_header_line_types _ tline w1 tags ht.2.1 ht.2.2 hPc hB)
  have hhl := (insert_headers_spec names [] 0 hnd (fun _ _ => rfl)).1
  simp only [List.length_nil, Nat.zero_add] at hhl
  have hcols := @new_columns_eq real _ tags
  simp only [List.length_map] at hcols
  have hdfT : dataframe.check_ini { dfP with
      column_headers := insert_headers dfP.column_headers names 0,
      columns := tags.map (fun t => data_vector.new real (DT_from_string t) []) } =
      ⟨List.zipWith converted (tags.map DT_from_string) (column_tokens tags.length []),
        insert_headers [] names 0, dfP.properties, [], decide (names ≠ [])⟩ := by
    rw [← hcols]
    by_cases hn : names = []
    · subst hn
      have ht0 : tags = [] := List.length_eq_zero.mp hN
      subst ht0
      simp [dataframe.check_ini, hPh, hPx, hPi]
    · have hpos : 0 < names.length := List.length_pos.mpr hn
      simp [dataframe.check_ini, hPh, hPx, hhl, hN, hpos, hn]
  rw [hdfT] at hstep2
  have hheader : header_loop ((unlines (plines ++ hline :: tline :: rlines)).length + 1)
      ⟨unlines (plines ++ hline :: tline :: rlines), true⟩ [] (dataframe.empty real) =
      header_loop (f1 + 1) ⟨unlines rlines, true⟩ tline
        ⟨List.zipWith converted (tags.map DT_from_string) (column_tokens tags.length []),
          insert_headers [] names 0, dfP.properties, [], decide (names ≠ [])⟩ := by
    rw [hf1, htext, hprop, hstep1, hstep2]
  unfold dataframe.read
  rw [hheader]
  cases rlines with
  | nil =>
    simp only [header_loop, unlines, getline_end, Bool.false_eq_true, false_and, if_false,
      bind, Except.bind, pure, Except.pure, row_loop, read_line_empty, getline_not_good,
      if_true, List.map_nil]
  | cons r rs =>
    have hn : names ≠ [] := by
      rcases h0 with h | h
      · exact h
      · simp at h
    have hrl := (hr r (by simp)).1
    have hkl : (tags.map DT_from_string).length = names.length := by simp [hN]
    have hrows := @row_loop_rows real _ (tags.map DT_from_string) rs r []
      ⟨List.zipWith converted (tags.map DT_from_string) (column_tokens tags.length []),
        insert_headers [] names 0, dfP.properties, [], decide (names ≠ [])⟩
      ((unlines (plines ++ hline :: tline :: r :: rs)).length + 1)
      (fun x hx => by rw [hkl]; exact hr x hx) (by simp)
      (by simp only [List.length_cons] at hlen; omega)
    simp only [List.length_map, List.nil_append] at hrows
    have hdec : decide (names ≠ []) = true := decide_eq_true hn
    rw [hdec] at hrows ⊢
    simp only [header_loop, unlines, getline_line r (unlines rs) tline hrl,
      Bool.true_eq_false, and_false, if_false, bind, Except.bind, pure, Except.pure, hrows,
      if_true]

/-! ## The text written by `to_file` -/

theorem write_headers_eq (hs : std_map Nat) : write_headers hs = fields (hs.map Prod.fst) := by
  induction hs with
  | nil => rfl
  | cons kv rest ih => simp [write_headers, fields, ih]

theorem write_types_eq {real : Type} (columns : List (data_vector real)) :
    ∀ (hs : std_map Nat) (cs : List (data_vector real)),
      List.Forall₂ (fun kv c => columns.get? kv.2 = some c) hs cs →
      write_types columns hs = Except.ok (fields (cs.map (fun c => string_fromDT c.type)))
  | _, _, List.Forall₂.nil => rfl
  | _, _, List.Forall₂.cons h hrest => by
    simp only [write_types, vec_at, h, write_types_eq columns _ _ hrest, bind, Except.bind,
      pure, Except.pure, List.map_cons, fields]
    simp

theorem column_ok_size {real : Type} [RealText real] (c : data_vector real)
    (h : column_ok c) : c.size = Except.ok (cell_texts c).length := by
  obtain ⟨payload, type, name⟩ := c
  cases type <;> cases payload <;>
    simp_all [column_ok, data_vector.size, cell_texts, pure, Except.pure]

theorem column_ok_print_at {real : Type} [RealText real] (c : data_vector real) (i : Nat)
    (h : column_ok c) (hi : i < (cell_texts c).length) :
    c.print_at i = Except.ok (setw FIELDWIDTH ((cell_texts c).getD i []) ++ [' ']) := by
  obtain ⟨payload, type, name⟩ := c
  cases type <;> cases payload <;>
    simp_all [column_ok, data_vector.print_at, cell_texts, pure, Except.pure, vec_at, bind,
      Except.bind, List.getD_eq_getElem?_getD, List.getElem?_eq_getElem]

theorem write_row_eq {real : Type} [RealText real] (columns : List (data_vector real))
    (i : Nat) :
    ∀ (hs : std_map Nat) (cs : List (data_vector real)),
      List.Forall₂ (fun kv c => columns.get? kv.2 = some c) hs cs →
      (∀ c ∈ cs, column_ok c ∧ i < (cell_texts c).length) →
      write_row columns i hs = Except.ok (fields (cs.map (fun c => (cell_texts c).getD i [])))
  | _, _, List.Forall₂.nil, _ => rfl
  | _, _, List.Forall₂.cons h hrest, hall => by
    have hc := hall _ (List.mem_cons_self _ _)
    simp only [write_row, vec_at, h, column_ok_print_at _ i hc.1 hc.2,
      write_row_eq columns i _ _ hrest (fun c hc => hall c (List.mem_cons_of_mem _ hc)),
      bind, Except.bind, pure, Except.pure, List.map_cons, fields]
    simp

theorem write_rows_eq {real : Type} [RealText real] (df : dataframe real)
    (cs : List (data_vector real))
    (hcs : List.Forall₂ (fun kv c => df.columns.get? kv.2 = some c) df.column_headers cs) :
    ∀ (n i : Nat), (∀ c ∈ cs, column_ok c ∧ i + n ≤ (cell_texts c).length) →
      write_rows df n i = Except.ok (unlines ((List.range' i n).map (row_line cs)))
  | 0, _, _ => rfl
  | n + 1, i, hall => by
    have hrow := write_row_eq df.columns i _ _ hcs
      (fun c hc => ⟨(hall c hc).1, by have := (hall c hc).2; omega⟩)
    have ih := write_rows_eq df cs hcs n (i + 1)
      (fun c hc => ⟨(hall c hc).1, by have := (hall c hc).2; omega⟩)
    simp only [write_rows, hrow, ih, bind, Except.bind, pure, Except.pure, List.range'_succ,
      List.map_cons, unlines, row_line]
    simp

theorem property_ok_text {real : Type} [RealText real] (v : data_value real)
    (h : property_ok v) : v.pretty_print = Except.ok (value_text v) := by
  obtain ⟨type, payload⟩ := v
  cases type <;> cases payload <;>
    simp_all [property_ok, value_text, data_value.pretty_print, pure, Except.pure]

theorem write_properties_eq {real : Type} [RealText real] :
    ∀ (ps : std_map (data_value real)), (∀ kv ∈ ps, property_ok kv.2) →
      write_properties ps = Except.ok (unlines (ps.map property_line))
  | [], _ => rfl
  | kv :: rest, hall => by
    have h1 := property_ok_text kv.2 (hall kv (List.mem_cons_self _ _))
    have ih := write_properties_eq rest (fun x hx => hall x (List.mem_cons_of_mem _ hx))
    simp only [write_properties, h1, ih, bind, Except.bind, pure, Except.pure, List.map_cons,
      unlines, property_line]
    simp

/-- The text `to_file` writes for a table whose registered columns `cs` and whose properties
can be written: the property lines, the header line, the type line and `R` row lines. -/
theorem to_file_lines {real : Type} [RealText real] (df : dataframe real)
    (cs : List (data_vector real)) (R : Nat)
    (hcs : List.Forall₂ (fun kv c => df.columns.get? kv.2 = some c) df.column_headers cs)
    (hcol : ∀ c ∈ cs, column_ok c ∧ (cell_texts c).length = R)
    (hempty : df.column_headers = [] → df.columns = [] ∧ R = 0)
    (hprop : ∀ kv ∈ df.properties, property_ok kv.2) :
    df.to_file = Except.ok (unlines (df.properties.map property_line ++
      header_line (df.column_headers.map Prod.fst) :: type_line cs ::
        (List.range R).map (row_line cs))) := by
  have hsize : df.size = Except.ok R := by
    cases hh : df.column_headers with
    | nil =>
      obtain ⟨h1, h2⟩ := hempty hh
      simp [dataframe.size, h1, h2, pure, Except.pure]
    | cons kv rest =>
      rw [hh] at hcs
      cases hcs with
      | cons h hrest =>
        rename_i c cs'
        have hc := hcol c (List.mem_cons_self _ _)
        have hne : df.columns.length ≠ 0 := by
          intro h0
          rw [List.length_eq_zero.mp h0] at h
          simp at h
        simp only [dataframe.size, hne, if_false, hh, vec_at, h, bind, Except.bind, pure,
          Except.pure, column_ok_size c hc.1, hc.2]
  have hrows := write_rows_eq df cs hcs R 0
    (fun c hc => ⟨(hcol c hc).1, by have := (hcol c hc).2; omega⟩)
  simp only [dataframe.to_file, write_properties_eq _ hprop, write_types_eq _ _ _ hcs, hsize,
    hrows, bind, Except.bind, pure, Except.pure, write_headers_eq, unlines_append, unlines,
    header_line, type_line, List.range_eq_range']
  simp

/-! ## The lines written by `to_file`, read as tokens -/

theorem setw_not_mem (w : Nat) (t : Str) (c : Char) (hc : c ≠ ' ') (ht : c ∉ t) :
    c ∉ setw w t := by
  simp only [setw, List.mem_append, List.mem_replicate, not_or]
  exact ⟨fun h => hc h.2, ht⟩

theorem words_fields (ts : List Str) (h : ∀ t ∈ ts, token_ok t) : words (fields ts) = ts := by
  induction ts with
  | nil => rfl
  | cons t ts ih =>
    obtain ⟨h1, h2, _⟩ := h t (List.mem_cons_self _ _)
    rw [fields, words_setw _ _ h1 h2, ih (fun x hx => h x (List.mem_cons_of_mem _ hx))]

theorem fields_no_newline (ts : List Str) (h : ∀ t ∈ ts, token_ok t) : '\n' ∉ fields ts := by
  induction ts with
  | nil => simp [fields]
  | cons t ts ih =>
    obtain ⟨_, _, h3⟩ := h t (List.mem_cons_self _ _)
    have ih' := ih (fun x hx => h x (List.mem_cons_of_mem _ hx))
    have hs := setw_not_mem FIELDWIDTH t '\n' (by decide) h3
    simp only [fields, List.mem_append, List.mem_cons, not_or]
    exact ⟨hs, by decide, ih'⟩

theorem marked_line (m : Char) (ts : List Str) (hm : m ≠ ' ' ∧ m ≠ '\n')
    (h : ∀ t ∈ ts, token_ok t) :
    '\n' ∉ m :: ' ' :: fields ts ∧ line_front (m :: ' ' :: fields ts) = m ∧
    words (m :: ' ' :: fields ts) = [m] :: ts := by
  refine ⟨?_, rfl, ?_⟩
  · simp only [List.mem_cons, not_or]
    exact ⟨fun e => hm.2 e.symm, by decide, fields_no_newline ts h⟩
  · have := words_token [m] (by simp) (by simpa using fun e => hm.1 e.symm) (fields ts)
    simpa [words_fields ts h] using this

theorem row_line_facts (ts : List Str) (h : ∀ t ∈ ts, token_ok t) :
    '\n' ∉ ' ' :: ' ' :: fields ts ∧ words (' ' :: ' ' :: fields ts) = ts := by
  refine ⟨?_, ?_⟩
  · simp only [List.mem_cons, not_or]
    exact ⟨by decide, by decide, fields_no_newline ts h⟩
  · rw [words_space, words_space, words_fields ts h]

theorem string_fromDT_token (t : DataType) : token_ok (string_fromDT t) := by
  cases t <;> decide

theorem string_fromDT_not_bool (t : DataType) :
    DT_from_string (string_fromDT t) ≠ DataType.B := by
  cases t <;> decide

theorem column_ok_kind {real : Type} [RealText real] (c : data_vector real)
    (h : column_ok c) : DT_from_string (string_fromDT c.type) = c.type := by
  obtain ⟨payload, type, name⟩ := c
  cases type <;> cases payload <;> simp only [column_ok] at h <;>
    first
    | (show DT_from_string (string_fromDT DataType.S) = DataType.S; decide)
    | (show DT_from_string (string_fromDT DataType.LE) = DataType.LE; decide)
    | (show DT_from_string (string_fromDT DataType.D) = DataType.D; decide)

theorem column_ok_cells {real : Type} [RealText real] (c : data_vector real)
    (h : column_ok c) : ∀ t ∈ cell_texts c, token_ok t := by
  obtain ⟨payload, type, name⟩ := c
  cases type <;> cases payload <;> simp only [column_ok] at h <;>
    simp only [cell_texts, List.mem_map]
  · exact h
  · rintro t ⟨x, hx, rfl⟩
    exact (h x hx).1
  · rintro t ⟨x, _, rfl⟩
    exact put_int_token x

theorem map_eq_self {α : Type} (f : α → α) (xs : List α) (h : ∀ x ∈ xs, f x = x) :
    xs.map f = xs := by
  induction xs with
  | nil => rfl
  | cons x xs ih =>
    simp [h x (List.mem_cons_self _ _), ih (fun y hy => h y (List.mem_cons_of_mem _ hy))]

theorem column_ok_converted {real : Type} [RealText real] (c : data_vector real)
    (h : column_ok c) : converted c.type (cell_texts c) = c.unnamed := by
  obtain ⟨payload, type, name⟩ := c
  cases type <;> cases payload <;>
    simp_all [column_ok, cell_texts, converted, data_vector.unnamed]
  · apply map_eq_self
    intro x hx
    exact (h x hx).2
  · apply map_eq_self
    intro x hx
    show int_of_long (strtol (put_int x)) = x
    rw [strtol_put_int x (h x hx), int_of_long_id x (h x hx)]

theorem map_range_getD {α : Type} (l : List α) (d : α) :
    (List.range l.length).map (fun i => l.getD i d) = l := by
  apply List.ext_getElem
  · simp
  · intro i h1 h2
    simp [List.getD_eq_getElem?_getD, List.getElem?_eq_getElem h2]

theorem column_tokens_rows {real : Type} [RealText real] (cs : List (data_vector real))
    (R : Nat) (h : ∀ c ∈ cs, (cell_texts c).length = R) :
    column_tokens cs.length
      ((List.range R).map (fun i => cs.map (fun c => (cell_texts c).getD i []))) =
      cs.map cell_texts := by
  apply List.ext_getElem
  · simp [column_tokens]
  · intro j h1 h2
    have hj : j < cs.length := by simpa using h2
    have hR := h cs[j] (List.getElem_mem _)
    simp only [column_tokens, List.getElem_map, List.getElem_range, List.map_map]
    rw [← map_range_getD (cell_texts cs[j]) [], hR]
    apply List.map_congr_left
    intro i _
    simp [List.getD_eq_getElem?_getD, List.getElem?_eq_getElem hj]

theorem zipWith_converted {real : Type} [RealText real] (cs : List (data_vector real))
    (h : ∀ c ∈ cs, column_ok c) :
    List.zipWith converted (cs.map (fun c => c.type)) (cs.map cell_texts) =
      cs.map data_vector.unnamed := by
  induction cs with
  | nil => rfl
  | cons c cs ih =>
    simp only [List.map_cons, List.zipWith_cons_cons,
      column_ok_converted c (h c (List.mem_cons_self _ _)),
      ih (fun x hx => h x (List.mem_cons_of_mem _ hx))]

/-! ## Property lines and header names, written and read back -/

theorem map_insert_last {V : Type} (m : std_map V) (k : Str) (v : V)
    (h : ∀ kv ∈ m, str_lt kv.1 k = true) : map_insert m k v = m ++ [(k, v)] := by
  induction m with
  | nil => rfl
  | cons kv rest ih =>
    obtain ⟨k', v'⟩ := kv
    have h1 : str_lt k' k = true := h (k', v') (List.mem_cons_self _ _)
    have h2 : str_lt k k' = false := str_lt_asymm _ _ h1
    simp [map_insert, h1, h2, ih (fun x hx => h x (List.mem_cons_of_mem _ hx))]

theorem insert_headers_sorted : ∀ (names : List Str) (m : std_map Nat) (i : Nat),
    (m ++ number_from i names).Pairwise (fun a b => str_lt a.1 b.1 = true) →
    insert_headers m names i = m ++ number_from i names
  | [], m, i, _ => by simp [insert_headers, number_from]
  | t :: ts, m, i, h => by
    have hlt : ∀ kv ∈ m, str_lt kv.1 t = true := by
      intro kv hkv
      have := List.pairwise_append.mp h
      exact this.2.2 kv hkv (t, i) (by simp [number_from])
    have h' : ((m ++ [(t, i)]) ++ number_from (i + 1) ts).Pairwise
        (fun a b => str_lt a.1 b.1 = true) := by
      simpa [number_from] using h
    rw [insert_headers, map_insert_last m t i hlt, insert_headers_sorted ts _ _ h']
    simp [number_from]

theorem number_from_keys (i : Nat) (names : List Str) :
    (number_from i names).map Prod.fst = names := by
  induction names generalizing i with
  | nil => rfl
  | cons t ts ih => simp [number_from, ih]

theorem pairwise_of_map_fst {V W : Type} (a : std_map V) (b : std_map W)
    (h : a.map Prod.fst = b.map Prod.fst) (ha : map_sorted a) : map_sorted b := by
  unfold map_sorted at *
  have h1 : (a.map Prod.fst).Pairwise (fun x y => str_lt x y = true) :=
    List.pairwise_map.mpr ha
  rw [h] at h1
  exact List.pairwise_map.mp h1

theorem value_text_token {real : Type} [RealText real] (v : data_value real)
    (h : property_ok v) : token_ok (value_text v) := by
  obtain ⟨type, payload⟩ := v
  cases type <;> cases payload <;>
    simp_all [property_ok, value_text, data_value.pretty_print, pure, Except.pure]
  exact put_int_token _

theorem property_line_facts {real : Type} [RealText real] (kv : Str × data_value real)
    (hk : token_ok kv.1) (hv : property_ok kv.2) :
    '\n' ∉ property_line kv ∧ line_front (property_line kv) = '@' ∧
    words (property_line kv) =
      ['@'] :: kv.1 :: string_fromDT kv.2.type :: [value_text kv.2] := by
  obtain ⟨hv1, hv2, hv3⟩ := value_text_token kv.2 hv
  obtain ⟨hk1, hk2, hk3⟩ := hk
  obtain ⟨ht1, ht2, ht3⟩ := string_fromDT_token kv.2.type
  refine ⟨?_, rfl, ?_⟩
  · have s1 := setw_not_mem 32 kv.1 '\n' (by decide) hk3
    have s2 := setw_not_mem 4 (string_fromDT kv.2.type) '\n' (by decide) ht3
    simp only [property_line, List.mem_cons, List.mem_append, not_or]
    exact ⟨by decide, by decide, s1, by decide, s2, by decide, hv3⟩
  · have w0 := words_token ['@'] (by simp) (by decide)
      (setw 32 kv.1 ++ ' ' :: (setw 4 (string_fromDT kv.2.type) ++ ' ' :: value_text kv.2))
    have w1 := words_setw 32 kv.1 hk1 hk2
      (setw 4 (string_fromDT kv.2.type) ++ ' ' :: value_text kv.2)
    have w2 := words_setw 4 (string_fromDT kv.2.type) ht1 ht2 (value_text kv.2)
    have w3 := words_token_end (value_text kv.2) hv1 hv2
    simp only [List.singleton_append] at w0
    rw [property_line, w0, w1, w2, w3]

theorem read_property_line {real : Type} [RealText real] (df : dataframe real)
    (kv : Str × data_value real) (hk : token_ok kv.1) (hv : property_ok kv.2) :
    df.read_property (property_line kv) =
      Except.ok { df with properties := map_insert df.properties kv.1 kv.2 } := by
  obtain ⟨hnl, hfr, hw⟩ := property_line_facts kv hk hv
  obtain ⟨k, type, payload⟩ := kv
  cases type <;> cases payload <;> simp only [property_ok] at hv
  · rename_i r
    have hd : DT_from_string (string_fromDT DataType.LE) = DataType.LE := by decide
    simp only [dataframe.read_property, tokenize_words, List.nil_append, hw, vec_at,
      List.get?, bind, Except.bind, pure, Except.pure, hd, value_text,
      data_value.pretty_print, hv.2, data_value.from_double]
  · rename_i i
    have hd : DT_from_string (string_fromDT DataType.D) = DataType.D := by decide
    simp only [dataframe.read_property, tokenize_words, List.nil_append, hw, vec_at,
      List.get?, bind, Except.bind, pure, Except.pure, hd, value_text,
      data_value.pretty_print, strtol_put_int i hv, int_of_long_id i hv,
      data_value.from_int]

theorem read_property_lines {real : Type} [RealText real] :
    ∀ (ps done : std_map (data_value real)) (df : dataframe real),
      map_sorted (done ++ ps) → (∀ kv ∈ ps, token_ok kv.1 ∧ property_ok kv.2) →
      df.properties = done →
      (ps.map property_line).foldlM (fun d l => d.read_property l) df =
        Except.ok { df with properties := done ++ ps }
  | [], done, df, _, _, hd => by
    simp only [List.map_nil, List.foldlM_nil, pure, Except.pure, List.append_nil, ← hd]
  | kv :: ps, done, df, hs, hall, hd => by
    obtain ⟨hk, hv⟩ := hall kv (List.mem_cons_self _ _)
    have hlt : ∀ x ∈ done, str_lt x.1 kv.1 = true := by
      intro x hx
      exact (List.pairwise_append.mp hs).2.2 x hx kv (List.mem_cons_self _ _)
    have hs' : map_sorted ((done ++ [kv]) ++ ps) := by
      simpa [map_sorted] using hs
    have ih := read_property_lines ps (done ++ [kv])
      { df with properties := done ++ [kv] } hs'
      (fun x hx => hall x (List.mem_cons_of_mem _ hx)) rfl
    simp only [List.map_cons, List.foldlM_cons, read_property_line df kv hk hv, bind,
      Except.bind, hd, map_insert_last done kv.1 kv.2 hlt]
    rw [ih]
    simp

/-! ## Writing a table and reading the text back -/

/-- A table whose registered columns `cs` (in the order of `column_headers`) and whose
properties can be written and read back: the text `to_file` writes exists, and the
constructor rebuilds from it the registered columns in key order, with empty names, the
keys numbered in that order, and the same properties. -/
theorem read_to_file {real : Type} [RealText real] (df : dataframe real)
    (cs : List (data_vector real)) (R : Nat)
    (hcs : List.Forall₂ (fun kv c => df.columns.get? kv.2 = some c) df.column_headers cs)
    (hcol : ∀ c ∈ cs, column_ok c ∧ (cell_texts c).length = R)
    (hempty : df.column_headers = [] → df.columns = [] ∧ R = 0)
    (hsh : map_sorted df.column_headers) (hkeys : ∀ kv ∈ df.column_headers, token_ok kv.1)
    (hsp : map_sorted df.properties)
    (hprop : ∀ kv ∈ df.properties, token_ok kv.1 ∧ property_ok kv.2) :
    ∃ text, df.to_file = Except.ok text ∧
      dataframe.read text [] = Except.ok
        ⟨cs.map data_vector.unnamed, number_from 0 (df.column_headers.map Prod.fst),
          df.properties, [], decide (df.column_headers ≠ [])⟩ := by
  refine ⟨_, to_file_lines df cs R hcs hcol hempty (fun kv h => (hprop kv h).2), ?_⟩
  have hlen : cs.length = (df.column_headers.map Prod.fst).length := by
    rw [List.length_map, hcs.length_eq]
  have hnd : (df.column_headers.map Prod.fst).Nodup := by
    have h1 : (df.column_headers.map Prod.fst).Pairwise (fun x y => str_lt x y = true) :=
      List.pairwise_map.mpr hsh
    exact h1.imp (fun h => str_lt_ne h)
  have hnames : ∀ t ∈ df.column_headers.map Prod.fst, token_ok t := by
    intro t ht
    obtain ⟨kv, hkv, rfl⟩ := List.mem_map.mp ht
    exact hkeys kv hkv
  have htags : ∀ t ∈ cs.map (fun c => string_fromDT c.type), token_ok t := by
    intro t ht
    obtain ⟨c, _, rfl⟩ := List.mem_map.mp ht
    exact string_fromDT_token c.type
  have hcells : ∀ i, i < R → ∀ t ∈ cs.map (fun c => (cell_texts c).getD i []), token_ok t := by
    intro i hi t ht
    obtain ⟨c, hc, rfl⟩ := List.mem_map.mp ht
    obtain ⟨hok, hl⟩ := hcol c hc
    have hi' : i < (cell_texts c).length := by omega
    rw [List.getD_eq_getElem?_getD, List.getElem?_eq_getElem hi', Option.getD_some]
    exact column_ok_cells c hok _ (List.getElem_mem _)
  have hread := @read_lines real _ (df.properties.map property_line)
    (header_line (df.column_headers.map Prod.fst)) (type_line cs)
    ((List.range R).map (row_line cs)) ['*'] ['$'] (df.column_headers.map Prod.fst)
    (cs.map (fun (c : data_vector real) => string_fromDT c.type))
    { dataframe.empty real with properties := [] ++ df.properties }
    (by
      intro l hl
      obtain ⟨kv, hkv, rfl⟩ := List.mem_map.mp hl
      obtain ⟨h1, h2, _⟩ := property_line_facts kv (hprop kv hkv).1 (hprop kv hkv).2
      exact ⟨h1, h2⟩)
    (read_property_lines df.properties [] (dataframe.empty real) (by simpa using hsp) hprop
      rfl)
    (marked_line '*' _ (by decide) hnames)
    (marked_line '$' _ (by decide) htags)
    (by rw [List.length_map, hlen])
    hnd
    (by
      intro l hl
      obtain ⟨i, hi, rfl⟩ := List.mem_map.mp hl
      obtain ⟨h1, h2⟩ := row_line_facts _ (hcells i (List.mem_range.mp hi))
      refine ⟨h1, ?_⟩
      rw [row_line, h2, List.length_map, hlen])
    (by
      by_cases hh : df.column_headers = []
      · right
        rw [(hempty hh).2]
        rfl
      · left
        simpa using hh)
    (by
      intro t ht
      obtain ⟨c, _, rfl⟩ := List.mem_map.mp ht
      exact string_fromDT_not_bool c.type)
  rw [hread]
  have e1 : (cs.map (fun c => string_fromDT c.type)).map DT_from_string =
      cs.map (fun c => c.type) := by
    rw [List.map_map]
    apply List.map_congr_left
    intro c hc
    exact column_ok_kind c (hcol c hc).1
  have e2 : ((List.range R).map (row_line cs)).map words =
      (List.range R).map (fun i => cs.map (fun c => (cell_texts c).getD i [])) := by
    rw [List.map_map]
    apply List.map_congr_left
    intro i hi
    exact (row_line_facts _ (hcells i (List.mem_range.mp hi))).2
  have e3 : insert_headers [] (df.column_headers.map Prod.fst) 0 =
      number_from 0 (df.column_headers.map Prod.fst) := by
    have := insert_headers_sorted (df.column_headers.map Prod.fst) [] 0
      (by
        rw [List.nil_append]
        exact pairwise_of_map_fst df.column_headers _ (number_from_keys 0 _).symm hsh)
    simpa using this
  have e4 : decide (df.column_headers.map Prod.fst ≠ []) = decide (df.column_headers ≠ []) := by
    simp
  rw [e1, e2, e3, e4, List.length_map,
    column_tokens_rows cs R (fun c hc => (hcol c hc).2),
    zipWith_converted cs (fun c hc => (hcol c hc).1)]
  simp

/-! ## Tables built by `add_column` -/

theorem mem_map_assign {V : Type} (m : std_map V) (k : Str) (v : V) (kv : Str × V)
    (h : kv ∈ map_assign m k v) : kv = (k, v) ∨ kv ∈ m := by
  induction m with
  | nil => simpa [map_assign] using h
  | cons e rest ih =>
    obtain ⟨k', v'⟩ := e
    simp only [map_assign] at h
    by_cases h1 : str_lt k k' = true
    · simp only [h1, if_true] at h
      rcases List.mem_cons.mp h with h' | h'
      · exact Or.inl h'
      · exact Or.inr h'
    · by_cases h2 : str_lt k' k = true
      · simp only [h1, h2, if_true, if_false] at h
        rcases List.mem_cons.mp h with h' | h'
        · exact Or.inr (by rw [h']; exact List.mem_cons_self _ _)
        · rcases ih h' with h'' | h''
          · exact Or.inl h''
          · exact Or.inr (List.mem_cons_of_mem _ h'')
      · have e := str_lt_total k' k (by simpa using h2) (by simpa using h1)
        simp only [h1, h2, if_false] at h
        rcases List.mem_cons.mp h with h' | h'
        · exact Or.inl (by rw [h', e])
        · exact Or.inr (List.mem_cons_of_mem _ h')

theorem mem_map_assign_self {V : Type} (m : std_map V) (k : Str) (v : V) :
    (k, v) ∈ map_assign m k v := by
  induction m with
  | nil => simp [map_assign]
  | cons e rest ih =>
    obtain ⟨k', v'⟩ := e
    simp only [map_assign]
    by_cases h1 : str_lt k k' = true
    · simp [h1]
    · by_cases h2 : str_lt k' k = true
      · simp [h1, h2, ih]
      · have e := str_lt_total k' k (by simpa using h2) (by simpa using h1)
        subst e
        simp [str_lt_irrefl]

theorem mem_map_assign_other {V : Type} (m : std_map V) (k : Str) (v : V) (kv : Str × V)
    (h : kv ∈ m) (hk : kv.1 ≠ k) : kv ∈ map_assign m k v := by
  induction m with
  | nil => simp at h
  | cons e rest ih =>
    obtain ⟨k', v'⟩ := e
    simp only [map_assign]
    by_cases h1 : str_lt k k' = true
    · simp only [h1, if_true]
      exact List.mem_cons_of_mem _ h
    · by_cases h2 : str_lt k' k = true
      · simp only [h1, h2, if_true, if_false]
        rcases List.mem_cons.mp h with h | h
        · simp [h]
        · exact List.mem_cons_of_mem _ (ih h)
      · have e := str_lt_total k' k (by simpa using h2) (by simpa using h1)
        simp only [h1, h2, if_false]
        rcases List.mem_cons.mp h with h | h
        · exact absurd (by rw [h]; exact e) hk
        · exact List.mem_cons_of_mem _ h

theorem map_assign_sorted {V : Type} (m : std_map V) (k : Str) (v : V) (h : map_sorted m) :
    map_sorted (map_assign m k v) := by
  induction m with
  | nil => simp [map_assign, map_sorted]
  | cons e rest ih =>
    obtain ⟨k', v'⟩ := e
    have hs := List.pairwise_cons.mp h
    simp only [map_assign]
    by_cases h1 : str_lt k k' = true
    · simp only [h1, if_true]
      refine List.pairwise_cons.mpr ⟨?_, h⟩
      intro x hx
      rcases List.mem_cons.mp hx with hx | hx
      · rw [hx]
        exact h1
      · exact str_lt_trans _ _ _ h1 (hs.1 x hx)
    · by_cases h2 : str_lt k' k = true
      · simp only [h1, h2, if_true, if_false]
        refine List.pairwise_cons.mpr ⟨?_, ih hs.2⟩
        intro x hx
        rcases mem_map_assign rest k v x hx with hx | hx
        · rw [hx]
          exact h2
        · exact hs.1 x hx
      · simp only [h1, h2, if_false]
        exact List.pairwise_cons.mpr ⟨hs.1, hs.2⟩

theorem build_append {real : Type} (cols : List (sequence real × Str))
    (c : sequence real × Str) :
    build (cols ++ [c]) = (build cols >>= fun t => t.add_column c.1 c.2) := by
  simp only [build, List.foldlM_append, List.foldlM_cons, List.foldlM_nil]
  congr 1
  funext t
  cases t.add_column c.1 c.2 <;> rfl

theorem get?_append_left {α : Type} (xs ys : List α) (i : Nat) (x : α)
    (h : xs.get? i = some x) : (xs ++ ys).get? i = some x := by
  have hi : i < xs.length := by
    rw [List.get?_eq_getElem?] at h
    exact (List.getElem?_eq_some_iff.mp h).1
  rw [List.get?_eq_getElem?] at h ⊢
  rw [List.getElem?_append_left hi]
  exact h

/-- The series of `add_column` calls returns a table, and what its `column_headers` and
`columns` hold. -/
theorem build_spec {real : Type} (cols : List (sequence real × Str)) :
    ∃ t, build cols = Except.ok t ∧
      map_sorted t.column_headers ∧
      t.columns.length = cols.length ∧
      t.properties = [] ∧
      (∀ kv ∈ t.column_headers, ∃ seq, (seq, kv.1) ∈ cols ∧
        t.columns.get? kv.2 = some (seq.column kv.1)) ∧
      (∀ c ∈ cols, ∃ i, (c.2, i) ∈ t.column_headers) ∧
      copy_all t.columns = Except.ok t.columns := by
  induction cols using List.reverseRecOn with
  | nil =>
    refine ⟨dataframe.empty real, rfl, ?_, rfl, rfl, ?_, ?_, rfl⟩
    · simp [dataframe.empty, map_sorted]
    · intro kv h
      simp [dataframe.empty] at h
    · intro c h
      simp at h
  | append_singleton cols c ih =>
    obtain ⟨t, ht, h1, h2, h3, h4, h5, h6⟩ := ih
    refine ⟨{ t with
      column_headers := map_assign t.column_headers c.2 t.columns.length
      columns := t.columns ++ [c.1.column c.2] }, ?_, ?_, ?_, ?_, ?_, ?_, ?_⟩
    · rw [build_append, ht]
      exact add_column_ok t c.1 c.2 h6
    · exact map_assign_sorted _ _ _ h1
    · simp [h2]
    · exact h3
    · intro kv hkv
      rcases mem_map_assign _ _ _ _ hkv with h | h
      · refine ⟨c.1, by simp [h], ?_⟩
        rw [h]
        simp [List.get?_eq_getElem?]
      · obtain ⟨seq, hseq, hget⟩ := h4 kv h
        exact ⟨seq, by simp [hseq], get?_append_left _ _ _ _ hget⟩
    · intro x hx
      rcases List.mem_append.mp hx with h | h
      · obtain ⟨i, hi⟩ := h5 x h
        by_cases e : x.2 = c.2
        · exact ⟨t.columns.length, by rw [e]; exact mem_map_assign_self _ _ _⟩
        · exact ⟨i, mem_map_assign_other _ _ _ _ hi e⟩
      · simp only [List.mem_singleton] at h
        rw [h]
        exact ⟨_, mem_map_assign_self _ _ _⟩
    · exact copy_all_append _ _ h6 (sequence_column_copy c.1 c.2)

theorem forall₂_of_forall_exists {α β : Type} (r : α → β → Prop) :
    ∀ (l : List α), (∀ a ∈ l, ∃ b, r a b) → ∃ l', List.Forall₂ r l l'
  | [], _ => ⟨[], List.Forall₂.nil⟩
  | a :: l, h => by
    obtain ⟨b, hb⟩ := h a (List.mem_cons_self _ _)
    obtain ⟨l', hl'⟩ := forall₂_of_forall_exists r l (fun x hx => h x (List.mem_cons_of_mem _ hx))
    exact ⟨b :: l', List.Forall₂.cons hb hl'⟩

theorem forall₂_get {α β : Type} (r : α → β → Prop) :
    ∀ (l : List α) (l' : List β) (j : Nat) (a : α), List.Forall₂ r l l' →
      l.get? j = some a → ∃ b, l'.get? j = some b ∧ r a b
  | _, _, _, _, List.Forall₂.nil, h => by simp at h
  | _, _, 0, a, List.Forall₂.cons hr _, h => by
    simp only [List.get?_cons_zero, Option.some.injEq] at h
    subst h
    exact ⟨_, rfl, hr⟩
  | _, _, j + 1, a, List.Forall₂.cons _ hrest, h => by
    simp only [List.get?_cons_succ] at h
    obtain ⟨b, hb, hr⟩ := forall₂_get r _ _ j a hrest h
    exact ⟨b, by simpa using hb, hr⟩

theorem forall₂_mem_right {α β : Type} (r : α → β → Prop) :
    ∀ (l : List α) (l' : List β), List.Forall₂ r l l' → ∀ b ∈ l', ∃ a ∈ l, r a b
  | _, _, List.Forall₂.nil, b, h => by simp at h
  | _, _, List.Forall₂.cons hr hrest, b, h => by
    rcases List.mem_cons.mp h with h' | h'
    · exact ⟨_, List.mem_cons_self _ _, h' ▸ hr⟩
    · obtain ⟨a, ha, hab⟩ := forall₂_mem_right r _ _ hrest b h'
      exact ⟨a, List.mem_cons_of_mem _ ha, hab⟩

theorem map_find_number_from : ∀ (names : List Str) (i j : Nat) (k : Str),
    names.Nodup → names.get? j = some k → map_find (number_from i names) k = some (i + j)
  | [], _, _, _, _, h => by simp at h
  | t :: ts, i, 0, k, _, h => by
    simp only [List.get?_cons_zero, Option.some.injEq] at h
    simp [number_from, map_find, h]
  | t :: ts, i, j + 1, k, hnd, h => by
    simp only [List.get?_cons_succ] at h
    have hnd' := List.nodup_cons.mp hnd
    have hk : k ∈ ts := List.get?_mem h
    have hne : t ≠ k := fun e => hnd'.1 (e ▸ hk)
    simp only [number_from, map_find, hne, if_false]
    rw [map_find_number_from ts (i + 1) j k hnd'.2 h]
    congr 1
    omega

theorem unique_by_name {α : Type} (cols : List (α × Str)) (hnd : (cols.map Prod.snd).Nodup)
    (a b : α) (n : Str) (ha : (a, n) ∈ cols) (hb : (b, n) ∈ cols) : a = b := by
  induction cols with
  | nil => simp at ha
  | cons c cols ih =>
    simp only [List.map_cons, List.nodup_cons, List.mem_map, not_exists, not_and] at hnd
    rcases List.mem_cons.mp ha with ha' | ha'
    · rcases List.mem_cons.mp hb with hb' | hb'
      · rw [← hb'] at ha'
        exact (Prod.mk.inj ha').1
      · exact absurd (by rw [← ha']) (hnd.1 (b, n) hb')
    · rcases List.mem_cons.mp hb with hb' | hb'
      · exact absurd (by rw [← hb']) (hnd.1 (a, n) ha')
      · exact ih hnd.2 ha' hb'

theorem size_of_columns {real : Type} [RealText real] (df : dataframe real)
    (cs : List (data_vector real)) (R : Nat)
    (hcs : List.Forall₂ (fun kv c => df.columns.get? kv.2 = some c) df.column_headers cs)
    (hcol : ∀ c ∈ cs, column_ok c ∧ (cell_texts c).length = R)
    (hempty : df.column_headers = [] → df.columns = [] ∧ R = 0) :
    df.size = Except.ok R := by
  cases hh : df.column_headers with
  | nil =>
    obtain ⟨h1, h2⟩ := hempty hh
    simp [dataframe.size, h1, h2, pure, Except.pure]
  | cons kv rest =>
    rw [hh] at hcs
    cases hcs with
    | cons h hrest =>
      rename_i c cs'
      have hc := hcol c (List.mem_cons_self _ _)
      have hne : df.columns.length ≠ 0 := by
        intro h0
        rw [List.length_eq_zero.mp h0] at h
        simp at h
      simp only [dataframe.size, hne, if_false, hh, vec_at, h, bind, Except.bind, pure,
        Except.pure, column_ok_size c hc.1, hc.2]

theorem column_ok_unnamed {real : Type} [RealText real] (c : data_vector real) :
    column_ok c.unnamed = column_ok c := rfl

theorem cell_texts_unnamed {real : Type} [RealText real] (c : data_vector real) :
    cell_texts c.unnamed = cell_texts c := rfl

theorem get_column_found {real : Type} (df : dataframe real) (name : Str) (i : Nat)
    (c : data_vector real) (h1 : map_find df.column_headers name = some i)
    (h2 : df.columns.get? i = some c) : df.get_column name = Except.ok (c, df) := by
  simp only [dataframe.get_column, map_index, h1, vec_at, h2]
  rfl

theorem get?_append_cons {α : Type} (pre : List α) (x : α) (rest : List α) :
    (pre ++ x :: rest).get? pre.length = some x := by
  induction pre with
  | nil => rfl
  | cons a pre ih => simpa using ih

theorem number_from_columns_aux {α : Type} : ∀ (l : List α) (ns : List Str) (pre : List α),
    ns.length = l.length →
    List.Forall₂ (fun (kv : Str × Nat) (c : α) => (pre ++ l).get? kv.2 = some c)
      (number_from pre.length ns) l
  | [], ns, pre, hl => by
    have : ns = [] := List.length_eq_zero.mp hl
    subst this
    exact List.Forall₂.nil
  | c :: l, [], pre, hl => by simp at hl
  | c :: l, n :: ns, pre, hl => by
    refine List.Forall₂.cons (get?_append_cons pre c l) ?_
    have := number_from_columns_aux l ns (pre ++ [c]) (by simpa using hl)
    simpa using this

/-- Names numbered from 0 point at the columns in the same order. -/
theorem number_from_columns {α : Type} (l : List α) (ns : List Str)
    (hl : ns.length = l.length) :
    List.Forall₂ (fun (kv : Str × Nat) (c : α) => l.get? kv.2 = some c)
      (number_from 0 ns) l := by
  simpa using number_from_columns_aux l ns [] hl

/-- Writing a table built by `add_column` calls with pairwise distinct names and columns
that can be written and read back, then reading the text: every name gives back its column
(with an empty name field), and the row count is the common length. -/
theorem build_read {real : Type} [RealText real] (cols : List (sequence real × Str))
    (R : Nat) (hnd : (cols.map Prod.snd).Nodup)
    (hok : ∀ c ∈ cols, token_ok c.2 ∧ column_ok (c.1.column c.2) ∧
      (cell_texts (c.1.column c.2)).length = R) :
    ∃ t text df', build cols = Except.ok t ∧ t.to_file = Except.ok text ∧
      dataframe.read text [] = Except.ok df' ∧
      (∀ c ∈ cols, df'.get_column c.2 = Except.ok ((c.1.column c.2).unnamed, df')) ∧
      t.size = Except.ok (if cols.isEmpty then 0 else R) ∧
      df'.size = Except.ok (if cols.isEmpty then 0 else R) := by
  obtain ⟨t, ht, h1, h2, h3, h4, h5, _⟩ := build_spec cols
  obtain ⟨cs, hcs⟩ := forall₂_of_forall_exists
    (fun (kv : Str × Nat) (c : data_vector real) => t.columns.get? kv.2 = some c ∧
      ∃ seq, (seq, kv.1) ∈ cols ∧ c = seq.column kv.1)
    t.column_headers
    (fun kv hkv => by
      obtain ⟨seq, hs, hg⟩ := h4 kv hkv
      exact ⟨_, hg, seq, hs, rfl⟩)
  have hcs' : List.Forall₂ (fun kv c => t.columns.get? kv.2 = some c)
      t.column_headers cs := hcs.imp (fun _ _ h => h.1)
  have hne : cols ≠ [] → (if cols.isEmpty then 0 else R) = R := by
    intro h
    cases cols with
    | nil => exact absurd rfl h
    | cons c cols => rfl
  have hcol : ∀ c ∈ cs, column_ok c ∧ (cell_texts c).length = (if cols.isEmpty then 0 else R) := by
    intro c hc
    obtain ⟨kv, _, _, seq, hseq, rfl⟩ := forall₂_mem_right _ _ _ hcs c hc
    obtain ⟨_, ho, hl⟩ := hok _ hseq
    rw [hne (List.ne_nil_of_mem hseq)]
    exact ⟨ho, hl⟩
  have hempty : t.column_headers = [] →
      t.columns = [] ∧ (if cols.isEmpty then 0 else R) = 0 := by
    intro hh
    have hc : cols = [] := by
      cases cols with
      | nil => rfl
      | cons c cols =>
        obtain ⟨i, hi⟩ := h5 c (List.mem_cons_self _ _)
        rw [hh] at hi
        simp at hi
    subst hc
    exact ⟨List.length_eq_zero.mp h2, rfl⟩
  have hkeys : ∀ kv ∈ t.column_headers, token_ok kv.1 := by
    intro kv hkv
    obtain ⟨seq, hs, _⟩ := h4 kv hkv
    exact (hok _ hs).1
  obtain ⟨text, htext, hread⟩ := read_to_file t cs _ hcs' hcol hempty h1 hkeys
    (by rw [h3]; exact List.Pairwise.nil) (by rw [h3]; intro kv h; simp at h)
  have hnames : (t.column_headers.map Prod.fst).Nodup := by
    have hp : (t.column_headers.map Prod.fst).Pairwise
        (fun x y => str_lt x y = true) := List.pairwise_map.mpr h1
    exact hp.imp (fun h => str_lt_ne h)
  have hunn := number_from_columns (cs.map data_vector.unnamed)
    (t.column_headers.map Prod.fst) (by simp [hcs'.length_eq])
  refine ⟨t, text, _, ht, htext, hread, ?_, size_of_columns _ cs _ hcs' hcol hempty, ?_⟩
  · intro c hc
    obtain ⟨i, hi⟩ := h5 c hc
    obtain ⟨j, hj⟩ := List.mem_iff_get?.mp hi
    obtain ⟨c', hc', _, seq, hseq, hceq⟩ := forall₂_get _ _ _ j _ hcs hj
    have hseq' : (seq, c.2) ∈ cols := hseq
    have hs : seq = c.1 := unique_by_name cols hnd seq c.1 c.2 hseq' hc
    have hname : (t.column_headers.map Prod.fst).get? j = some c.2 := by
      simp [List.get?_eq_getElem?] at hj ⊢
      simp [hj]
    have hfind := map_find_number_from _ 0 j c.2 hnames hname
    rw [Nat.zero_add] at hfind
    apply get_column_found _ _ j _ hfind
    rw [List.get?_eq_getElem?] at hc' ⊢
    simp only [List.getElem?_map, hc', Option.map_some']
    rw [hceq, hs]
  · exact size_of_columns _ (cs.map data_vector.unnamed) _ hunn
      (by
        intro c hc
        obtain ⟨c0, hc0, rfl⟩ := List.mem_map.mp hc
        exact hcol c0 hc0)
      (by
        intro hh
        have hn : t.column_headers = [] := by
          cases hb : t.column_headers with
          | nil => rfl
          | cons kv rest => simp [hb, number_from] at hh
        have hcs0 : cs = [] := by
          rw [hn] at hcs'
          cases hcs'
          rfl
        exact ⟨by simp [hcs0], (hempty hn).2⟩)

/-! ## Round trips -/

theorem sequence_ok_column {real : Type} [RealText real] (seq : sequence real) (R : Nat)
    (name : Str) (h : sequence_ok seq R) :
    column_ok (seq.column name) ∧ (cell_texts (seq.column name)).length = R := by
  cases seq <;> simp_all [sequence_ok, sequence.column, column_ok, cell_texts]

theorem unnamed_holds {real : Type} (seq : sequence real) (name : Str) :
    holds (seq.column name).unnamed seq := by
  cases seq <;> exact ⟨rfl, rfl⟩

/-- C1: for a table built from the empty dataframe by `add_column` calls with pairwise
distinct names, every name one token (not empty, no space, no newline) and every column of
`R` elements that are `int`s, one-token strings, or floats whose written text is one token
that reads back as the same float: `to_file` writes a text, the constructor reads it, and
in the table read `get_column(name)` has the kind of the original column and
`as_int_vector`, `as_string_vector` or `as_real_vector` returns the original sequence. -/
theorem column_round_trip {real : Type} [RealText real] (cols : List (sequence real × Str))
    (R : Nat) (hnames : (cols.map Prod.snd).Nodup)
    (hcols : ∀ c ∈ cols, token_ok c.2 ∧ sequence_ok c.1 R) :
    ∃ t text table, build cols = Except.ok t ∧ t.to_file = Except.ok text ∧
      dataframe.read text [] = Except.ok table ∧
      ∀ c ∈ cols, ∃ col, table.get_column c.2 = Except.ok (col, table) ∧ holds col c.1 := by
  obtain ⟨t, text, table, h0, h1, h2, h3, _, _⟩ := build_read cols R hnames
    (fun c hc => ⟨(hcols c hc).1, sequence_ok_column c.1 R c.2 (hcols c hc).2⟩)
  exact ⟨t, text, table, h0, h1, h2, fun c hc => ⟨_, h3 c hc, unnamed_holds c.1 c.2⟩⟩

theorem test_columns_ok : ∀ c ∈ test_columns, token_ok c.2 ∧ sequence_ok c.1 5 := by
  intro c hc
  simp only [test_columns, List.mem_cons, List.mem_singleton, List.not_mem_nil, or_false] at hc
  rcases hc with rfl | rfl
  · exact ⟨by decide, by simp only [sequence_ok]; decide⟩
  · exact ⟨by decide, by simp only [sequence_ok]; decide⟩

theorem column_round_trip_witness :
    ∃ t text table, build test_columns = Except.ok t ∧ t.to_file = Except.ok text ∧
      dataframe.read text [] = Except.ok table ∧
      ∀ c ∈ test_columns, ∃ col, table.get_column c.2 = Except.ok (col, table) ∧
        holds col c.1 :=
  column_round_trip test_columns 5 (by decide) test_columns_ok

/-- C3 (as stated, refuted): a column named `a b` (one space) with the cell 7 is written
as a header line of two tokens, so the constructor registers two names for one column,
never completes the header phase and reads no row: the table read has row count 0, the
original has 1. A string cell `x y` (one space) is written as two tokens of a row, and
`read_line` indexes past the only column. -/
theorem cell_round_trip_counterexample :
    spaced_name.size = Except.ok 1 ∧
    (do
      let text ← spaced_name.to_file
      let table ← (dataframe.read text [] : Except Error (dataframe whole))
      table.size) = Except.ok 0 ∧
    (do
      let text ← spaced_cell.to_file
      (dataframe.read text [] : Except Error (dataframe whole))) =
      Except.error Error.undefined_behaviour := by
  decide

theorem map_find_of_mem {V : Type} (m : std_map V) (k : Str) (v : V) (hs : map_sorted m)
    (h : (k, v) ∈ m) : map_find m k = some v := by
  induction m with
  | nil => simp at h
  | cons e rest ih =>
    obtain ⟨k', v'⟩ := e
    have hs' := List.pairwise_cons.mp hs
    rcases List.mem_cons.mp h with h' | h'
    · simp only [Prod.mk.injEq] at h'
      simp [map_find, h'.1, h'.2]
    · have hlt : str_lt k' k = true := hs'.1 (k, v) h'
      simp only [map_find, str_lt_ne hlt, if_false]
      exact ih hs'.2 h'

/-- C3 (amended): for a table built by `add_column` calls with pairwise distinct one-token
names (not empty, no space, no newline) and `int`, float and string columns of `R` elements
each, every string cell one token and every float cell written as one token that reads back
as the same float, the table read from the written text has the same row count and, under
every name, a column of the same kind holding the same elements as the original column. -/
theorem cell_round_trip {real : Type} [RealText real] (cols : List (sequence real × Str))
    (R : Nat) (hnames : (cols.map Prod.snd).Nodup)
    (hcols : ∀ c ∈ cols, token_ok c.2 ∧ sequence_ok c.1 R) :
    ∃ t text table rows, build cols = Except.ok t ∧ t.to_file = Except.ok text ∧
      dataframe.read text [] = Except.ok table ∧
      t.size = Except.ok rows ∧ table.size = Except.ok rows ∧
      ∀ c ∈ cols, ∃ original col,
        t.get_column c.2 = Except.ok (original, t) ∧
        table.get_column c.2 = Except.ok (col, table) ∧
        col.type = original.type ∧ col.payload = original.payload ∧ holds original c.1 := by
  obtain ⟨t, text, table, h0, h1, h2, h3, h4, h5⟩ := build_read cols R hnames
    (fun c hc => ⟨(hcols c hc).1, sequence_ok_column c.1 R c.2 (hcols c hc).2⟩)
  refine ⟨t, text, table, _, h0, h1, h2, h4, h5, fun c hc => ?_⟩
  obtain ⟨t', ht', b1, _, _, b4, b5, _⟩ := build_spec cols
  have htt : t' = t := Except.ok.inj (ht'.symm.trans h0)
  subst htt
  obtain ⟨i, hi⟩ := b5 c hc
  obtain ⟨seq, hseq, hget⟩ := b4 _ hi
  have hs : seq = c.1 := unique_by_name cols hnames seq c.1 c.2 hseq hc
  rw [hs] at hget
  refine ⟨c.1.column c.2, _, get_column_found _ _ i _ (map_find_of_mem _ _ _ b1 hi) hget,
    h3 c hc, rfl, rfl, ?_⟩
  cases c.1 <;> exact ⟨rfl, rfl⟩

theorem cell_round_trip_witness :
    ∃ t text table rows, build test_columns = Except.ok t ∧ t.to_file = Except.ok text ∧
      dataframe.read text [] = Except.ok table ∧
      t.size = Except.ok rows ∧ table.size = Except.ok rows ∧
      ∀ c ∈ test_columns, ∃ original col,
        t.get_column c.2 = Except.ok (original, t) ∧
        table.get_column c.2 = Except.ok (col, table) ∧
        col.type = original.type ∧ col.payload = original.payload ∧ holds original c.1 :=
  cell_round_trip test_columns 5 (by decide) (by
    intro c hc
    simp only [test_columns, List.mem_cons, List.mem_singleton, List.not_mem_nil,
      or_false] at hc
    rcases hc with rfl | rfl
    · exact ⟨by decide, by simp only [sequence_ok]; decide⟩
    · exact ⟨by decide, by simp only [sequence_ok]; decide⟩)

/-- C4 (as stated, refuted): a string column `a` with the single cell `""` is written as a
row line of spaces only; the constructor reads no token from it, so the table read has no
row, and the second serialization lacks the row line of the first. -/
theorem idempotence_counterexample :
    empty_cell.to_file =
      Except.ok "*               a \n$              %s \n                  \n".toList ∧
    (do
      let s1 ← empty_cell.to_file
      let table ← (dataframe.read s1 [] : Except Error (dataframe whole))
      table.to_file) =
      Except.ok "*               a \n$              %s \n".toList := by
  decide

set_option maxRecDepth 100000 in
/-- C2 (as stated, refuted): the test table holds the string property `Comment` with value
`hello world`; in the table read from the written text `get_property("Comment")` is the
string `hello world ` with a space at its end. A table with one `int` property under the
empty key is read back with the single property `%d`, an empty string. -/
theorem property_round_trip_counterexample :
    (twiss.get_property "Comment".toList).1 =
      data_value.from_string whole "hello world".toList ∧
    (do
      let text ← twiss.to_file
      let table ← (dataframe.read text [] : Except Error (dataframe whole))
      pure (table.get_property "Comment".toList).1) =
      Except.ok (data_value.from_string whole "hello world ".toList) ∧
    empty_key.properties = [([], data_value.from_int whole 5)] ∧
    (do
      let text ← empty_key.to_file
      let table ← (dataframe.read text [] : Except Error (dataframe whole))
      pure table.properties) =
      Except.ok [("%d".toList, data_value.from_string whole [])] := by
  decide

/-! ## Reading a well-formed text -/

theorem read_property_ok {real : Type} [RealText real] (df : dataframe real) (l : Str)
    (h : 4 ≤ (words l).length) : ∃ df', df.read_property l = Except.ok df' := by
  cases hw : words l with
  | nil => simp [hw] at h
  | cons a t1 =>
    cases t1 with
    | nil => simp [hw] at h
    | cons b t2 =>
      cases t2 with
      | nil => simp [hw] at h
      | cons c t3 =>
        cases t3 with
        | nil => simp [hw] at h
        | cons d t4 =>
          simp only [dataframe.read_property, tokenize_words, List.nil_append, hw, vec_at,
            List.get?, bind, Except.bind, pure, Except.pure]
          cases DT_from_string c <;> exact ⟨_, rfl⟩

theorem read_properties_ok {real : Type} [RealText real] :
    ∀ (plines : List Str) (df : dataframe real), (∀ l ∈ plines, 4 ≤ (words l).length) →
      ∃ dfP, plines.foldlM (fun d l => d.read_property l) df = Except.ok dfP
  | [], df, _ => ⟨df, rfl⟩
  | l :: plines, df, h => by
    obtain ⟨df1, h1⟩ := read_property_ok df l (h l (List.mem_cons_self _ _))
    obtain ⟨dfP, hP⟩ := read_properties_ok plines df1
      (fun x hx => h x (List.mem_cons_of_mem _ hx))
    exact ⟨dfP, by simp only [List.foldlM_cons, h1, bind, Except.bind, hP]⟩

theorem mem_map_insert {V : Type} (m : std_map V) (k : Str) (v : V) (kv : Str × V)
    (h : kv ∈ map_insert m k v) : kv = (k, v) ∨ kv ∈ m := by
  induction m with
  | nil => simpa [map_insert] using h
  | cons e rest ih =>
    obtain ⟨k', v'⟩ := e
    simp only [map_insert] at h
    by_cases h1 : str_lt k k' = true
    · simp only [h1, if_true] at h
      rcases List.mem_cons.mp h with h' | h'
      · exact Or.inl h'
      · exact Or.inr h'
    · by_cases h2 : str_lt k' k = true
      · simp only [h1, h2, if_true, if_false] at h
        rcases List.mem_cons.mp h with h' | h'
        · exact Or.inr (by rw [h']; exact List.mem_cons_self _ _)
        · rcases ih h' with h'' | h''
          · exact Or.inl h''
          · exact Or.inr (List.mem_cons_of_mem _ h'')
      · simp only [h1, h2, if_false] at h
        exact Or.inr h

theorem mem_insert_headers : ∀ (names : List Str) (m : std_map Nat) (i : Nat)
    (kv : Str × Nat), kv ∈ insert_headers m names i →
    kv ∈ m ∨ (i ≤ kv.2 ∧ kv.2 < i + names.length)
  | [], m, i, kv, h => Or.inl h
  | t :: ts, m, i, kv, h => by
    rcases mem_insert_headers ts (map_insert m t i) (i + 1) kv h with h' | h'
    · rcases mem_map_insert m t i kv h' with h'' | h''
      · right
        rw [h'']
        simp
      · exact Or.inl h''
    · right
      simp only [List.length_cons]
      omega

theorem converted_type {real : Type} [RealText real] (t : DataType) (toks : List Str) :
    (converted t toks : data_vector real).type = t := by
  cases t <;> rfl

theorem converted_size {real : Type} [RealText real] (tag : Str) (toks : List Str)
    (h : DT_from_string tag ≠ DataType.B) :
    (converted (DT_from_string tag) toks : data_vector real).size =
      Except.ok toks.length := by
  have hC : DT_from_string tag ≠ DataType.C := by
    unfold DT_from_string
    split_ifs <;> simp
  cases hd : DT_from_string tag
  · simp [converted, data_vector.size, pure, Except.pure]
  · simp [converted, data_vector.size, pure, Except.pure]
  · simp [converted, data_vector.size, pure, Except.pure]
  · exact absurd hd h
  · exact absurd hd hC

theorem zipWith_converted_get {real : Type} [RealText real] (tags : List Str)
    (rows : List (List Str)) (j : Nat) (hj : j < tags.length) :
    (List.zipWith converted (tags.map DT_from_string)
      (column_tokens tags.length rows) : List (data_vector real)).get? j =
      some (converted (DT_from_string (tags.getD j []))
        (rows.map (fun r => r.getD j []))) := by
  rw [List.get?_eq_getElem?, List.getElem?_eq_getElem (by simp [column_tokens, hj])]
  simp [column_tokens, List.getD_eq_getElem?_getD, List.getElem?_eq_getElem hj]

/-- Reading a text made of property lines with at least four tokens each, a header line
with pairwise distinct names, a type line with as many tags, none `%b`, and data rows with
one token per column, every line ended by a newline: the table has one column per name,
of the kind of its tag, holding the conversions of the tokens at its position, and the row
count is the number of data rows. -/
theorem read_well_formed {real : Type} [RealText real] (plines : List Str)
    (hline tline : Str) (rlines : List Str) (w0 w1 : Str) (names tags : List Str)
    (hp : ∀ l ∈ plines, '\n' ∉ l ∧ line_front l = '@' ∧ 4 ≤ (words l).length)
    (hh : '\n' ∉ hline ∧ line_front hline = '*' ∧ words hline = w0 :: names)
    (ht : '\n' ∉ tline ∧ line_front tline = '$' ∧ words tline = w1 :: tags)
    (hN : tags.length = names.length) (hN1 : names ≠ []) (hnd : names.Nodup)
    (hb : ∀ t ∈ tags, DT_from_string t ≠ DataType.B)
    (hr : ∀ l ∈ rlines, '\n' ∉ l ∧ (words l).length = names.length) :
    ∃ table : dataframe real,
      dataframe.read (unlines (plines ++ hline :: tline :: rlines)) [] = Except.ok table ∧
      table.columns.length = names.length ∧ table.size = Except.ok rlines.length ∧
      ∀ j (hj : j < names.length), ∃ col,
        table.get_column (names.get ⟨j, hj⟩) = Except.ok (col, table) ∧
        table.get_column_at j = Except.ok col ∧
        col = converted (DT_from_string (tags.getD j []))
          (rlines.map (fun l => (words l).getD j [])) ∧
        col.type = DT_from_string (tags.getD j []) ∧
        col.size = Except.ok rlines.length := by
  obtain ⟨dfP, hP⟩ := read_properties_ok plines (dataframe.empty real)
    (fun l hl => (hp l hl).2.2)
  have hread := read_lines plines hline tline rlines w0 w1 names tags dfP
    (fun l hl => ⟨(hp l hl).1, (hp l hl).2.1⟩) hP hh ht hN hnd hr (Or.inl hN1)
  obtain ⟨hlen, hfind, _⟩ := insert_headers_spec names [] 0 hnd (fun _ _ => rfl)
  simp only [List.length_nil, Nat.zero_add] at hlen hfind
  have hget : ∀ j, j < names.length →
      (List.zipWith converted (tags.map DT_from_string)
        (column_tokens tags.length (rlines.map words)) : List (data_vector real)).get? j =
        some (converted (DT_from_string (tags.getD j []))
          (rlines.map (fun l => (words l).getD j []))) := by
    intro j hj
    rw [zipWith_converted_get tags _ j (by omega), List.map_map]
    rfl
  have hsz : ∀ j, j < names.length →
      (converted (DT_from_string (tags.getD j []))
        (rlines.map (fun l => (words l).getD j [])) : data_vector real).size =
        Except.ok rlines.length := by
    intro j hj
    have hjt : j < tags.length := by omega
    have hmem : tags.getD j [] ∈ tags := by
      rw [List.getD_eq_getElem?_getD, List.getElem?_eq_getElem hjt, Option.getD_some]
      exact List.getElem_mem _
    rw [converted_size _ _ (hb _ hmem), List.length_map]
  refine ⟨_, hread hb, by simp [column_tokens, hN], ?_, ?_⟩
  · cases hhd : insert_headers [] names 0 with
    | nil =>
      rw [hhd] at hlen
      exact absurd (List.length_eq_zero.mp hlen.symm) hN1
    | cons kv rest =>
      have hkv : kv ∈ insert_headers [] names 0 := by
        rw [hhd]
        exact List.mem_cons_self _ _
      have hi : kv.2 < names.length := by
        rcases mem_insert_headers names [] 0 kv hkv with h | h
        · simp at h
        · have h2 := h.2
          rw [Nat.zero_add] at h2
          exact h2
      have hne : (List.zipWith converted (tags.map DT_from_string)
          (column_tokens tags.length (rlines.map words)) : List (data_vector real)).length
          ≠ 0 := by
        have hl : (List.zipWith converted (tags.map DT_from_string)
            (column_tokens tags.length (rlines.map words)) : List (data_vector real)).length
            = names.length := by
          simp [column_tokens, hN]
        rw [hl]
        exact (List.length_pos.mpr hN1).ne'
      simp only [dataframe.size, hne, if_false, hhd, vec_at, hget kv.2 hi, bind,
        Except.bind, pure, Except.pure, hsz kv.2 hi]
  · intro j hj
    refine ⟨_, ?_, ?_, rfl, converted_type _ _, hsz j hj⟩
    · exact get_column_found _ _ j _ (hfind j hj) (hget j hj)
    · simp only [dataframe.get_column_at, vec_at, hget j hj]
      rfl

/-- C5 (defect found): in the text `* a`, `$ %d` whose type line is the last line and is
not ended by a newline (no data row, `R = 0`), the first loop of the constructor ends with
the type line still in `line`, and `read_line` takes it for a data row: its two tokens are
converted into the columns at positions 0 and 1, and position 1 is out of range. The same
text ended by a newline is read as one `int` column `a` with no element. -/
theorem type_line_read_again :
    (do
      let r ← header_loop 9 ⟨"* a\n$ %d".toList, true⟩ [] (dataframe.empty whole)
      pure (r.2.1, r.2.2.columns)) =
      Except.ok ("$ %d".toList, [⟨udata_vec.int_vector [], DataType.D, []⟩]) ∧
    read_line_loop [(⟨udata_vec.int_vector [], DataType.D, []⟩ : data_vector whole)]
      ["$".toList] 0 = Except.ok [⟨udata_vec.int_vector [0], DataType.D, []⟩] ∧
    (dataframe.read "* a\n$ %d".toList [] : Except Error (dataframe whole)) =
      Except.error Error.undefined_behaviour ∧
    (dataframe.read "* a\n$ %d\n".toList [] : Except Error (dataframe whole)) =
      Except.ok ⟨[⟨udata_vec.int_vector [], DataType.D, []⟩], [("a".toList, 0)], [], [],
        true⟩ := by
  decide

/-! ## Scalar values and type tags -/

/-- C13: a `data_value` built from an int has kind `D`, from a float kind `LE`, from a bool
kind `B`, from a string kind `S`; `get_int`, `get_double`, `get_string` return the value on
the value of their kind and throw on the three others; `get_complex` returns the float with
imaginary part 0 on the value built from a float and throws on the three others, none of
which has kind `C`. -/
theorem scalar_accessors {real : Type} [RealText real] (i : Int) (d : real) (b : Bool)
    (s : Str) :
    ((data_value.from_int real i).type = DataType.D ∧
      (data_value.from_double d).type = DataType.LE ∧
      (data_value.from_bool real b).type = DataType.B ∧
      (data_value.from_string real s).type = DataType.S) ∧
    ((data_value.from_int real i).get_int = Except.ok i ∧
      (data_value.from_double d).get_int = Except.error (Error.runtime_error "not an int") ∧
      (data_value.from_bool real b).get_int = Except.error (Error.runtime_error "not an int") ∧
      (data_value.from_string real s).get_int =
        Except.error (Error.runtime_error "not an int")) ∧
    ((data_value.from_double d).get_double = Except.ok d ∧
      (data_value.from_int real i).get_double =
        Except.error (Error.runtime_error "not a double") ∧
      (data_value.from_bool real b).get_double =
        Except.error (Error.runtime_error "not a double") ∧
      (data_value.from_string real s).get_double =
        Except.error (Error.runtime_error "not a double")) ∧
    ((data_value.from_string real s).get_string = Except.ok s ∧
      (data_value.from_int real i).get_string =
        Except.error (Error.runtime_error "not a string") ∧
      (data_value.from_double d).get_string =
        Except.error (Error.runtime_error "not a string") ∧
      (data_value.from_bool real b).get_string =
        Except.error (Error.runtime_error "not a string")) ∧
    ((data_value.from_double d).get_complex = Except.ok (d, RealText.zero) ∧
      (data_value.from_int real i).get_complex =
        Except.error (Error.runtime_error "not a complex") ∧
      (data_value.from_bool real b).get_complex =
        Except.error (Error.runtime_error "not a complex") ∧
      (data_value.from_string real s).get_complex =
        Except.error (Error.runtime_error "not a complex")) :=
  ⟨⟨rfl, rfl, rfl, rfl⟩, ⟨rfl, rfl, rfl, rfl⟩, ⟨rfl, rfl, rfl, rfl⟩, ⟨rfl, rfl, rfl, rfl⟩,
    ⟨rfl, rfl, rfl, rfl⟩⟩

/-- C16: `DT_from_string` maps `%d` to `D`, `%le` to `LE`, `%b` to `B` and every other
string to `S`; `string_fromDT` returns `%d` for `D`, `%le` for `LE` and `%s` for `S`, `B`
and `C`; so a kind `D`, `LE` or `S` is read back from its tag, while `B` is written as `%s`
and read back as `S`. -/
theorem type_tags (token : Str) (k : DataType) :
    DT_from_string "%d".toList = DataType.D ∧
    DT_from_string "%le".toList = DataType.LE ∧
    DT_from_string "%b".toList = DataType.B ∧
    DT_from_string "%s".toList = DataType.S ∧
    (token = "%d".toList ∨ token = "%le".toList ∨ token = "%b".toList ∨
      DT_from_string token = DataType.S) ∧
    string_fromDT DataType.D = "%d".toList ∧
    string_fromDT DataType.LE = "%le".toList ∧
    string_fromDT k = (if k = DataType.D then "%d".toList
      else if k = DataType.LE then "%le".toList else "%s".toList) ∧
    DT_from_string (string_fromDT k) =
      (if k = DataType.D ∨ k = DataType.LE ∨ k = DataType.S then k else DataType.S) ∧
    string_fromDT DataType.B = "%s".toList ∧
    DT_from_string (string_fromDT DataType.B) = DataType.S := by
  refine ⟨by decide, by decide, by decide, by decide, ?_, rfl, rfl, ?_, ?_, rfl, by decide⟩
  · unfold DT_from_string
    by_cases h1 : token = "%d".toList
    · exact Or.inl h1
    · by_cases h2 : token = "%le".toList
      · exact Or.inr (Or.inl h2)
      · by_cases h3 : token = "%b".toList
        · exact Or.inr (Or.inr (Or.inl h3))
        · right
          right
          right
          rw [if_neg h1, if_neg h2, if_neg h3]
  · cases k <;> rfl
  · cases k <;> decide

/-! ## Lenient conversion of integers -/

theorem isdigit_digit_char (c : Char) (h : isdigit c = true) :
    ∃ d, d < 10 ∧ c = digit_char d := by
  simp only [isdigit, Bool.and_eq_true, decide_eq_true_eq] at h
  refine ⟨c.toNat - 48, by omega, ?_⟩
  have hd : c.toNat - 48 < 10 := by omega
  obtain ⟨h1, h2, _⟩ := digit_char_facts (c.toNat - 48) hd
  simp only [isdigit, Bool.and_eq_true, decide_eq_true_eq] at h1
  exact char_eq_of_toNat (by omega)

theorem strtol_digits_run : ∀ (ds suffix : Str) (a : Nat), (∀ c ∈ ds, isdigit c = true) →
    (suffix.head?.map isdigit).getD false = false →
    strtol_digits (ds ++ suffix) a = ds.foldl (fun acc c => acc * 10 + (c.toNat - 48)) a
  | [], [], a, _, _ => rfl
  | [], c :: t, a, _, h => by
    have hc : isdigit c = false := by simpa using h
    simp [strtol_digits, hc]
  | d :: ds, suffix, a, hd, h => by
    have h1 : isdigit d = true := hd d (List.mem_cons_self _ _)
    simp only [List.cons_append, strtol_digits, h1, if_true, List.foldl_cons]
    exact strtol_digits_run ds suffix _ (fun c hc => hd c (List.mem_cons_of_mem _ hc)) h

theorem strtol_no_digits (s : Str) (h : (s.head?.map isdigit).getD false = false) :
    strtol_digits s 0 = 0 := by
  have := strtol_digits_run [] s 0 (fun _ hc => absurd hc (List.not_mem_nil _)) h
  simpa using this

theorem dropWhile_isspace (ws rest : Str) (hws : ∀ c ∈ ws, isspace c = true)
    (hrest : (rest.head?.map isspace).getD false = false) :
    (ws ++ rest).dropWhile isspace = rest := by
  rw [List.dropWhile_append_of_pos hws]
  cases rest with
  | nil => rfl
  | cons c t =>
    have hc : isspace c = false := by simpa using hrest
    simp [List.dropWhile, hc]

/-- C12 (as stated, refuted): the token made of a tab and `12` does not start with a digit
or a sign, so it has no numeric prefix, yet `convert_back` appends 12, not 0: `strtol` skips
leading white space. -/
theorem lenient_int_counterexample :
    numeric_start "\t12".toList = false ∧
    (⟨udata_vec.int_vector [], DataType.D, []⟩ : data_vector whole).convert_back
      "\t12".toList = Except.ok ⟨udata_vec.int_vector [12], DataType.D, []⟩ := by
  decide

/-- C12 (amended): on an `int` column `convert_back` never fails and appends exactly one
element, `(int) strtol(token)`. If the token is made of white space (possibly none), an
optional sign, a non-empty run of decimal digits whose signed value fits an `int`, and a
suffix that does not start with a digit, the element is that value (`12abc` gives 12). If
what follows the leading white space of the token does not start with a digit or with a
sign followed by a digit, the element is 0. -/
theorem lenient_int {real : Type} [RealText real] (xs : List Int) (name token : Str) :
    (⟨udata_vec.int_vector xs, DataType.D, name⟩ : data_vector real).convert_back token =
      Except.ok ⟨udata_vec.int_vector (xs ++ [int_of_long (strtol token)]), DataType.D,
        name⟩ ∧
    (∀ ws sign ds suffix, token = ws ++ (sign ++ (ds ++ suffix)) →
      (∀ c ∈ ws, isspace c = true) → (sign = [] ∨ sign = ['+'] ∨ sign = ['-']) →
      ds ≠ [] → (∀ c ∈ ds, isdigit c = true) →
      (suffix.head?.map isdigit).getD false = false →
      int_range (if sign = ['-'] then -(decimal ds : Int) else (decimal ds : Int)) →
      int_of_long (strtol token) =
        (if sign = ['-'] then -(decimal ds : Int) else (decimal ds : Int))) ∧
    (numeric_start (token.dropWhile isspace) = false → int_of_long (strtol token) = 0) := by
  refine ⟨rfl, ?_, ?_⟩
  · intro ws sign ds suffix htok hws hsign hne hds hsuf hrange
    cases ds with
    | nil => exact absurd rfl hne
    | cons d ds' =>
      obtain ⟨e, he, hde⟩ := isdigit_digit_char d (hds d (List.mem_cons_self _ _))
      obtain ⟨_, _, _, _, hminus, hplus, hspace⟩ := digit_char_facts e he
      rw [← hde] at hminus hplus hspace
      have hval := strtol_digits_run (d :: ds') suffix 0 hds hsuf
      have hdec : (d :: ds').foldl (fun acc c => acc * 10 + (c.toNat - 48)) 0 =
          decimal (d :: ds') := rfl
      rw [hdec] at hval
      rcases hsign with hs | hs | hs
      · subst hs
        have hdrop : token.dropWhile isspace = d :: (ds' ++ suffix) := by
          rw [htok]
          exact dropWhile_isspace ws _ hws (by simp [hspace])
        have hx : ¬ (([] : Str) = ['-']) := by simp
        simp only [hx, if_false] at hrange ⊢
        simp only [List.nil_append, List.cons_append] at hval
        simp only [strtol, hdrop, hminus, hplus, if_false, hval, LONG_MAX]
        obtain ⟨h1, h2⟩ := hrange
        rw [min_eq_left (by omega)]
        exact int_of_long_id _ ⟨h1, h2⟩
      · subst hs
        have hdrop : token.dropWhile isspace = '+' :: (d :: ds' ++ suffix) := by
          rw [htok]
          exact dropWhile_isspace ws _ hws rfl
        have hx : ¬ (['+'] = ['-']) := by decide
        have hy : ¬ ('+' = '-') := by decide
        simp only [hx, if_false] at hrange ⊢
        simp only [strtol, hdrop, hy, if_false, if_true, hval, LONG_MAX]
        obtain ⟨h1, h2⟩ := hrange
        rw [min_eq_left (by omega)]
        exact int_of_long_id _ ⟨h1, h2⟩
      · subst hs
        have hdrop : token.dropWhile isspace = '-' :: (d :: ds' ++ suffix) := by
          rw [htok]
          exact dropWhile_isspace ws _ hws rfl
        simp only [if_true] at hrange ⊢
        simp only [strtol, hdrop, if_true, hval, LONG_MIN]
        obtain ⟨h1, h2⟩ := hrange
        rw [max_eq_left (by omega)]
        exact int_of_long_id _ ⟨h1, h2⟩
  · intro h
    have h0 : int_of_long 0 = 0 := by decide
    cases hd : token.dropWhile isspace with
    | nil => simp only [strtol, hd, h0]
    | cons c t =>
      rw [hd] at h
      simp only [numeric_start, Bool.or_eq_false_iff, Bool.and_eq_false_iff] at h
      obtain ⟨hc, ht⟩ := h
      by_cases hm : c = '-'
      · have ht' : (t.head?.map isdigit).getD false = false := by
          rcases ht with ht | ht
          · simp [hm] at ht
          · exact ht
        simp only [strtol, hd, hm, if_true, strtol_no_digits t ht', LONG_MIN]
        decide
      · by_cases hp : c = '+'
        · have ht' : (t.head?.map isdigit).getD false = false := by
            rcases ht with ht | ht
            · simp [hp] at ht
            · exact ht
          have hy : ¬ ('+' = '-') := by decide
          simp only [strtol, hd, hp, hy, if_false, if_true, strtol_no_digits t ht', LONG_MAX]
          decide
        · have hct : strtol_digits (c :: t) 0 = 0 := by simp [strtol_digits, hc]
          simp only [strtol, hd, hm, hp, if_false, hct, LONG_MAX]
          decide

theorem lenient_int_witness :
    (⟨udata_vec.int_vector [7], DataType.D, []⟩ : data_vector whole).convert_back
      "12abc".toList = Except.ok ⟨udata_vec.int_vector ([7] ++ [int_of_long
        (strtol "12abc".toList)]), DataType.D, []⟩ ∧
    int_of_long (strtol "12abc".toList) = 12 ∧
    int_of_long (strtol "abc".toList) = 0 :=
  ⟨(lenient_int [7] [] "12abc".toList).1,
    (@lenient_int whole _ [] [] "12abc".toList).2.1 [] [] "12".toList "abc".toList rfl
      (by decide) (Or.inl rfl) (by decide) (by decide) (by decide) (by decide),
    (@lenient_int whole _ [] [] "abc".toList).2.2 (by decide)⟩

/-! ## Data rows shorter or longer than the table -/

theorem convert_back_appended {real : Type} [RealText real] (c : data_vector real) (t : Str)
    (h : readable c) : c.convert_back t = Except.ok (appended c t) := by
  obtain ⟨payload, type, name⟩ := c
  obtain ⟨h1, h2, h3⟩ := h
  cases type <;> cases payload <;>
    simp_all [data_vector.consistent, data_vector.convert_back, appended,
      data_vector.push_back_int, data_vector.push_back_double,
      data_vector.push_back_string, data_vector.as_int_vector_mut,
      data_vector.as_real_vector_mut, data_vector.as_string_vector_mut,
      data_vector.as_int_vector, data_vector.as_real_vector, data_vector.as_string_vector,
      pure, Except.pure, bind, Except.bind]

theorem appended_size {real : Type} [RealText real] (c : data_vector real) (t : Str)
    (h : readable c) :
    ∃ n, c.size = Except.ok n ∧ (appended c t).size = Except.ok (n + 1) ∧
      (appended c t).type = c.type ∧ (appended c t).name = c.name := by
  obtain ⟨payload, type, name⟩ := c
  obtain ⟨h1, h2, h3⟩ := h
  cases type <;> cases payload <;>
    simp_all [data_vector.consistent, appended, data_vector.size, pure, Except.pure]

theorem read_line_loop_short {real : Type} [RealText real] :
    ∀ (ts : List Str) (cols pre : List (data_vector real)),
      ts.length ≤ cols.length → (∀ c ∈ cols, readable c) →
      read_line_loop (pre ++ cols) ts pre.length =
        Except.ok (pre ++ (List.zipWith appended (cols.take ts.length) ts ++
          cols.drop ts.length))
  | [], cols, pre, _, _ => by simp [read_line_loop, pure, Except.pure]
  | t :: ts, [], pre, h, _ => by simp at h
  | t :: ts, c :: cols, pre, h, hall => by
    have hc := hall c (List.mem_cons_self _ _)
    simp only [read_line_loop, vec_at_append_cons, convert_back_appended c t hc, bind,
      Except.bind, set_append_cons]
    have ih := read_line_loop_short ts cols (pre ++ [appended c t])
      (by simpa using h) (fun x hx => hall x (List.mem_cons_of_mem _ hx))
    simp only [List.length_append, List.length_singleton, List.append_assoc,
      List.singleton_append] at ih
    rw [ih]
    simp

theorem read_line_loop_long {real : Type} [RealText real] :
    ∀ (ts : List Str) (cols pre : List (data_vector real)),
      cols.length < ts.length → (∀ c ∈ cols, readable c) →
      read_line_loop (pre ++ cols) ts pre.length =
        Except.error Error.undefined_behaviour
  | [], cols, pre, h, _ => by simp at h
  | t :: ts, [], pre, _, _ => by
    simp [read_line_loop, vec_at, throw, throwThe, MonadExceptOf.throw, bind, Except.bind]
  | t :: ts, c :: cols, pre, h, hall => by
    have hc := hall c (List.mem_cons_self _ _)
    simp only [read_line_loop, vec_at_append_cons, convert_back_appended c t hc, bind,
      Except.bind, set_append_cons]
    have ih := read_line_loop_long ts cols (pre ++ [appended c t])
      (by simpa using h) (fun x hx => hall x (List.mem_cons_of_mem _ hx))
    simp only [List.length_append, List.length_singleton, List.append_assoc,
      List.singleton_append] at ih
    exact ih

/-- C14: for a table whose columns are of kinds `D`, `LE` or `S` and a line with `k` tokens,
`k` at most the number of columns, `read_line` raises no error; each of the first `k`
columns gets exactly one more element, the conversion of the token at its position, its
kind and name staying as they were; the other columns and the rest of the table are
unchanged. -/
theorem short_row {real : Type} [RealText real] (df : dataframe real) (line : Str)
    (tokens : List Str) (htok : tokenize line [] [' '] false = Except.ok tokens)
    (hcols : ∀ c ∈ df.columns, readable c) (hk : tokens.length ≤ df.columns.length) :
    df.read_line line = Except.ok { df with
      columns := List.zipWith appended (df.columns.take tokens.length) tokens ++
        df.columns.drop tokens.length } ∧
    ∀ c ∈ df.columns, ∀ t, c.convert_back t = Except.ok (appended c t) ∧
      ∃ n, c.size = Except.ok n ∧ (appended c t).size = Except.ok (n + 1) ∧
        (appended c t).type = c.type ∧ (appended c t).name = c.name := by
  constructor
  · have h := read_line_loop_short tokens df.columns [] hk hcols
    simp only [List.nil_append, List.length_nil] at h
    simp only [dataframe.read_line, htok, bind, Except.bind, h]
    rfl
  · intro c hc t
    exact ⟨convert_back_appended c t (hcols c hc), appended_size c t (hcols c hc)⟩

theorem short_row_witness :
    two_columns.read_line " 7".toList = Except.ok { two_columns with
      columns := List.zipWith appended (two_columns.columns.take ["7".toList].length)
        ["7".toList] ++ two_columns.columns.drop ["7".toList].length } ∧
    ∀ c ∈ two_columns.columns, ∀ t, c.convert_back t = Except.ok (appended c t) ∧
      ∃ n, c.size = Except.ok n ∧ (appended c t).size = Except.ok (n + 1) ∧
        (appended c t).type = c.type ∧ (appended c t).name = c.name :=
  short_row two_columns " 7".toList ["7".toList] (by decide) (by decide) (by decide)

/-- A line with more tokens than the table has columns makes `read_line` index past the
last column, whatever the tokens are. -/
theorem read_line_long {real : Type} [RealText real] (df : dataframe real) (line : Str)
    (tokens : List Str) (htok : tokenize line [] [' '] false = Except.ok tokens)
    (hcols : ∀ c ∈ df.columns, readable c) (hk : df.columns.length < tokens.length) :
    df.read_line line = Except.error Error.undefined_behaviour := by
  have h := read_line_loop_long tokens df.columns [] hk hcols
  simp only [List.nil_append, List.length_nil] at h
  simp only [dataframe.read_line, htok, bind, Except.bind, h]

/-- C15 (defect found): on a table of two `int` columns the row `7 8 9` has one token more
than there are columns; `read_line` converts the third token into `columns[2]`, which is
out of range: the extra token is not ignored. The same happens when the row stands in a
file. A row of two tokens is read. -/
theorem long_row_out_of_range :
    two_columns.read_line " 7 8 9".toList = Except.error Error.undefined_behaviour ∧
    (dataframe.read "* a b\n$ %d %d\n 1 2\n 7 8 9\n".toList [] :
      Except Error (dataframe whole)) = Except.error Error.undefined_behaviour ∧
    (dataframe.read "* a b\n$ %d %d\n 1 2\n".toList [] : Except Error (dataframe whole)) =
      Except.ok two_columns ∧
    two_columns.read_line " 7 8".toList = Except.ok { two_columns with
      columns := [⟨udata_vec.int_vector [1, 7], DataType.D, []⟩,
        ⟨udata_vec.int_vector [2, 8], DataType.D, []⟩] } := by
  decide

/-! ## Property lines, header names and the index: the first entry for a key stays -/

/-- What `read_property` stores for a line of at least four tokens `@ key tag v1 .. vm`:
under `key`, unless the key is present already, the `int` read from `v1` for the tag `%d`,
the float read from `v1` for the tag `%le`, and for every other tag the string made of each
of `v1 .. vm` followed by one space; nothing else changes. -/
theorem read_property_spec {real : Type} [RealText real] (df : dataframe real) (line : Str)
    (w0 key tag v1 : Str) (vs : List Str)
    (htok : tokenize line [] [' '] false = Except.ok (w0 :: key :: tag :: v1 :: vs)) :
    df.read_property line = Except.ok { df with
      properties := map_insert df.properties key
        (if tag = "%d".toList then data_value.from_int real (int_of_long (strtol v1))
          else if tag = "%le".toList then data_value.from_double (RealText.strtod v1)
          else data_value.from_string real (copy_tokens (v1 :: vs))) } := by
  simp only [dataframe.read_property, htok, bind, Except.bind, vec_at, List.get?, pure,
    Except.pure, List.drop]
  unfold DT_from_string
  by_cases h1 : tag = "%d".toList
  · simp only [if_pos h1]
  · by_cases h2 : tag = "%le".toList
    · simp only [if_neg h1, if_pos h2]
    · by_cases h3 : tag = "%b".toList
      · simp only [if_neg h1, if_neg h2, if_pos h3]
      · simp only [if_neg h1, if_neg h2, if_neg h3]

/-- C18 (defect found): the line `@ Comment %s hello world`, read into a table without
properties, stores under `Comment` the string `hello world ` with a space after the last
word: `read_property` writes a space after every token of the value, also after the last.
The tags `%d` and `%le` store the `int` and the float read from the first value token. -/
theorem string_property_trailing_space :
    (dataframe.empty whole).read_property "@ Comment %s hello world".toList =
      Except.ok { dataframe.empty whole with
        properties := [("Comment".toList,
          data_value.from_string whole "hello world ".toList)] } ∧
    copy_tokens ["hello".toList, "world".toList] = "hello world ".toList ∧
    (dataframe.empty whole).read_property "@ N %d 12".toList =
      Except.ok { dataframe.empty whole with
        properties := [("N".toList, data_value.from_int whole 12)] } ∧
    (dataframe.empty whole).read_property "@ Q1 %le 62".toList =
      Except.ok { dataframe.empty whole with
        properties := [("Q1".toList, data_value.from_double (⟨62⟩ : whole))] } := by
  decide

theorem map_insert_sorted {V : Type} (m : std_map V) (k : Str) (v : V) (h : map_sorted m) :
    map_sorted (map_insert m k v) := by
  induction m with
  | nil => simp [map_insert, map_sorted]
  | cons e rest ih =>
    obtain ⟨k', v'⟩ := e
    have hs := List.pairwise_cons.mp h
    simp only [map_insert]
    by_cases h1 : str_lt k k' = true
    · simp only [h1, if_true]
      refine List.pairwise_cons.mpr ⟨?_, h⟩
      intro x hx
      rcases List.mem_cons.mp hx with hx | hx
      · rw [hx]
        exact h1
      · exact str_lt_trans _ _ _ h1 (hs.1 x hx)
    · by_cases h2 : str_lt k' k = true
      · simp only [h1, h2, if_true, if_false]
        refine List.pairwise_cons.mpr ⟨?_, ih hs.2⟩
        intro x hx
        rcases mem_map_insert rest k v x hx with hx | hx
        · rw [hx]
          exact h2
        · exact hs.1 x hx
      · simp only [h1, h2, if_false]
        exact h

/-- After the loop of `read_column_headers` a name that was registered before keeps its
entry, and a new name is registered at the position of its first occurrence. -/
theorem insert_headers_first : ∀ (names : List Str) (m : std_map Nat) (i : Nat) (name : Str),
    map_sorted m →
    (∀ v, map_find m name = some v → map_find (insert_headers m names i) name = some v) ∧
    (map_find m name = none → map_find (insert_headers m names i) name =
      if name ∈ names then some (i + first_index names name) else none)
  | [], m, i, name, _ => by
    refine ⟨fun v h => h, fun h => ?_⟩
    simpa [insert_headers] using h
  | t :: ts, m, i, name, hs => by
    obtain ⟨ih1, ih2⟩ := insert_headers_first ts (map_insert m t i) (i + 1) name
      (map_insert_sorted m t i hs)
    by_cases e : name = t
    · subst e
      refine ⟨fun v h => ?_, fun h => ?_⟩
      · have := map_insert_present m name i v hs h
        simp only [insert_headers]
        exact ih1 v (by rw [this]; exact h)
      · simp only [insert_headers, List.mem_cons, true_or, if_true, first_index,
          Nat.add_zero]
        exact ih1 i (map_find_insert_self m name i h)
    · have ho := map_find_insert_other m t name i e
      refine ⟨fun v h => ?_, fun h => ?_⟩
      · simp only [insert_headers]
        exact ih1 v (by rw [ho]; exact h)
      · simp only [insert_headers]
        rw [ih2 (by rw [ho]; exact h)]
        have hidx : first_index (t :: ts) name = first_index ts name + 1 := by
          simp only [first_index, Ne.symm e, if_false]
        simp only [List.mem_cons, e, false_or, hidx]
        by_cases hm : name ∈ ts
        · simp only [hm, if_true]
          congr 1
          omega
        · simp only [hm, if_false]

/-- C20 (as stated, refuted): the header line `* a a` names `a` at the positions 0 and 1;
`read_column_headers` registers `a` at position 0 only, so the second name is not
registered at its position 1. -/
theorem header_names_counterexample :
    tokenize "* a a".toList [] [' '] false =
      Except.ok ["*".toList, "a".toList, "a".toList] ∧
    (dataframe.empty whole).read_column_headers "* a a".toList =
      Except.ok { dataframe.empty whole with column_headers := [("a".toList, 0)] } := by
  decide

/-- C20 (amended): for a line `* n1 .. nk` read by `read_column_headers` into a table
whose `column_headers` is empty, every name is registered at the 0-based position of its
first occurrence among the names (so pairwise distinct names are registered at their own
positions), `column_headers` has no other entry, and nothing else in the table changes. -/
theorem header_names_first_position {real : Type} (df : dataframe real) (line w0 : Str)
    (names : List Str) (htok : tokenize line [] [' '] false = Except.ok (w0 :: names))
    (hempty : df.column_headers = []) :
    ∃ headers, df.read_column_headers line =
        Except.ok { df with column_headers := headers } ∧
      (∀ name, map_find headers name =
        if name ∈ names then some (first_index names name) else none) ∧
      (names.Nodup → ∀ j (hj : j < names.length),
        map_find headers (names.get ⟨j, hj⟩) = some j) := by
  refine ⟨insert_headers [] names 0, ?_, ?_, ?_⟩
  · simp only [dataframe.read_column_headers, htok, bind, Except.bind, hempty]
    rfl
  · intro name
    have h := (insert_headers_first names [] 0 name List.Pairwise.nil).2 rfl
    simpa using h
  · intro hnd j hj
    have h := (insert_headers_spec names [] 0 hnd (fun _ _ => rfl)).2.1 j hj
    simpa using h

theorem header_names_first_position_witness :
    ∃ headers, (dataframe.empty whole).read_column_headers "* b a b".toList =
        Except.ok { dataframe.empty whole with column_headers := headers } ∧
      (∀ name, map_find headers name =
        if name ∈ ["b".toList, "a".toList, "b".toList] then
          some (first_index ["b".toList, "a".toList, "b".toList] name) else none) ∧
      (["b".toList, "a".toList, "b".toList].Nodup → ∀ j
        (hj : j < ["b".toList, "a".toList, "b".toList].length),
        map_find headers (["b".toList, "a".toList, "b".toList].get ⟨j, hj⟩) = some j) :=
  header_names_first_position (dataframe.empty whole) "* b a b".toList "*".toList
    ["b".toList, "a".toList, "b".toList] (by decide) (by decide)



/-! ## The secondary index -/

theorem check_ini_idx {real : Type} (df : dataframe real) : df.check_ini.idx = df.idx := by
  unfold dataframe.check_ini
  split <;> rfl

theorem read_header_line_idx {real : Type} [RealText real] (df df' : dataframe real)
    (l : Str) (h : df.read_header_line l = Except.ok df') : df'.idx = df.idx := by
  unfold dataframe.read_header_line at h
  by_cases h1 : line_front l = '@'
  · simp only [h1, if_true, bind, Except.bind] at h
    cases hp : df.read_property l with
    | error e => simp [hp] at h
    | ok d =>
      obtain ⟨props, hprops⟩ := read_property_frame df d l hp
      simp only [hp, pure, Except.pure, Except.ok.injEq] at h
      rw [← h, check_ini_idx, hprops]
  · by_cases h2 : line_front l = '*'
    · rw [if_neg h1, if_pos h2] at h
      simp only [bind, Except.bind,
        dataframe.read_column_headers, tokenize_words, List.nil_append] at h
      cases hw : words l with
      | nil => simp [hw, throw, throwThe, MonadExceptOf.throw] at h
      | cons w ws =>
        simp only [hw, pure, Except.pure, Except.ok.injEq] at h
        rw [← h, check_ini_idx]
    · by_cases h3 : line_front l = '$'
      · rw [if_neg h1, if_neg h2, if_pos h3] at h
        simp only [bind, Except.bind] at h
        cases ht : df.read_column_types l with
        | error e => simp [ht] at h
        | ok d =>
          obtain ⟨cols, hcols⟩ := read_column_types_frame df d l ht
          simp only [ht, pure, Except.pure, Except.ok.injEq] at h
          rw [← h, check_ini_idx, hcols]
      · rw [if_neg h1, if_neg h2, if_neg h3] at h
        simp only [bind, Except.bind, pure, Except.pure, Except.ok.injEq] at h
        rw [← h, check_ini_idx]

theorem read_line_idx {real : Type} [RealText real] (df df' : dataframe real) (l : Str)
    (h : df.read_line l = Except.ok df') : df'.idx = df.idx := by
  simp only [dataframe.read_line, tokenize_words, List.nil_append, bind, Except.bind] at h
  cases hl : read_line_loop df.columns (words l) 0 with
  | error e => simp [hl] at h
  | ok cols =>
    simp only [hl, pure, Except.pure, Except.ok.injEq] at h
    rw [← h]

theorem header_loop_idx {real : Type} [RealText real] :
    ∀ (fuel : Nat) (file : ifstream) (line : Str) (df : dataframe real)
      (r : ifstream × Str × dataframe real),
      header_loop fuel file line df = Except.ok r → r.2.2.idx = df.idx
  | 0, _, _, _, _, h => by simp [header_loop, throw, throwThe, MonadExceptOf.throw] at h
  | fuel + 1, file, line, df, r, h => by
    simp only [header_loop] at h
    by_cases hc : (getline file line).1 = true ∧ df.ini_complete = false
    · simp only [hc, and_self, if_true, bind, Except.bind] at h
      cases hr : df.read_header_line (getline file line).2.2 with
      | error e => simp [hr] at h
      | ok d =>
        simp only [hr] at h
        rw [header_loop_idx fuel _ _ d r h, read_header_line_idx df d _ hr]
    · rw [if_neg hc] at h
      simp only [pure, Except.pure, Except.ok.injEq] at h
      rw [← h]

theorem row_loop_idx {real : Type} [RealText real] :
    ∀ (fuel : Nat) (file : ifstream) (line : Str) (df df' : dataframe real),
      row_loop fuel file line df = Except.ok df' → df'.idx = df.idx
  | 0, _, _, _, _, h => by simp [row_loop, throw, throwThe, MonadExceptOf.throw] at h
  | fuel + 1, file, line, df, df', h => by
    simp only [row_loop, bind, Except.bind] at h
    cases hr : df.read_line line with
    | error e => simp [hr] at h
    | ok d =>
      simp only [hr] at h
      by_cases hc : (getline file line).1 = true
      · rw [if_pos hc] at h
        rw [row_loop_idx fuel _ _ d df' h, read_line_idx df d line hr]
      · rw [if_neg hc] at h
        simp only [pure, Except.pure, Except.ok.injEq] at h
        rw [← h, read_line_idx df d line hr]

/-- The constructor with an index name does what it does without one, and then fills
`idx` from the column `get_column(index)` returns. -/
theorem read_with_index {real : Type} [RealText real] (text index : Str)
    (df : dataframe real) (h : dataframe.read text [] = Except.ok df) (hi : index ≠ []) :
    df.idx = [] ∧
    dataframe.read text index =
      (do
        let c ← df.get_column index
        match c.1.payload with
        | udata_vec.string_vector index_col =>
          pure { c.2 with idx := insert_index c.2.idx index_col 0 }
        | _ => throw Error.undefined_behaviour) := by
  simp only [dataframe.read, bind, Except.bind] at h ⊢
  cases hh : header_loop (text.length + 1) ⟨text, true⟩ [] (dataframe.empty real) with
  | error e => simp [hh] at h
  | ok r =>
    simp only [hh] at h ⊢
    cases hr : row_loop (text.length + 1) r.1 r.2.1 r.2.2 with
    | error e => simp [hr] at h
    | ok d =>
      simp only [hr, if_true, pure, Except.pure, Except.ok.injEq] at h
      subst h
      refine ⟨?_, ?_⟩
      · rw [row_loop_idx _ _ _ _ d hr, header_loop_idx _ _ _ _ r hh]
        rfl
      · simp only [hi, if_false]

theorem insert_index_eq (m : std_map Nat) (l : List Str) (i : Nat) :
    insert_index m l i = insert_headers m l i := by
  induction l generalizing m i with
  | nil => rfl
  | cons s rest ih => simp only [insert_index, insert_headers, ih]

/-- C11 (as stated, refuted): in the file the string column `n` holds `x`, `y`, `x`; read
with `n` as index, `get_index("x")` is 0, the row of the first occurrence, not 2, the row
of the last one. -/
theorem index_last_occurrence_counterexample :
    (do
      let table ← (dataframe.read "* n\n$ %s\n x\n y\n x\n".toList "n".toList :
        Except Error (dataframe whole))
      let c ← table.get_column "n".toList
      pure (c.1.as_string_vector, (table.get_index "x".toList).1)) =
      Except.ok (Except.ok ["x".toList, "y".toList, "x".toList], 0) := by
  decide

/-- C11 (amended): when the text is read with a non-empty index name and `get_column` of
that name gives a column storing the strings `col`, the constructor returns the table it
builds without index, with `idx` filled from `col`; for every value `v` occurring in `col`,
`get_index(v)` is the row number of the first occurrence of `v` (a duplicate value does not
replace the earlier row number) and leaves the table as it is. -/
theorem index_first_occurrence {real : Type} [RealText real] (text index : Str)
    (df df' : dataframe real) (c : data_vector real) (col : List Str)
    (hread : dataframe.read text [] = Except.ok df) (hindex : index ≠ [])
    (hcol : df.get_column index = Except.ok (c, df'))
    (hs : c.payload = udata_vec.string_vector col) :
    ∃ table, dataframe.read text index = Except.ok table ∧
      table.columns = df.columns ∧ table.properties = df.properties ∧
      ∀ v ∈ col, (table.get_index v).1 = first_index col v ∧
        (table.get_index v).2 = table := by
  obtain ⟨hidx, hrw⟩ := read_with_index text index df hread hindex
  have hdf' : df' = { df with column_headers := df'.column_headers } := by
    simp only [dataframe.get_column, bind, Except.bind] at hcol
    cases hv : vec_at df.columns (map_index df.column_headers index 0).1 with
    | error e => simp [hv] at hcol
    | ok c0 =>
      simp only [hv, pure, Except.pure, Except.ok.injEq, Prod.mk.injEq] at hcol
      rw [← hcol.2]
  have hidx' : df'.idx = [] := by rw [hdf']; exact hidx
  refine ⟨{ df' with idx := insert_index [] col 0 }, ?_, ?_, ?_, ?_⟩
  · rw [hrw]
    simp only [hcol, bind, Except.bind, hs, hidx']
    rfl
  · rw [hdf']
  · rw [hdf']
  · intro v hv
    have hf := (insert_headers_first col [] 0 v List.Pairwise.nil).2 rfl
    simp only [hv, if_true, Nat.zero_add] at hf
    rw [← insert_index_eq] at hf
    simp only [dataframe.get_index, map_index, hf]
    exact ⟨trivial, trivial⟩

theorem index_first_occurrence_witness :
    ∃ table : dataframe whole,
      dataframe.read "* n\n$ %s\n x\n y\n x\n".toList "n".toList = Except.ok table ∧
      table.columns = [⟨udata_vec.string_vector ["x".toList, "y".toList, "x".toList],
        DataType.S, []⟩] ∧
      table.properties = [] ∧
      ∀ v ∈ ["x".toList, "y".toList, "x".toList],
        (table.get_index v).1 = first_index ["x".toList, "y".toList, "x".toList] v ∧
        (table.get_index v).2 = table :=
  index_first_occurrence "* n\n$ %s\n x\n y\n x\n".toList "n".toList
    ⟨[⟨udata_vec.string_vector ["x".toList, "y".toList, "x".toList], DataType.S, []⟩],
      [("n".toList, 0)], [], [], true⟩
    ⟨[⟨udata_vec.string_vector ["x".toList, "y".toList, "x".toList], DataType.S, []⟩],
      [("n".toList, 0)], [], [], true⟩
    ⟨udata_vec.string_vector ["x".toList, "y".toList, "x".toList], DataType.S, []⟩
    ["x".toList, "y".toList, "x".toList] (by decide) (by decide) (by decide) rfl

/-! ## The line that completes the initialisation -/

theorem getline_next_line (rest line : Str) :
    (getline ⟨rest, true⟩ line).2.2 = rest.takeWhile (· ≠ '\n') := by
  cases rest with
  | nil => rfl
  | cons c cs =>
    simp only [getline, Bool.true_eq_false, if_false]
    split <;> rfl

set_option maxRecDepth 100000 in
/-- C17 (as stated, refuted): in the file below the initialisation completes while the
second type line `$ %d` is processed. The first loop hands the line after it, ` 1 2`, to
the row loop, and the table read has the columns `[1]` and `[2]`. Had `$ %d` been processed
as a data row, its two tokens would have put a 0 in front of each column. -/
theorem completion_line_counterexample :
    (header_loop 22 ⟨"$ %d\n* a b\n$ %d\n 1 2\n".toList, true⟩ []
      (dataframe.empty whole)) =
      Except.ok (⟨[], true⟩, " 1 2".toList,
        ⟨[⟨udata_vec.int_vector [], DataType.D, []⟩, ⟨udata_vec.int_vector [], DataType.D, []⟩],
          [("a".toList, 0), ("b".toList, 1)], [], [], true⟩) ∧
    (dataframe.read "$ %d\n* a b\n$ %d\n 1 2\n".toList [] : Except Error (dataframe whole)) =
      Except.ok ⟨[⟨udata_vec.int_vector [1], DataType.D, []⟩,
          ⟨udata_vec.int_vector [2], DataType.D, []⟩],
        [("a".toList, 0), ("b".toList, 1)], [], [], true⟩ ∧
    (do
      let df ← dataframe.read_line (⟨[⟨udata_vec.int_vector [], DataType.D, []⟩,
          ⟨udata_vec.int_vector [], DataType.D, []⟩],
        [("a".toList, 0), ("b".toList, 1)], [], [], true⟩ : dataframe whole) "$ %d".toList
      let df ← df.read_line " 1 2".toList
      pure df.columns) =
      Except.ok [⟨udata_vec.int_vector [0, 1], DataType.D, []⟩,
        ⟨udata_vec.int_vector [0, 2], DataType.D, []⟩] := by
  decide

/-- C17 (amended): when the initialisation is not complete, the next line of the file is
`L` ended by a newline, and processing `L` as a header line completes the initialisation,
then `L` is not processed as a data row: the first loop ends with the table as the header
processing of `L` left it and hands the line after `L` (the text up to the next newline,
empty at the end of the input) to the row loop; on the file in which nothing follows `L`
and its newline the two loops return that table unchanged. -/
theorem completion_line_not_reread {real : Type} [RealText real] (fuel : Nat)
    (L rest line : Str) (df df' : dataframe real) (hl : '\n' ∉ L)
    (hini : df.ini_complete = false) (hr : df.read_header_line L = Except.ok df')
    (hc : df'.ini_complete = true) :
    header_loop (fuel + 2) ⟨L ++ '\n' :: rest, true⟩ line df =
      Except.ok ((getline ⟨rest, true⟩ L).2.1, rest.takeWhile (· ≠ '\n'), df') ∧
    (do
      let r ← header_loop (fuel + 2) ⟨L ++ ['\n'], true⟩ line df
      row_loop (fuel + 1) r.1 r.2.1 r.2.2) = Except.ok df' := by
  have h1 : ∀ rest : Str, header_loop (fuel + 2) ⟨L ++ '\n' :: rest, true⟩ line df =
      Except.ok ((getline ⟨rest, true⟩ L).2.1, rest.takeWhile (· ≠ '\n'), df') := by
    intro rest
    rw [header_loop_step (fuel + 1) L rest line df df' hl hini hr]
    simp only [header_loop, hc, Bool.true_eq_false, and_false, if_false, pure, Except.pure,
      getline_next_line]
  refine ⟨h1 rest, ?_⟩
  rw [h1 []]
  simp only [bind, Except.bind, List.takeWhile_nil, row_loop, read_line_empty, getline_end,
    getline_not_good, Bool.false_eq_true, if_false, pure, Except.pure]

theorem completion_line_not_reread_witness :
    header_loop (7 + 2) ⟨"$ %d".toList ++ '\n' :: " 1\n".toList, true⟩ []
        (⟨[], [("a".toList, 0)], [], [], false⟩ : dataframe whole) =
      Except.ok ((getline ⟨" 1\n".toList, true⟩ "$ %d".toList).2.1,
        " 1\n".toList.takeWhile (· ≠ '\n'),
        ⟨[⟨udata_vec.int_vector [], DataType.D, []⟩], [("a".toList, 0)], [], [], true⟩) ∧
    (do
      let r ← header_loop (7 + 2) ⟨"$ %d".toList ++ ['\n'], true⟩ []
        (⟨[], [("a".toList, 0)], [], [], false⟩ : dataframe whole)
      row_loop (7 + 1) r.1 r.2.1 r.2.2) =
      Except.ok ⟨[⟨udata_vec.int_vector [], DataType.D, []⟩], [("a".toList, 0)], [], [],
        true⟩ :=
  completion_line_not_reread 7 "$ %d".toList " 1\n".toList []
    ⟨[], [("a".toList, 0)], [], [], false⟩
    ⟨[⟨udata_vec.int_vector [], DataType.D, []⟩], [("a".toList, 0)], [], [], true⟩
    (by decide) rfl (by decide) rfl

/-! ## The layout of the text written by `to_file` -/

theorem sized_cells {real : Type} [RealText real] (c : data_vector real) (R : Nat)
    (h : c.size = Except.ok R) : (cell_texts c).length = R := by
  obtain ⟨payload, type, name⟩ := c
  cases type <;> cases payload <;>
    simp_all [data_vector.size, cell_texts, pure, Except.pure, throw, throwThe,
      MonadExceptOf.throw]

theorem sized_print_at {real : Type} [RealText real] (c : data_vector real) (R i : Nat)
    (h : c.size = Except.ok R) (hi : i < R) :
    c.print_at i = Except.ok (setw FIELDWIDTH ((cell_texts c).getD i []) ++ [' ']) := by
  obtain ⟨payload, type, name⟩ := c
  cases type <;> cases payload <;>
    simp_all [data_vector.size, data_vector.print_at, cell_texts, pure, Except.pure, vec_at,
      bind, Except.bind, List.getD_eq_getElem?_getD, List.getElem?_eq_getElem, throw,
      throwThe, MonadExceptOf.throw]

theorem write_row_sized {real : Type} [RealText real] (columns : List (data_vector real))
    (R i : Nat) (hi : i < R) :
    ∀ (hs : std_map Nat) (cs : List (data_vector real)),
      List.Forall₂ (fun kv c => columns.get? kv.2 = some c) hs cs →
      (∀ c ∈ cs, c.size = Except.ok R) →
      write_row columns i hs = Except.ok (fields (cs.map (fun c => (cell_texts c).getD i [])))
  | _, _, List.Forall₂.nil, _ => rfl
  | _, _, List.Forall₂.cons h hrest, hall => by
    have hc := hall _ (List.mem_cons_self _ _)
    simp only [write_row, vec_at, h, sized_print_at _ R i hc hi,
      write_row_sized columns R i hi _ _ hrest (fun c hc => hall c (List.mem_cons_of_mem _ hc)),
      bind, Except.bind, pure, Except.pure, List.map_cons, fields]
    simp

theorem write_rows_sized {real : Type} [RealText real] (df : dataframe real)
    (cs : List (data_vector real)) (R : Nat)
    (hcs : List.Forall₂ (fun kv c => df.columns.get? kv.2 = some c) df.column_headers cs)
    (hall : ∀ c ∈ cs, c.size = Except.ok R) :
    ∀ (n i : Nat), i + n ≤ R →
      write_rows df n i = Except.ok (unlines ((List.range' i n).map (row_line cs)))
  | 0, _, _ => rfl
  | n + 1, i, hn => by
    have hrow := write_row_sized df.columns R i (by omega) _ _ hcs hall
    have ih := write_rows_sized df cs R hcs hall n (i + 1) (by omega)
    simp only [write_rows, hrow, ih, bind, Except.bind, pure, Except.pure, List.range'_succ,
      List.map_cons, unlines, row_line]
    simp

theorem consistent_text {real : Type} [RealText real] (v : data_value real)
    (h : v.consistent = true) : v.pretty_print = Except.ok (value_text v) := by
  obtain ⟨type, payload⟩ := v
  cases type <;> cases payload <;>
    simp_all [data_value.consistent, value_text, data_value.pretty_print, pure, Except.pure]

theorem write_properties_consistent {real : Type} [RealText real] :
    ∀ (ps : std_map (data_value real)), (∀ kv ∈ ps, kv.2.consistent = true) →
      write_properties ps = Except.ok (unlines (ps.map property_line))
  | [], _ => rfl
  | kv :: rest, hall => by
    have h1 := consistent_text kv.2 (hall kv (List.mem_cons_self _ _))
    have ih := write_properties_consistent rest
      (fun x hx => hall x (List.mem_cons_of_mem _ hx))
    simp only [write_properties, h1, ih, bind, Except.bind, pure, Except.pure, List.map_cons,
      unlines, property_line]
    simp

/-- Registered positions that are all in range pick a column each. -/
theorem registered_columns {real : Type} (columns : List (data_vector real)) :
    ∀ (hs : std_map Nat), (∀ kv ∈ hs, kv.2 < columns.length) →
      ∃ cs, List.Forall₂ (fun kv c => columns.get? kv.2 = some c) hs cs ∧
        ∀ c ∈ cs, c ∈ columns
  | [], _ => ⟨[], List.Forall₂.nil, by simp⟩
  | kv :: rest, h => by
    obtain ⟨cs, hcs, hmem⟩ := registered_columns columns rest
      (fun x hx => h x (List.mem_cons_of_mem _ hx))
    have hlt := h kv (List.mem_cons_self _ _)
    refine ⟨columns.get ⟨kv.2, hlt⟩ :: cs, List.Forall₂.cons ?_ hcs, ?_⟩
    · exact List.get?_eq_get hlt
    · intro c hc
      rcases List.mem_cons.mp hc with rfl | hc
      · exact List.get_mem _ _ _
      · exact hmem c hc

/-- C19: a table whose `column_headers` (keys ascending, as in every `std::map`) maps the
names one-to-one onto the positions of `columns`, whose columns all have size `R` (`R = 0`
for a table without columns) and whose properties (keys ascending) are as the constructors
of `data_value` leave them: `to_file` writes the property lines `@ key tag value` in the
order of the ascending keys, then the `* ` line of the names in ascending order, then the
`$ ` line with the tag of the column registered under each name, in that order, then the
`R` lines of the rows `0 .. R - 1`, each beginning with two spaces and holding element `i`
of each registered column, in that order; each field is right-justified in 15 characters
and followed by a space, and every line is ended by a newline. -/
theorem to_file_layout {real : Type} [RealText real] (df : dataframe real) (R : Nat)
    (hheaders : map_sorted df.column_headers) (hproperties : map_sorted df.properties)
    (hbij : (df.column_headers.map Prod.snd).Perm (List.range df.columns.length))
    (hlen : ∀ c ∈ df.columns, c.size = Except.ok R)
    (hR : df.columns = [] → R = 0)
    (hvalues : ∀ kv ∈ df.properties, kv.2.consistent = true) :
    ∃ cs : List (data_vector real),
      List.Forall₂ (fun kv c => df.columns.get? kv.2 = some c) df.column_headers cs ∧
      (∀ c ∈ cs, (cell_texts c).length = R) ∧
      df.to_file = Except.ok (unlines (df.properties.map property_line ++
        header_line (df.column_headers.map Prod.fst) :: type_line cs ::
          (List.range R).map (row_line cs))) ∧
      (df.properties.map Prod.fst).Pairwise (fun a b => str_lt a b = true) ∧
      (df.column_headers.map Prod.fst).Pairwise (fun a b => str_lt a b = true) := by
  have hrange : ∀ kv ∈ df.column_headers, kv.2 < df.columns.length := by
    intro kv hkv
    have : kv.2 ∈ df.column_headers.map Prod.snd := List.mem_map_of_mem _ hkv
    exact List.mem_range.mp (hbij.mem_iff.mp this)
  have hcount : df.column_headers.length = df.columns.length := by
    have := hbij.length_eq
    simpa using this
  obtain ⟨cs, hcs, hmem⟩ := registered_columns df.columns df.column_headers hrange
  have hsized : ∀ c ∈ cs, c.size = Except.ok R := fun c hc => hlen c (hmem c hc)
  have hsize : df.size = Except.ok R := by
    cases hh : df.column_headers with
    | nil =>
      have h0 : df.columns = [] := by
        rw [hh] at hcount
        exact List.length_eq_zero.mp hcount.symm
      simp [dataframe.size, h0, hR h0, pure, Except.pure]
    | cons kv rest =>
      rw [hh] at hcs
      cases hcs with
      | cons h hrest =>
        rename_i c cs'
        have hc := hsized c (List.mem_cons_self _ _)
        have hne : df.columns.length ≠ 0 := by
          rw [← hcount, hh]
          simp
        simp only [dataframe.size, hne, if_false, hh, vec_at, h, bind, Except.bind, pure,
          Except.pure, hc]
  have hrows := write_rows_sized df cs R hcs hsized R 0 (by omega)
  refine ⟨cs, hcs, fun c hc => sized_cells c R (hsized c hc), ?_,
    List.pairwise_map.mpr hproperties, List.pairwise_map.mpr hheaders⟩
  simp only [dataframe.to_file, write_properties_consistent _ hvalues,
    write_types_eq _ _ _ hcs, hsize, hrows, bind, Except.bind, pure, Except.pure,
    write_headers_eq, unlines_append, unlines, header_line, type_line,
    List.range_eq_range']
  simp

theorem to_file_layout_witness :
    ∃ cs : List (data_vector whole),
      List.Forall₂ (fun kv c => twiss.columns.get? kv.2 = some c) twiss.column_headers cs ∧
      (∀ c ∈ cs, (cell_texts c).length = 5) ∧
      twiss.to_file = Except.ok (unlines (twiss.properties.map property_line ++
        header_line (twiss.column_headers.map Prod.fst) :: type_line cs ::
          (List.range 5).map (row_line cs))) ∧
      (twiss.properties.map Prod.fst).Pairwise (fun a b => str_lt a b = true) ∧
      (twiss.column_headers.map Prod.fst).Pairwise (fun a b => str_lt a b = true) :=
  to_file_layout twiss 5 (by unfold map_sorted; decide) (by unfold map_sorted; decide)
    (by decide) (by decide) (by decide) (by decide)

/-! ## The tokens of a string -/

theorem words_aux_tokens : ∀ (s cur : Str), ' ' ∉ cur →
    ∀ t ∈ words_aux cur s, t ≠ [] ∧ ' ' ∉ t
  | [], cur, hcur, t, ht => by
    by_cases hc : cur = []
    · simp [words_aux, hc] at ht
    · simp only [words_aux, hc, if_false, List.mem_singleton] at ht
      subst ht
      exact ⟨hc, hcur⟩
  | c :: cs, cur, hcur, t, ht => by
    by_cases hsp : c = ' '
    · by_cases hc : cur = []
      · simp only [words_aux, hsp, hc, if_true] at ht
        exact words_aux_tokens cs [] (by simp) t ht
      · simp only [words_aux, hsp, hc, if_true, if_false] at ht
        rcases List.mem_cons.mp ht with rfl | ht
        · exact ⟨hc, hcur⟩
        · exact words_aux_tokens cs [] (by simp) t ht
    · simp only [words_aux, hsp, if_false] at ht
      refine words_aux_tokens cs (cur ++ [c]) ?_ t ht
      simp only [List.mem_append, List.mem_singleton, not_or]
      exact ⟨hcur, fun e => hsp e.symm⟩

theorem words_aux_flatten : ∀ (s cur : Str), ' ' ∉ cur →
    (words_aux cur s).flatten = cur ++ s.filter (fun c => decide (c ≠ ' '))
  | [], cur, _ => by
    by_cases hc : cur = []
    · simp [words_aux, hc]
    · simp [words_aux, hc]
  | c :: cs, cur, hcur => by
    by_cases hsp : c = ' '
    · by_cases hc : cur = []
      · simp [words_aux, hsp, hc, words_aux_flatten cs [] (by simp)]
      · simp [words_aux, hsp, hc, words_aux_flatten cs [] (by simp)]
    · have hcur' : ' ' ∉ cur ++ [c] := by
        simp only [List.mem_append, List.mem_singleton, not_or]
        exact ⟨hcur, fun e => hsp e.symm⟩
      simp [words_aux, hsp, words_aux_flatten cs (cur ++ [c]) hcur']

theorem words_only_spaces (s : Str) (h : ∀ c ∈ s, c = ' ') : words s = [] := by
  induction s with
  | nil => rfl
  | cons c cs ih =>
    rw [h c (List.mem_cons_self _ _), words_space]
    exact ih (fun x hx => h x (List.mem_cons_of_mem _ hx))

/-- C23: with the default arguments `tokenize` returns on every string and appends to the
container, in order of occurrence, the maximal runs of characters other than the space:
no token is empty, no token holds a space, the tokens concatenated are the string without
its spaces, and a string of spaces only (or the empty string) gives no token. The runs are
maximal: a leading space is skipped, and a non-empty run without space that is followed by
a space or by the end of the string is one token. A tab does not separate tokens. -/
theorem tokenize_runs (s : Str) (tokens : List Str) :
    tokenize s tokens [' '] false = Except.ok (tokens ++ words s) ∧
    (∀ t ∈ words s, t ≠ [] ∧ ' ' ∉ t) ∧
    (words s).flatten = s.filter (fun c => decide (c ≠ ' ')) ∧
    ((∀ c ∈ s, c = ' ') → tokenize s tokens [' '] false = Except.ok tokens) ∧
    tokenize (' ' :: s) tokens [' '] false = tokenize s tokens [' '] false ∧
    (∀ t : Str, t ≠ [] → ' ' ∉ t →
      tokenize t tokens [' '] false = Except.ok (tokens ++ [t]) ∧
      tokenize (t ++ ' ' :: s) tokens [' '] false = Except.ok (tokens ++ t :: words s)) ∧
    tokenize "a\tb  c".toList tokens [' '] false =
      Except.ok (tokens ++ ["a\tb".toList, "c".toList]) := by
  refine ⟨tokenize_words s tokens, words_aux_tokens s [] (by simp), ?_, ?_, ?_, ?_, ?_⟩
  · have h := words_aux_flatten s [] (by simp)
    simpa [words] using h
  · intro h
    rw [tokenize_words, words_only_spaces s h, List.append_nil]
  · rw [tokenize_words, tokenize_words, words_space]
  · intro t hne ht
    rw [tokenize_words, tokenize_words, words_token_end t hne ht, words_token t hne ht]
    exact ⟨rfl, rfl⟩
  · rw [tokenize_words]
    have h : words "a\tb  c".toList = ["a\tb".toList, "c".toList] := by decide
    rw [h]

theorem tokenize_runs_witness :
    tokenize " ab  c ".toList [] [' '] false = Except.ok ([] ++ words " ab  c ".toList) ∧
    (∀ t ∈ words " ab  c ".toList, t ≠ [] ∧ ' ' ∉ t) ∧
    (words " ab  c ".toList).flatten = " ab  c ".toList.filter (fun c => decide (c ≠ ' ')) ∧
    ((∀ c ∈ " ab  c ".toList, c = ' ') →
      tokenize " ab  c ".toList [] [' '] false = Except.ok []) ∧
    tokenize (' ' :: " ab  c ".toList) [] [' '] false =
      tokenize " ab  c ".toList [] [' '] false ∧
    (∀ t : Str, t ≠ [] → ' ' ∉ t →
      tokenize t [] [' '] false = Except.ok ([] ++ [t]) ∧
      tokenize (t ++ ' ' :: " ab  c ".toList) [] [' '] false =
        Except.ok ([] ++ t :: words " ab  c ".toList)) ∧
    tokenize "a\tb  c".toList [] [' '] false =
      Except.ok ([] ++ ["a\tb".toList, "c".toList]) :=
  tokenize_runs " ab  c ".toList []

/-! ## Lines of the first loop that are no header lines -/

theorem check_ini_idem {real : Type} (df : dataframe real) :
    df.check_ini.check_ini = df.check_ini := by
  unfold dataframe.check_ini
  split
  · rename_i h
    simp only [h, and_self, if_true]
  · rename_i h
    simp only [h, if_false]

theorem read_header_line_checked {real : Type} [RealText real] (df d : dataframe real)
    (l : Str) (h : df.read_header_line l = Except.ok d) : d.check_ini = d := by
  have key : ∀ x : Except Error (dataframe real),
      (x >>= fun v => pure v.check_ini) = Except.ok d → d.check_ini = d := by
    intro x hx
    cases x with
    | error e => cases hx
    | ok v =>
      simp only [bind, Except.bind, pure, Except.pure, Except.ok.injEq] at hx
      rw [← hx, check_ini_idem]
  unfold dataframe.read_header_line at h
  dsimp only at h
  split_ifs at h <;> exact key _ h

theorem read_header_lines_checked {real : Type} [RealText real] :
    ∀ (lines : List Str) (d0 df : dataframe real), d0.check_ini = d0 →
      lines.foldlM (fun d l => d.read_header_line l) d0 = Except.ok df → df.check_ini = df
  | [], d0, df, h0, h => by
    simp only [List.foldlM_nil, pure, Except.pure, Except.ok.injEq] at h
    rw [← h]
    exact h0
  | l :: ls, d0, df, _, h => by
    simp only [List.foldlM_cons, bind, Except.bind] at h
    cases h1 : d0.read_header_line l with
    | error e => simp [h1] at h
    | ok d1 =>
      simp only [h1] at h
      exact read_header_lines_checked ls d1 df (read_header_line_checked d0 d1 l h1) h

theorem read_header_line_other {real : Type} [RealText real] (df : dataframe real)
    (line : Str) (h1 : line_front line ≠ '@') (h2 : line_front line ≠ '*')
    (h3 : line_front line ≠ '$') : df.read_header_line line = Except.ok df.check_ini := by
  unfold dataframe.read_header_line
  rw [if_neg h1, if_neg h2, if_neg h3]
  rfl

/-- C21: in every state the first loop of the constructor reaches from `dataframe()` with
`ini_complete` still false, a line whose first character is none of `@`, `*`, `$` is
processed without error and leaves the whole table (`columns`, `column_headers`,
`properties`, `idx` and `ini_complete`) as it is; so do the empty line and every line that
starts with a space; the loop goes on with the next line of the file. -/
theorem other_line_ignored {real : Type} [RealText real] (lines : List Str)
    (df : dataframe real) (line : Str)
    (hreach : lines.foldlM (fun d l => d.read_header_line l) (dataframe.empty real) =
      Except.ok df)
    (hini : df.ini_complete = false)
    (h1 : line_front line ≠ '@') (h2 : line_front line ≠ '*')
    (h3 : line_front line ≠ '$') :
    df.read_header_line line = Except.ok df ∧
    df.read_header_line [] = Except.ok df ∧
    (∀ s : Str, df.read_header_line (' ' :: s) = Except.ok df) ∧
    (∀ (fuel : Nat) (rest l0 : Str), '\n' ∉ line →
      header_loop (fuel + 1) ⟨line ++ '\n' :: rest, true⟩ l0 df =
        header_loop fuel ⟨rest, true⟩ line df) := by
  have hc : df.check_ini = df := read_header_lines_checked lines _ df rfl hreach
  have hline : df.read_header_line line = Except.ok df := by
    rw [read_header_line_other df line h1 h2 h3, hc]
  refine ⟨hline, ?_, ?_, ?_⟩
  · rw [read_header_line_other df [] (by decide) (by decide) (by decide), hc]
  · intro s
    have f1 : line_front (' ' :: s) ≠ '@' := by show ' ' ≠ '@'; decide
    have f2 : line_front (' ' :: s) ≠ '*' := by show ' ' ≠ '*'; decide
    have f3 : line_front (' ' :: s) ≠ '$' := by show ' ' ≠ '$'; decide
    rw [read_header_line_other df (' ' :: s) f1 f2 f3, hc]
  · intro fuel rest l0 hnl
    exact header_loop_step fuel line rest l0 df df hnl hini hline

theorem other_line_ignored_witness :
    (⟨[], [("a".toList, 0), ("b".toList, 1)], [("N".toList, data_value.from_int whole 3)],
        [], false⟩ : dataframe whole).read_header_line "# comment".toList =
      Except.ok ⟨[], [("a".toList, 0), ("b".toList, 1)],
        [("N".toList, data_value.from_int whole 3)], [], false⟩ ∧
    (⟨[], [("a".toList, 0), ("b".toList, 1)], [("N".toList, data_value.from_int whole 3)],
        [], false⟩ : dataframe whole).read_header_line [] =
      Except.ok ⟨[], [("a".toList, 0), ("b".toList, 1)],
        [("N".toList, data_value.from_int whole 3)], [], false⟩ ∧
    (∀ s : Str,
      (⟨[], [("a".toList, 0), ("b".toList, 1)], [("N".toList, data_value.from_int whole 3)],
          [], false⟩ : dataframe whole).read_header_line (' ' :: s) =
        Except.ok ⟨[], [("a".toList, 0), ("b".toList, 1)],
          [("N".toList, data_value.from_int whole 3)], [], false⟩) ∧
    (∀ (fuel : Nat) (rest l0 : Str), '\n' ∉ "# comment".toList →
      header_loop (fuel + 1) ⟨"# comment".toList ++ '\n' :: rest, true⟩ l0
          (⟨[], [("a".toList, 0), ("b".toList, 1)],
            [("N".toList, data_value.from_int whole 3)], [], false⟩ : dataframe whole) =
        header_loop fuel ⟨rest, true⟩ "# comment".toList
          ⟨[], [("a".toList, 0), ("b".toList, 1)],
            [("N".toList, data_value.from_int whole 3)], [], false⟩) :=
  other_line_ignored ["@ N %d 3".toList, "* a b".toList]
    ⟨[], [("a".toList, 0), ("b".toList, 1)], [("N".toList, data_value.from_int whole 3)],
      [], false⟩
    "# comment".toList (by decide) rfl (by decide) (by decide) (by decide)

/-! ## What the lookups leave behind -/

theorem write_rows_congr {real : Type} [RealText real] (df df' : dataframe real)
    (hc : df'.columns = df.columns) (hh : df'.column_headers = df.column_headers) :
    ∀ (n i : Nat), write_rows df' n i = write_rows df n i
  | 0, _ => rfl
  | n + 1, i => by
    simp only [write_rows, hc, hh, write_rows_congr df df' hc hh n (i + 1)]

/-- The text written by `to_file` and the result of `size()` do not depend on `idx`. -/
theorem idx_not_written {real : Type} [RealText real] (df : dataframe real)
    (m : std_map Nat) :
    ({ df with idx := m } : dataframe real).size = df.size ∧
    ({ df with idx := m } : dataframe real).to_file = df.to_file := by
  refine ⟨rfl, ?_⟩
  have hs : ({ df with idx := m } : dataframe real).size = df.size := rfl
  simp only [dataframe.to_file, hs, write_rows_congr df { df with idx := m } rfl rfl]

set_option maxRecDepth 100000 in
/-- C24 (as stated, refuted): on the table of two `int` columns `get_property` of a key
that is not stored adds a property, `get_column` of a name that is not registered adds a
header name and `get_index` of a key that is not stored adds an index entry; after the
first two the text written by `to_file` is another one. On the table whose columns have
three rows and one row, `get_column("A")` changes `size()` from 1 to 3. -/
theorem lookup_writes_counterexample :
    two_columns.properties = [] ∧
    (two_columns.get_property "K".toList).2.properties =
      [("K".toList, data_value.default whole)] ∧
    (two_columns.get_property "K".toList).2.to_file ≠ two_columns.to_file ∧
    (two_columns.get_column "c".toList).map (fun r => r.2.column_headers) =
      Except.ok [("a".toList, 0), ("b".toList, 1), ("c".toList, 0)] ∧
    (do
      let r ← two_columns.get_column "c".toList
      r.2.to_file) ≠ two_columns.to_file ∧
    two_columns.idx = [] ∧
    (two_columns.get_index "k".toList).2.idx = [("k".toList, 0)] ∧
    two_lengths.size = Except.ok 1 ∧
    (do
      let r ← two_lengths.get_column "A".toList
      r.2.size) = Except.ok 3 := by
  decide

/-- C24 (amended): on every table a lookup of a present argument is read-only:
`get_column` of a registered name whose position is in range, `get_property` of a stored
key and `get_index` of a stored key return the stored entry and leave the table as it is,
so `size()` and the text written by `to_file` are the same after the call. A lookup of an
absent argument inserts an entry for it, with position 0, the value-initialised
`data_value` or row 0, into the map it reads and leaves the other members as they are;
after `get_index`, `size()` and the text written by `to_file` are the same in both
cases. -/
theorem lookup_present_read_only {real : Type} [RealText real] (df : dataframe real)
    (name pkey ikey : Str) :
    (∀ (i : Nat) (c : data_vector real), map_find df.column_headers name = some i →
      df.columns.get? i = some c →
      df.get_column name = Except.ok (c, df) ∧
      (df.get_column name).map (fun r => (r.2.size, r.2.to_file)) =
        Except.ok (df.size, df.to_file)) ∧
    (∀ v : data_value real, map_find df.properties pkey = some v →
      df.get_property pkey = (v, df) ∧
      (df.get_property pkey).2.size = df.size ∧
      (df.get_property pkey).2.to_file = df.to_file) ∧
    (∀ j : Nat, map_find df.idx ikey = some j → df.get_index ikey = (j, df)) ∧
    ((df.get_index ikey).2.size = df.size ∧ (df.get_index ikey).2.to_file = df.to_file ∧
      (df.get_index ikey).2.columns = df.columns ∧
      (df.get_index ikey).2.column_headers = df.column_headers ∧
      (df.get_index ikey).2.properties = df.properties) ∧
    (map_find df.properties pkey = none →
      df.get_property pkey = (data_value.default real,
        { df with properties := map_insert df.properties pkey (data_value.default real) })) ∧
    (map_find df.idx ikey = none →
      df.get_index ikey = (0, { df with idx := map_insert df.idx ikey 0 })) ∧
    (∀ c0 : data_vector real, map_find df.column_headers name = none →
      df.columns.get? 0 = some c0 →
      df.get_column name =
        Except.ok (c0, { df with column_headers := map_insert df.column_headers name 0 })) := by
  refine ⟨?_, ?_, ?_, ⟨(idx_not_written df _).1, (idx_not_written df _).2, rfl, rfl, rfl⟩,
    ?_, ?_, ?_⟩
  · intro i c hname hcol
    have e1 : df.get_column name = Except.ok (c, df) := by
      simp only [dataframe.get_column, map_index, hname, vec_at, hcol]
      rfl
    refine ⟨e1, ?_⟩
    rw [e1]
    rfl
  · intro v hp
    have e2 : df.get_property pkey = (v, df) := by
      simp only [dataframe.get_property, map_index, hp]
    exact ⟨e2, by rw [e2], by rw [e2]⟩
  · intro j hx
    simp only [dataframe.get_index, map_index, hx]
  · intro h
    simp only [dataframe.get_property, map_index, h]
  · intro h
    simp only [dataframe.get_index, map_index, h]
  · intro c0 h h0
    simp only [dataframe.get_column, map_index, h, vec_at, h0]
    rfl

theorem lookup_present_read_only_witness :
    (twiss.get_column "ints".toList =
        Except.ok (⟨udata_vec.int_vector [1, 2, 3, 4, 5], DataType.D, "ints".toList⟩, twiss) ∧
      (twiss.get_column "ints".toList).map (fun r => (r.2.size, r.2.to_file)) =
        Except.ok (twiss.size, twiss.to_file)) ∧
    (twiss.get_property "Q1".toList = (data_value.from_double (⟨62⟩ : whole), twiss) ∧
      (twiss.get_property "Q1".toList).2.size = twiss.size ∧
      (twiss.get_property "Q1".toList).2.to_file = twiss.to_file) ∧
    indexed_table.get_index "x".toList = (0, indexed_table) ∧
    twiss.get_index "x".toList = (0, { twiss with idx := map_insert twiss.idx "x".toList 0 }) :=
  ⟨(lookup_present_read_only twiss "ints".toList "Q1".toList "x".toList).1 1 _
      (by decide) (by decide),
    (lookup_present_read_only twiss "ints".toList "Q1".toList "x".toList).2.1 _ (by decide),
    (lookup_present_read_only indexed_table "v".toList "N".toList "x".toList).2.2.1 0
      (by decide),
    (lookup_present_read_only twiss "ints".toList "Q1".toList "x".toList).2.2.2.2.2.1
      (by decide)⟩

/-! ## Termination of the constructor -/

theorem terminated_ok {α : Type} (a : α) : terminated (Except.ok a : Except Error α) := by
  intro h
  cases h

theorem terminated_bind {α β : Type} (x : Except Error α) (f : α → Except Error β)
    (hx : terminated x) (hf : ∀ a, x = Except.ok a → terminated (f a)) :
    terminated (x >>= f) := by
  cases x with
  | error e =>
    intro h
    simp only [bind, Except.bind, Except.error.injEq] at h
    exact hx (by rw [h])
  | ok a => exact hf a rfl

theorem vec_at_terminated {α : Type} (v : List α) (i : Nat) : terminated (vec_at v i) := by
  unfold vec_at
  cases v.get? i with
  | none =>
    intro h
    cases h
  | some x => exact terminated_ok x

theorem convert_back_terminated {real : Type} [RealText real] (c : data_vector real)
    (t : Str) : terminated (c.convert_back t) := by
  obtain ⟨payload, type, name⟩ := c
  cases type <;> cases payload <;> (intro h; cases h)

theorem read_line_loop_terminated {real : Type} [RealText real] :
    ∀ (tokens : List Str) (columns : List (data_vector real)) (i : Nat),
      terminated (read_line_loop columns tokens i)
  | [], columns, _ => terminated_ok columns
  | t :: ts, columns, i => by
    unfold read_line_loop
    refine terminated_bind _ _ (vec_at_terminated _ _) (fun c _ => ?_)
    refine terminated_bind _ _ (convert_back_terminated c t) (fun c' _ => ?_)
    exact read_line_loop_terminated ts _ _

theorem read_line_terminated {real : Type} [RealText real] (df : dataframe real)
    (line : Str) : terminated (df.read_line line) := by
  simp only [dataframe.read_line, tokenize_words, List.nil_append]
  refine terminated_bind _ _ (terminated_ok _) (fun tokens _ => ?_)
  refine terminated_bind _ _ (read_line_loop_terminated _ _ _) (fun cols _ => ?_)
  exact terminated_ok _

theorem read_property_terminated {real : Type} [RealText real] (df : dataframe real)
    (line : Str) : terminated (df.read_property line) := by
  simp only [dataframe.read_property, tokenize_words, List.nil_append]
  refine terminated_bind _ _ (terminated_ok _) (fun tokens _ => ?_)
  refine terminated_bind _ _ (vec_at_terminated _ _) (fun t2 _ => ?_)
  split
  · refine terminated_bind _ _ (vec_at_terminated _ _) (fun t1 _ => ?_)
    refine terminated_bind _ _ (vec_at_terminated _ _) (fun t3 _ => ?_)
    exact terminated_ok _
  · refine terminated_bind _ _ (vec_at_terminated _ _) (fun t1 _ => ?_)
    refine terminated_bind _ _ (vec_at_terminated _ _) (fun t3 _ => ?_)
    exact terminated_ok _
  · refine terminated_bind _ _ (vec_at_terminated _ _) (fun t1 _ => ?_)
    exact terminated_ok _

theorem copy_terminated {real : Type} (c : data_vector real) : terminated c.copy := by
  obtain ⟨payload, type, name⟩ := c
  cases type <;> cases payload <;> (intro h; cases h)

theorem copy_all_terminated {real : Type} :
    ∀ (cols : List (data_vector real)), terminated (copy_all cols)
  | [] => terminated_ok _
  | c :: cs => by
    unfold copy_all
    refine terminated_bind _ _ (copy_terminated c) (fun c' _ => ?_)
    refine terminated_bind _ _ (copy_all_terminated cs) (fun cs' _ => ?_)
    exact terminated_ok _

theorem emplace_types_terminated {real : Type} :
    ∀ (tags : List Str) (cols : List (data_vector real)), terminated (emplace_types cols tags)
  | [], cols => terminated_ok cols
  | t :: ts, cols => by
    unfold emplace_types
    refine terminated_bind _ _ ?_ (fun cols' _ => emplace_types_terminated ts cols')
    unfold vector_grow
    exact terminated_bind _ _ (copy_all_terminated cols) (fun _ _ => terminated_ok _)

theorem read_header_line_terminated {real : Type} [RealText real] (df : dataframe real)
    (line : Str) : terminated (df.read_header_line line) := by
  have key : ∀ x : Except Error (dataframe real), terminated x →
      terminated (x >>= fun v => (pure v.check_ini : Except Error (dataframe real))) :=
    fun x hx => terminated_bind _ _ hx (fun a _ => terminated_ok _)
  unfold dataframe.read_header_line
  dsimp only
  split_ifs
  · exact key _ (read_property_terminated df line)
  · refine key _ ?_
    simp only [dataframe.read_column_headers, tokenize_words, List.nil_append]
    refine terminated_bind _ _ (terminated_ok _) (fun tokens _ => ?_)
    cases tokens with
    | nil =>
      intro h
      cases h
    | cons w ws => exact terminated_ok _
  · refine key _ ?_
    simp only [dataframe.read_column_types, tokenize_words, List.nil_append]
    refine terminated_bind _ _ (terminated_ok _) (fun tokens _ => ?_)
    cases tokens with
    | nil =>
      intro h
      cases h
    | cons w ws =>
      exact terminated_bind _ _ (emplace_types_terminated ws _) (fun _ _ => terminated_ok _)
  · exact key _ (terminated_ok df)

theorem dropWhile_tail_length (p : Char → Bool) (s : Str) (x : Char) (rest : Str)
    (h : s.dropWhile p = x :: rest) : rest.length < s.length := by
  have h1 := (List.dropWhile_sublist p : (s.dropWhile p).Sublist s).length_le
  rw [h] at h1
  simp only [List.length_cons] at h1
  omega

theorem getline_remaining_le (file : ifstream) (line : Str) :
    (getline file line).2.1.remaining ≤ file.remaining := by
  obtain ⟨buf, good⟩ := file
  cases good with
  | false => exact Nat.le_refl _
  | true =>
    cases buf with
    | nil => exact Nat.le_refl _
    | cons c cs =>
      simp only [getline, Bool.true_eq_false, if_false]
      split
      · simp [ifstream.remaining]
      · rename_i x rest h
        have := dropWhile_tail_length _ _ _ _ h
        simp only [ifstream.remaining, if_true]
        exact Nat.le_of_lt this

theorem getline_remaining_lt (file : ifstream) (line : Str)
    (h : (getline file line).1 = true) :
    (getline file line).2.1.remaining < file.remaining := by
  obtain ⟨buf, good⟩ := file
  cases good with
  | false => simp [getline] at h
  | true =>
    cases buf with
    | nil => simp [getline] at h
    | cons c cs =>
      simp only [getline, Bool.true_eq_false, if_false]
      split
      · simp [ifstream.remaining]
      · rename_i x rest h
        have := dropWhile_tail_length _ _ _ _ h
        simp only [ifstream.remaining, if_true]
        exact this

theorem header_loop_terminated {real : Type} [RealText real] :
    ∀ (fuel : Nat) (file : ifstream) (line : Str) (df : dataframe real),
      file.remaining < fuel →
      terminated (header_loop fuel file line df) ∧
      ∀ r, header_loop fuel file line df = Except.ok r → r.1.remaining ≤ file.remaining
  | 0, _, _, _, h => absurd h (Nat.not_lt_zero _)
  | fuel + 1, file, line, df, hfuel => by
    simp only [header_loop]
    by_cases hc : (getline file line).1 = true ∧ df.ini_complete = false
    · rw [if_pos hc]
      have hlt := getline_remaining_lt file line hc.1
      constructor
      · refine terminated_bind _ _ (read_header_line_terminated _ _) (fun d _ => ?_)
        exact (header_loop_terminated fuel _ _ d (by omega)).1
      · intro r hr
        simp only [bind, Except.bind] at hr
        cases hd : df.read_header_line (getline file line).2.2 with
        | error e => simp [hd] at hr
        | ok d =>
          simp only [hd] at hr
          have := (header_loop_terminated fuel _ _ d (by omega)).2 r hr
          omega
    · rw [if_neg hc]
      constructor
      · exact terminated_ok _
      · intro r hr
        simp only [pure, Except.pure, Except.ok.injEq] at hr
        rw [← hr]
        exact getline_remaining_le file line

theorem row_loop_terminated {real : Type} [RealText real] :
    ∀ (fuel : Nat) (file : ifstream) (line : Str) (df : dataframe real),
      file.remaining < fuel → terminated (row_loop fuel file line df)
  | 0, _, _, _, h => absurd h (Nat.not_lt_zero _)
  | fuel + 1, file, line, df, hfuel => by
    unfold row_loop
    refine terminated_bind _ _ (read_line_terminated _ _) (fun d _ => ?_)
    dsimp only
    by_cases hc : (getline file line).1 = true
    · rw [if_pos hc]
      have hlt := getline_remaining_lt file line hc
      exact row_loop_terminated fuel _ _ d (by omega)
    · rw [if_neg hc]
      exact terminated_ok _

/-- The two loops of the constructor end on every text: each successful `getline` takes at
least one character from the stream, and the loops stop at the first `getline` that
fails. -/
theorem read_terminated {real : Type} [RealText real] (text index : Str) :
    terminated (dataframe.read text index : Except Error (dataframe real)) := by
  unfold dataframe.read
  have h0 : (⟨text, true⟩ : ifstream).remaining < text.length + 1 := by
    simp [ifstream.remaining]
  obtain ⟨h1, h2⟩ := @header_loop_terminated real _ (text.length + 1) ⟨text, true⟩ []
    (dataframe.empty real) h0
  refine terminated_bind _ _ h1 (fun r hr => ?_)
  have hr' := h2 r hr
  have hlen : (⟨text, true⟩ : ifstream).remaining = text.length := rfl
  rw [hlen] at hr'
  refine terminated_bind _ _ (row_loop_terminated _ _ _ _ (by omega)) (fun df _ => ?_)
  split_ifs
  · exact terminated_ok _
  · refine terminated_bind _ _ ?_ (fun c _ => ?_)
    · unfold dataframe.get_column
      exact terminated_bind _ _ (vec_at_terminated _ _) (fun c _ => terminated_ok _)
    · split
      · exact terminated_ok _
      · intro h
        cases h

theorem check_ini_complete {real : Type} (df : dataframe real)
    (h : df.ini_complete = true) : df.check_ini.ini_complete = true := by
  unfold dataframe.check_ini
  split
  · rfl
  · exact h

/-- Once set, `ini_complete` stays set. -/
theorem read_header_line_complete {real : Type} [RealText real] (df d : dataframe real)
    (l : Str) (h : df.read_header_line l = Except.ok d) (hini : df.ini_complete = true) :
    d.ini_complete = true := by
  have key : ∀ x : Except Error (dataframe real),
      (∀ v, x = Except.ok v → v.ini_complete = true) →
      (x >>= fun v => pure v.check_ini) = Except.ok d → d.ini_complete = true := by
    intro x hx hd
    cases x with
    | error e => cases hd
    | ok v =>
      simp only [bind, Except.bind, pure, Except.pure, Except.ok.injEq] at hd
      rw [← hd]
      exact check_ini_complete v (hx v rfl)
  unfold dataframe.read_header_line at h
  dsimp only at h
  split_ifs at h
  · refine key _ ?_ h
    intro v hv
    obtain ⟨props, hprops⟩ := read_property_frame df v l hv
    rw [hprops]
    exact hini
  · refine key _ ?_ h
    intro v hv
    simp only [dataframe.read_column_headers, tokenize_words, List.nil_append, bind,
      Except.bind] at hv
    cases hw : words l with
    | nil => simp [hw, throw, throwThe, MonadExceptOf.throw] at hv
    | cons w ws =>
      simp only [hw, pure, Except.pure, Except.ok.injEq] at hv
      rw [← hv]
      exact hini
  · refine key _ ?_ h
    intro v hv
    obtain ⟨cols, hcols⟩ := read_column_types_frame df v l hv
    rw [hcols]
    exact hini
  · refine key _ ?_ h
    intro v hv
    simp only [pure, Except.pure, Except.ok.injEq] at hv
    rw [← hv]
    exact hini

theorem read_header_lines_complete {real : Type} [RealText real] :
    ∀ (lines : List Str) (d0 df : dataframe real),
      lines.foldlM (fun d l => d.read_header_line l) d0 = Except.ok df →
      d0.ini_complete = true → df.ini_complete = true
  | [], d0, df, h, h0 => by
    simp only [List.foldlM_nil, pure, Except.pure, Except.ok.injEq] at h
    rw [← h]
    exact h0
  | l :: ls, d0, df, h, h0 => by
    simp only [List.foldlM_cons, bind, Except.bind] at h
    cases h1 : d0.read_header_line l with
    | error e => simp [h1] at h
    | ok d1 =>
      simp only [h1] at h
      exact read_header_lines_complete ls d1 df h (read_header_line_complete d0 d1 l h1 h0)

/-- While `ini_complete` stays false the first loop of the constructor processes every line
of the file as a header line and ends at the end of the file, with an empty `line`. -/
theorem header_loop_all {real : Type} [RealText real] :
    ∀ (lines : List Str) (d0 df : dataframe real) (fuel : Nat) (line : Str),
      (∀ l ∈ lines, '\n' ∉ l) →
      lines.foldlM (fun d l => d.read_header_line l) d0 = Except.ok df →
      df.ini_complete = false →
      header_loop (fuel + lines.length + 1) ⟨unlines lines, true⟩ line d0 =
        Except.ok (⟨[], false⟩, [], df)
  | [], d0, df, fuel, line, _, h, _ => by
    simp only [List.foldlM_nil, pure, Except.pure, Except.ok.injEq] at h
    subst h
    simp only [List.length_nil, Nat.add_zero, unlines, header_loop, getline_end,
      Bool.false_eq_true, false_and, if_false, pure, Except.pure]
  | l :: ls, d0, df, fuel, line, hl, h, hini => by
    have h0 : d0.ini_complete = false := by
      cases hb : d0.ini_complete with
      | false => rfl
      | true =>
        have := read_header_lines_complete (l :: ls) d0 df h hb
        rw [hini] at this
        cases this
    simp only [List.foldlM_cons, bind, Except.bind] at h
    cases h1 : d0.read_header_line l with
    | error e => simp [h1] at h
    | ok d1 =>
      simp only [h1] at h
      have hstep := header_loop_step (fuel + ls.length + 1) l (unlines ls) line d0 d1
        (hl l (List.mem_cons_self _ _)) h0 h1
      have ih := header_loop_all ls d1 df fuel l
        (fun x hx => hl x (List.mem_cons_of_mem _ hx)) h hini
      simp only [List.length_cons, unlines]
      rw [show fuel + (ls.length + 1) + 1 = fuel + ls.length + 1 + 1 from rfl, hstep, ih]

set_option maxRecDepth 100000 in
/-- C22 (as stated, refuted): the file declares two header names and one column, so the two
counts never become equal. The constructor returns: the first loop ends at the end of the
file, the row loop processes the empty line left, and the table holds the one column,
without rows, and the two names, with `ini_complete` false. -/
theorem endless_parse_counterexample :
    (dataframe.read "* a b\n$ %d\n 1 2\n".toList [] : Except Error (dataframe whole)) =
      Except.ok ⟨[⟨udata_vec.int_vector [], DataType.D, []⟩],
        [("a".toList, 0), ("b".toList, 1)], [], [], false⟩ ∧
    header_loop 7 ⟨"* a b\n$ %d\n 1 2\n".toList, true⟩ [] (dataframe.empty whole) =
      Except.ok (⟨[], false⟩, [], ⟨[⟨udata_vec.int_vector [], DataType.D, []⟩],
        [("a".toList, 0), ("b".toList, 1)], [], [], false⟩) := by
  decide

/-- C22 (amended): the constructor ends on every text and index name: each loop stops at
the first `getline` that fails, after at most one iteration per character of the text and
one more. When the lines of the text are all ended by a newline and processing them as
header lines never sets `ini_complete` (the number of columns never becomes a positive
number equal to the number of header names), the constructor returns the table these lines
leave, with `ini_complete` false and no data row read. -/
theorem parse_terminates {real : Type} [RealText real] (lines : List Str)
    (df : dataframe real) (hl : ∀ l ∈ lines, '\n' ∉ l)
    (hfold : lines.foldlM (fun d l => d.read_header_line l) (dataframe.empty real) =
      Except.ok df)
    (hini : df.ini_complete = false) :
    dataframe.read (unlines lines) [] = Except.ok df ∧
    (∀ fuel line, header_loop (fuel + lines.length + 1) ⟨unlines lines, true⟩ line
      (dataframe.empty real) = Except.ok (⟨[], false⟩, [], df)) ∧
    (∀ text index : Str,
      terminated (dataframe.read text index : Except Error (dataframe real))) := by
  refine ⟨?_, fun fuel line => header_loop_all lines _ df fuel line hl hfold hini,
    fun text index => read_terminated text index⟩
  obtain ⟨k, hk⟩ := Nat.exists_eq_add_of_le (unlines_length lines)
  have hfuel : (unlines lines).length + 1 = k + lines.length + 1 := by omega
  have hh := header_loop_all lines _ df k [] hl hfold hini
  simp only [dataframe.read, hfuel, hh, bind, Except.bind, row_loop, read_line_empty,
    getline_not_good, Bool.false_eq_true, if_false, if_true, pure, Except.pure]

theorem parse_terminates_witness :
    (dataframe.read (unlines ["* a b".toList, "$ %d".toList, " 1 2".toList]) [] :
      Except Error (dataframe whole)) =
      Except.ok ⟨[⟨udata_vec.int_vector [], DataType.D, []⟩],
        [("a".toList, 0), ("b".toList, 1)], [], [], false⟩ ∧
    (∀ fuel line,
      header_loop (fuel + ["* a b".toList, "$ %d".toList, " 1 2".toList].length + 1)
        ⟨unlines ["* a b".toList, "$ %d".toList, " 1 2".toList], true⟩ line
        (dataframe.empty whole) =
        Except.ok (⟨[], false⟩, [], ⟨[⟨udata_vec.int_vector [], DataType.D, []⟩],
          [("a".toList, 0), ("b".toList, 1)], [], [], false⟩)) ∧
    (∀ text index : Str,
      terminated (dataframe.read text index : Except Error (dataframe whole))) :=
  parse_terminates ["* a b".toList, "$ %d".toList, " 1 2".toList]
    ⟨[⟨udata_vec.int_vector [], DataType.D, []⟩], [("a".toList, 0), ("b".toList, 1)], [], [],
      false⟩
    (by decide) (by decide) rfl

/-! ## Writing a table and parsing the text, floats and strings as they are read -/

theorem column_printable_size {real : Type} [RealText real] (c : data_vector real)
    (h : column_printable c) : c.size = Except.ok (cell_texts c).length := by
  obtain ⟨payload, type, name⟩ := c
  cases type <;> cases payload <;>
    simp_all [column_printable, data_vector.size, cell_texts, pure, Except.pure]

theorem column_printable_cells {real : Type} [RealText real] (c : data_vector real)
    (h : column_printable c) : ∀ t ∈ cell_texts c, token_ok t := by
  obtain ⟨payload, type, name⟩ := c
  cases type <;> cases payload <;> simp only [column_printable] at h <;>
    simp only [cell_texts, List.mem_map]
  · exact h
  · rintro t ⟨x, hx, rfl⟩
    exact h x hx
  · rintro t ⟨x, _, rfl⟩
    exact put_int_token x

theorem column_printable_kind {real : Type} [RealText real] (c : data_vector real)
    (h : column_printable c) : DT_from_string (string_fromDT c.type) = c.type := by
  obtain ⟨payload, type, name⟩ := c
  cases type <;> cases payload <;> simp only [column_printable] at h <;>
    first
    | (show DT_from_string (string_fromDT DataType.S) = DataType.S; decide)
    | (show DT_from_string (string_fromDT DataType.LE) = DataType.LE; decide)
    | (show DT_from_string (string_fromDT DataType.D) = DataType.D; decide)

theorem property_printable_consistent {real : Type} [RealText real] (v : data_value real)
    (h : property_printable v) : v.consistent = true := by
  obtain ⟨type, payload⟩ := v
  cases type <;> cases payload <;> simp_all [property_printable, data_value.consistent]

/-- The text `to_file` writes for a table whose registered columns `cs` all have size `R`
and whose property values are consistent. -/
theorem to_file_sized {real : Type} [RealText real] (df : dataframe real)
    (cs : List (data_vector real)) (R : Nat)
    (hcs : List.Forall₂ (fun kv c => df.columns.get? kv.2 = some c) df.column_headers cs)
    (hsized : ∀ c ∈ cs, c.size = Except.ok R)
    (hempty : df.column_headers = [] → df.columns = [] ∧ R = 0)
    (hvalues : ∀ kv ∈ df.properties, kv.2.consistent = true) :
    df.to_file = Except.ok (unlines (df.properties.map property_line ++
      header_line (df.column_headers.map Prod.fst) :: type_line cs ::
        (List.range R).map (row_line cs))) := by
  have hsize : df.size = Except.ok R := by
    cases hh : df.column_headers with
    | nil =>
      obtain ⟨h1, h2⟩ := hempty hh
      simp [dataframe.size, h1, h2, pure, Except.pure]
    | cons kv rest =>
      rw [hh] at hcs
      cases hcs with
      | cons h hrest =>
        rename_i c cs'
        have hc := hsized c (List.mem_cons_self _ _)
        have hne : df.columns.length ≠ 0 := by
          intro h0
          rw [List.length_eq_zero.mp h0] at h
          simp at h
        simp only [dataframe.size, hne, if_false, hh, vec_at, h, bind, Except.bind, pure,
          Except.pure, hc]
  have hrows := write_rows_sized df cs R hcs hsized R 0 (by omega)
  simp only [dataframe.to_file, write_properties_consistent _ hvalues,
    write_types_eq _ _ _ hcs, hsize, hrows, bind, Except.bind, pure, Except.pure,
    write_headers_eq, unlines_append, unlines, header_line, type_line,
    List.range_eq_range']
  simp

theorem value_text_no_newline {real : Type} [RealText real] (v : data_value real)
    (h : property_printable v) : '\n' ∉ value_text v := by
  obtain ⟨type, payload⟩ := v
  cases type <;> cases payload <;> simp only [property_printable] at h
  · simpa [value_text, data_value.pretty_print, pure, Except.pure] using h
  · simpa [value_text, data_value.pretty_print, pure, Except.pure] using h.2.2
  · simpa [value_text, data_value.pretty_print, pure, Except.pure] using
      (put_int_token _).2.2

theorem property_line_words {real : Type} [RealText real] (kv : Str × data_value real)
    (hk : token_ok kv.1) (hv : property_printable kv.2) :
    '\n' ∉ property_line kv ∧ line_front (property_line kv) = '@' ∧
    words (property_line kv) =
      ['@'] :: kv.1 :: string_fromDT kv.2.type :: words (value_text kv.2) := by
  have hv3 := value_text_no_newline kv.2 hv
  obtain ⟨hk1, hk2, hk3⟩ := hk
  obtain ⟨ht1, ht2, ht3⟩ := string_fromDT_token kv.2.type
  refine ⟨?_, rfl, ?_⟩
  · have s1 := setw_not_mem 32 kv.1 '\n' (by decide) hk3
    have s2 := setw_not_mem 4 (string_fromDT kv.2.type) '\n' (by decide) ht3
    simp only [property_line, List.mem_cons, List.mem_append, not_or]
    exact ⟨by decide, by decide, s1, by decide, s2, by decide, hv3⟩
  · have w0 := words_token ['@'] (by simp) (by decide)
      (setw 32 kv.1 ++ ' ' :: (setw 4 (string_fromDT kv.2.type) ++ ' ' :: value_text kv.2))
    have w1 := words_setw 32 kv.1 hk1 hk2
      (setw 4 (string_fromDT kv.2.type) ++ ' ' :: value_text kv.2)
    have w2 := words_setw 4 (string_fromDT kv.2.type) ht1 ht2 (value_text kv.2)
    simp only [List.singleton_append] at w0
    rw [property_line, w0, w1, w2]

/-- What `read_property` stores for the line `to_file` writes for a property. -/
theorem read_property_reread {real : Type} [RealText real] (df : dataframe real)
    (kv : Str × data_value real) (hk : token_ok kv.1) (hv : property_printable kv.2) :
    df.read_property (property_line kv) =
      Except.ok { df with properties := map_insert df.properties kv.1 (reread kv.2) } := by
  obtain ⟨hnl, hfr, hw⟩ := property_line_words kv hk hv
  obtain ⟨k, type, payload⟩ := kv
  cases type <;> cases payload <;> simp only [property_printable] at hv
  · rename_i s
    have hd : DT_from_string (string_fromDT DataType.S) = DataType.S := by decide
    have hvt : value_text (⟨DataType.S, variant.string s⟩ : data_value real) = s := rfl
    rw [hvt] at hw
    cases hws : words s with
    | nil =>
      rw [hws] at hw
      simp only [dataframe.read_property, tokenize_words, List.nil_append, hw, vec_at,
        List.get?, bind, Except.bind, pure, Except.pure, hd, reread, hws, List.drop]
    | cons w ws =>
      rw [hws] at hw
      simp only [dataframe.read_property, tokenize_words, List.nil_append, hw, vec_at,
        List.get?, bind, Except.bind, pure, Except.pure, hd, reread, hws, List.drop]
  · rename_i r
    have hd : DT_from_string (string_fromDT DataType.LE) = DataType.LE := by decide
    have hvt : value_text (⟨DataType.LE, variant.real r⟩ : data_value real) =
        RealText.put r := rfl
    rw [hvt, words_token_end _ hv.1 hv.2.1] at hw
    simp only [dataframe.read_property, tokenize_words, List.nil_append, hw, vec_at,
      List.get?, bind, Except.bind, pure, Except.pure, hd, reread]
  · rename_i i
    have hd : DT_from_string (string_fromDT DataType.D) = DataType.D := by decide
    have hvt : value_text (⟨DataType.D, variant.int i⟩ : data_value real) = put_int i := rfl
    rw [hvt, words_token_end _ (put_int_token i).1 (put_int_token i).2.1] at hw
    simp only [dataframe.read_property, tokenize_words, List.nil_append, hw, vec_at,
      List.get?, bind, Except.bind, pure, Except.pure, hd, reread,
      strtol_put_int i hv, int_of_long_id i hv, data_value.from_int]

theorem read_property_lines_reread {real : Type} [RealText real] :
    ∀ (ps done : std_map (data_value real)) (df : dataframe real),
      map_sorted (done ++ ps) → (∀ kv ∈ ps, token_ok kv.1 ∧ property_printable kv.2) →
      df.properties = done.map (fun kv => (kv.1, reread kv.2)) →
      (ps.map property_line).foldlM (fun d l => d.read_property l) df =
        Except.ok { df with
          properties := (done ++ ps).map (fun kv => (kv.1, reread kv.2)) }
  | [], done, df, _, _, hd => by
    simp only [List.map_nil, List.foldlM_nil, pure, Except.pure, List.append_nil, ← hd]
  | kv :: ps, done, df, hs, hall, hd => by
    obtain ⟨hk, hv⟩ := hall kv (List.mem_cons_self _ _)
    have hlt : ∀ x ∈ done.map (fun kv => (kv.1, reread kv.2)), str_lt x.1 kv.1 = true := by
      intro x hx
      obtain ⟨y, hy, rfl⟩ := List.mem_map.mp hx
      exact (List.pairwise_append.mp hs).2.2 y hy kv (List.mem_cons_self _ _)
    have hs' : map_sorted ((done ++ [kv]) ++ ps) := by
      simpa [map_sorted] using hs
    have ih := read_property_lines_reread ps (done ++ [kv])
      { df with properties := (done ++ [kv]).map (fun kv => (kv.1, reread kv.2)) } hs'
      (fun x hx => hall x (List.mem_cons_of_mem _ hx)) rfl
    simp only [List.map_cons, List.foldlM_cons, read_property_reread df kv hk hv, bind,
      Except.bind, hd, map_insert_last _ kv.1 (reread kv.2) hlt]
    simp only [List.map_append, List.map_cons, List.map_nil] at ih
    rw [ih]
    simp

theorem zipWith_reconverted {real : Type} [RealText real] (cs : List (data_vector real)) :
    (List.zipWith converted (cs.map (fun c => c.type)) (cs.map cell_texts) :
      List (data_vector real)) =
      cs.map (fun c => converted c.type (cell_texts c)) := by
  induction cs with
  | nil => rfl
  | cons c cs ih => simp only [List.map_cons, List.zipWith_cons_cons, ih]

/-- A table that can be written and parsed: the text `to_file` writes, and the table the
constructor builds from it: the registered columns in key order, each rebuilt from the
texts of its cells, the keys numbered in that order, and under each property key the value
read from its line. -/
theorem read_to_file_printable {real : Type} [RealText real] (df : dataframe real)
    (cs : List (data_vector real)) (R : Nat) (h : printable df cs R) :
    df.to_file = Except.ok (unlines (df.properties.map property_line ++
      header_line (df.column_headers.map Prod.fst) :: type_line cs ::
        (List.range R).map (row_line cs))) ∧
    dataframe.read (unlines (df.properties.map property_line ++
      header_line (df.column_headers.map Prod.fst) :: type_line cs ::
        (List.range R).map (row_line cs))) [] = Except.ok
      ⟨cs.map (fun c => converted c.type (cell_texts c)),
        number_from 0 (df.column_headers.map Prod.fst),
        df.properties.map (fun kv => (kv.1, reread kv.2)), [],
        decide (df.column_headers ≠ [])⟩ := by
  obtain ⟨hcs, hcol, hempty, hsh, hkeys, hsp, hprop⟩ := h
  refine ⟨to_file_sized df cs R hcs
    (fun c hc => by rw [column_printable_size c (hcol c hc).1, (hcol c hc).2]) hempty
    (fun kv hkv => property_printable_consistent kv.2 (hprop kv hkv).2), ?_⟩
  have hlen : cs.length = (df.column_headers.map Prod.fst).length := by
    rw [List.length_map, hcs.length_eq]
  have hnd : (df.column_headers.map Prod.fst).Nodup := by
    have h1 : (df.column_headers.map Prod.fst).Pairwise (fun x y => str_lt x y = true) :=
      List.pairwise_map.mpr hsh
    exact h1.imp (fun h => str_lt_ne h)
  have hnames : ∀ t ∈ df.column_headers.map Prod.fst, token_ok t := by
    intro t ht
    obtain ⟨kv, hkv, rfl⟩ := List.mem_map.mp ht
    exact hkeys kv hkv
  have htags : ∀ t ∈ cs.map (fun c => string_fromDT c.type), token_ok t := by
    intro t ht
    obtain ⟨c, _, rfl⟩ := List.mem_map.mp ht
    exact string_fromDT_token c.type
  have hcells : ∀ i, i < R → ∀ t ∈ cs.map (fun c => (cell_texts c).getD i []), token_ok t := by
    intro i hi t ht
    obtain ⟨c, hc, rfl⟩ := List.mem_map.mp ht
    obtain ⟨hok, hl⟩ := hcol c hc
    have hi' : i < (cell_texts c).length := by omega
    rw [List.getD_eq_getElem?_getD, List.getElem?_eq_getElem hi', Option.getD_some]
    exact column_printable_cells c hok _ (List.getElem_mem _)
  have hread := @read_lines real _ (df.properties.map property_line)
    (header_line (df.column_headers.map Prod.fst)) (type_line cs)
    ((List.range R).map (row_line cs)) ['*'] ['$'] (df.column_headers.map Prod.fst)
    (cs.map (fun (c : data_vector real) => string_fromDT c.type))
    { dataframe.empty real with
      properties := (([] : std_map (data_value real)) ++ df.properties).map
        (fun kv => (kv.1, reread kv.2)) }
    (by
      intro l hl
      obtain ⟨kv, hkv, rfl⟩ := List.mem_map.mp hl
      obtain ⟨h1, h2, _⟩ := property_line_words kv (hprop kv hkv).1 (hprop kv hkv).2
      exact ⟨h1, h2⟩)
    (read_property_lines_reread df.properties [] (dataframe.empty real) (by simpa using hsp)
      hprop rfl)
    (marked_line '*' _ (by decide) hnames)
    (marked_line '$' _ (by decide) htags)
    (by rw [List.length_map, hlen])
    hnd
    (by
      intro l hl
      obtain ⟨i, hi, rfl⟩ := List.mem_map.mp hl
      obtain ⟨h1, h2⟩ := row_line_facts _ (hcells i (List.mem_range.mp hi))
      refine ⟨h1, ?_⟩
      rw [row_line, h2, List.length_map, hlen])
    (by
      by_cases hh : df.column_headers = []
      · right
        rw [(hempty hh).2]
        rfl
      · left
        simpa using hh)
    (by
      intro t ht
      obtain ⟨c, _, rfl⟩ := List.mem_map.mp ht
      exact string_fromDT_not_bool c.type)
  rw [hread]
  have e1 : (cs.map (fun c => string_fromDT c.type)).map DT_from_string =
      cs.map (fun c => c.type) := by
    rw [List.map_map]
    apply List.map_congr_left
    intro c hc
    exact column_printable_kind c (hcol c hc).1
  have e2 : ((List.range R).map (row_line cs)).map words =
      (List.range R).map (fun i => cs.map (fun c => (cell_texts c).getD i [])) := by
    rw [List.map_map]
    apply List.map_congr_left
    intro i hi
    exact (row_line_facts _ (hcells i (List.mem_range.mp hi))).2
  have e3 : insert_headers [] (df.column_headers.map Prod.fst) 0 =
      number_from 0 (df.column_headers.map Prod.fst) := by
    have := insert_headers_sorted (df.column_headers.map Prod.fst) [] 0
      (by
        rw [List.nil_append]
        exact pairwise_of_map_fst df.column_headers _ (number_from_keys 0 _).symm hsh)
    simpa using this
  have e4 : decide (df.column_headers.map Prod.fst ≠ []) = decide (df.column_headers ≠ []) := by
    simp
  rw [e1, e2, e3, e4, List.length_map,
    column_tokens_rows cs R (fun c hc => (hcol c hc).2), zipWith_reconverted cs]
  simp

theorem reread_type {real : Type} [RealText real] (v : data_value real) :
    (reread v).type = v.type := by
  obtain ⟨type, payload⟩ := v
  cases type <;> cases payload <;> rfl

theorem reread_int {real : Type} [RealText real] (v : data_value real)
    (h : v.type = DataType.D) : reread v = v := by
  obtain ⟨type, payload⟩ := v
  simp only at h
  subst h
  cases payload <;> rfl

theorem map_find_reread {real : Type} [RealText real] (ps : std_map (data_value real))
    (key : Str) :
    map_find (ps.map (fun kv => (kv.1, reread kv.2))) key = (map_find ps key).map reread := by
  induction ps with
  | nil => rfl
  | cons kv rest ih =>
    obtain ⟨k, v⟩ := kv
    by_cases hk : k = key
    · simp [map_find, hk]
    · simp [map_find, hk, ih]

theorem twiss_printable : printable twiss twiss_columns 5 where
  registered := List.Forall₂.cons rfl (List.Forall₂.cons rfl List.Forall₂.nil)
  columns_ok := by
    intro c hc
    simp only [twiss_columns, List.mem_cons, List.mem_singleton, List.not_mem_nil,
      or_false] at hc
    rcases hc with rfl | rfl
    · exact ⟨by simp only [column_printable]; decide, by decide⟩
    · exact ⟨by simp only [column_printable]; decide, by decide⟩
  unregistered := by decide
  headers_sorted := by unfold map_sorted; decide
  names_ok := by decide
  properties_sorted := by unfold map_sorted; decide
  properties_ok := by
    intro kv hkv
    simp only [twiss, List.mem_cons, List.mem_singleton, List.not_mem_nil, or_false] at hkv
    rcases hkv with rfl | rfl | rfl
    · exact ⟨by decide, by simp only [property_printable, data_value.from_string]; decide⟩
    · exact ⟨by decide, by simp only [property_printable, data_value.from_double]; decide⟩
    · exact ⟨by decide, by simp only [property_printable, data_value.from_double]; decide⟩

/-- C2 (amended): for a table that can be written and parsed (registered columns of kinds
`D`, `LE`, `S` and equal length whose names and cells are single tokens), whose properties
have one-token keys (not empty, no space, no newline) and `int` values, float values
written as one token, or string values without a newline: the table read from the written
text has the same property keys, and under every key `get_property` leaves the table as it
is and returns a value of the same kind; an `int` value is the original one, a float value
is the float read from the text written for the original, so it is the original one when
that text reads back as the same float. Nothing is said on the characters of a string
value. -/
theorem property_round_trip {real : Type} [RealText real] (df : dataframe real)
    (cs : List (data_vector real)) (R : Nat) (h : printable df cs R) :
    ∃ text table, df.to_file = Except.ok text ∧ dataframe.read text [] = Except.ok table ∧
      table.properties.map Prod.fst = df.properties.map Prod.fst ∧
      (∀ key, map_find df.properties key = none → map_find table.properties key = none) ∧
      ∀ key v, map_find df.properties key = some v →
        (table.get_property key).2 = table ∧
        (table.get_property key).1.type = v.type ∧
        (v.type = DataType.D → (table.get_property key).1 = v) ∧
        (∀ r : real, v = data_value.from_double r →
          (table.get_property key).1 =
            data_value.from_double (RealText.strtod (RealText.put r)) ∧
          (RealText.strtod (RealText.put r) = r → (table.get_property key).1 = v)) := by
  obtain ⟨h1, h2⟩ := read_to_file_printable df cs R h
  refine ⟨_, _, h1, h2, ?_, ?_, ?_⟩
  · simp only [List.map_map]
    rfl
  · intro key hkey
    simp only [map_find_reread, hkey, Option.map_none']
  · intro key v hkey
    have hfind : map_find (df.properties.map (fun kv => (kv.1, reread kv.2))) key =
        some (reread v) := by
      rw [map_find_reread, hkey]
      rfl
    have hget : ∀ t : dataframe real,
        t.properties = df.properties.map (fun kv => (kv.1, reread kv.2)) →
        t.get_property key = (reread v, t) := by
      intro t ht
      simp only [dataframe.get_property, map_index, ht, hfind]
      rw [← ht]
    have hg := hget
      (⟨cs.map (fun c => converted c.type (cell_texts c)),
        number_from 0 (df.column_headers.map Prod.fst),
        df.properties.map (fun kv => (kv.1, reread kv.2)), [],
        decide (df.column_headers ≠ [])⟩ : dataframe real) rfl
    refine ⟨by rw [hg], by rw [hg]; exact reread_type v, ?_, ?_⟩
    · intro hD
      rw [hg]
      exact reread_int v hD
    · intro r hr
      subst hr
      have hrr : reread (data_value.from_double r) =
          data_value.from_double (RealText.strtod (RealText.put r)) := rfl
      refine ⟨by rw [hg, hrr], ?_⟩
      intro hback
      rw [hg, hrr, hback]

theorem property_round_trip_witness :
    ∃ text table, twiss.to_file = Except.ok text ∧
      (dataframe.read text [] : Except Error (dataframe whole)) = Except.ok table ∧
      table.properties.map Prod.fst = twiss.properties.map Prod.fst ∧
      (∀ key, map_find twiss.properties key = none → map_find table.properties key = none) ∧
      ∀ key v, map_find twiss.properties key = some v →
        (table.get_property key).2 = table ∧
        (table.get_property key).1.type = v.type ∧
        (v.type = DataType.D → (table.get_property key).1 = v) ∧
        (∀ r : whole, v = data_value.from_double r →
          (table.get_property key).1 =
            data_value.from_double (RealText.strtod (RealText.put r)) ∧
          (RealText.strtod (RealText.put r) = r → (table.get_property key).1 = v)) :=
  property_round_trip twiss twiss_columns 5 twiss_printable

theorem reconverted_size {real : Type} [RealText real] (c : data_vector real)
    (h : column_printable c) :
    (converted c.type (cell_texts c) : data_vector real).size =
      Except.ok (cell_texts c).length := by
  obtain ⟨payload, type, name⟩ := c
  cases type <;> cases payload <;>
    simp_all [column_printable, converted, data_vector.size, cell_texts, pure, Except.pure]

theorem reconverted_cells {real : Type} [RealText real] (c : data_vector real)
    (h : column_printable c) (hs : column_stable c) :
    cell_texts (converted c.type (cell_texts c) : data_vector real) = cell_texts c := by
  obtain ⟨payload, type, name⟩ := c
  cases type <;> cases payload <;> simp only [column_printable] at h
  · rfl
  · rename_i xs
    simp only [column_stable] at hs
    simp only [cell_texts, converted, List.map_map]
    apply List.map_congr_left
    intro x hx
    exact hs x hx
  · rename_i xs
    simp only [cell_texts, converted, List.map_map]
    apply List.map_congr_left
    intro x hx
    show put_int (int_of_long (strtol (put_int x))) = put_int x
    rw [strtol_put_int x (h x hx), int_of_long_id x (h x hx)]

theorem reread_line {real : Type} [RealText real] (kv : Str × data_value real)
    (h : property_stable kv.2) : property_line (kv.1, reread kv.2) = property_line kv := by
  obtain ⟨k, type, payload⟩ := kv
  cases type <;> cases payload <;> simp only [property_stable] at h
  · rename_i r
    simp only [property_line, reread, data_value.from_double, value_text,
      data_value.pretty_print, pure, Except.pure, h]
  · rfl

theorem reread_consistent {real : Type} [RealText real] (v : data_value real)
    (h : property_printable v) : (reread v).consistent = true := by
  obtain ⟨type, payload⟩ := v
  cases type <;> cases payload <;> simp only [property_printable] at h <;> rfl

/-- C4 (amended): for a table that can be written and parsed (registered columns of kinds
`D`, `LE`, `S` and equal length whose names and cells are single tokens, `int` and float
properties under one-token keys) in which the text written for every float, cell or
property, is also the text written for the float read from that text, the text `to_file`
writes for the table read from the first text is the first text. -/
theorem serialization_idempotent {real : Type} [RealText real] (df : dataframe real)
    (cs : List (data_vector real)) (R : Nat) (h : printable df cs R)
    (hcells : ∀ c ∈ cs, column_stable c)
    (hprops : ∀ kv ∈ df.properties, property_stable kv.2) :
    ∃ s1, ∃ table : dataframe real, df.to_file = Except.ok s1 ∧
      dataframe.read s1 [] = Except.ok table ∧ table.to_file = Except.ok s1 := by
  obtain ⟨h1, h2⟩ := read_to_file_printable df cs R h
  refine ⟨_, _, h1, h2, ?_⟩
  have hlen : (df.column_headers.map Prod.fst).length =
      (cs.map (fun c => (converted c.type (cell_texts c) : data_vector real))).length := by
    simp [h.registered.length_eq]
  have h3 := to_file_sized
    (⟨cs.map (fun c => converted c.type (cell_texts c)),
      number_from 0 (df.column_headers.map Prod.fst),
      df.properties.map (fun kv => (kv.1, reread kv.2)), [],
      decide (df.column_headers ≠ [])⟩ : dataframe real)
    (cs.map (fun c => converted c.type (cell_texts c))) R
    (number_from_columns _ _ hlen)
    (by
      intro c hc
      obtain ⟨c0, hc0, rfl⟩ := List.mem_map.mp hc
      rw [reconverted_size c0 (h.columns_ok c0 hc0).1, (h.columns_ok c0 hc0).2])
    (by
      intro hh
      have hn : df.column_headers = [] := by
        cases hb : df.column_headers with
        | nil => rfl
        | cons kv rest => simp [hb, number_from] at hh
      have hcs0 : cs = [] := by
        have := h.registered
        rw [hn] at this
        cases this
        rfl
      exact ⟨by simp [hcs0], (h.unregistered hn).2⟩)
    (by
      intro kv hkv
      obtain ⟨kv0, hkv0, rfl⟩ := List.mem_map.mp hkv
      exact reread_consistent kv0.2 (h.properties_ok kv0 hkv0).2)
  have e1 : (df.properties.map (fun kv => (kv.1, reread kv.2))).map property_line =
      df.properties.map property_line := by
    rw [List.map_map]
    apply List.map_congr_left
    intro kv hkv
    exact reread_line kv (hprops kv hkv)
  have e2 : type_line (cs.map (fun c => (converted c.type (cell_texts c) : data_vector real))) =
      type_line cs := by
    simp only [type_line, List.map_map]
    congr 3
    apply List.map_congr_left
    intro c _
    exact congrArg string_fromDT (converted_type c.type (cell_texts c))
  have e3 : row_line (cs.map (fun c => (converted c.type (cell_texts c) : data_vector real))) =
      row_line cs := by
    funext i
    simp only [row_line, List.map_map]
    congr 3
    apply List.map_congr_left
    intro c hc
    show (cell_texts (converted c.type (cell_texts c) : data_vector real)).getD i [] = _
    rw [reconverted_cells c (h.columns_ok c hc).1 (hcells c hc)]
  rw [h3]
  simp only [e1, e2, e3, number_from_keys]

theorem test_table_printable : printable test_table test_table_columns 5 where
  registered := List.Forall₂.cons rfl (List.Forall₂.cons rfl List.Forall₂.nil)
  columns_ok := by
    intro c hc
    simp only [test_table_columns, List.mem_cons, List.mem_singleton, List.not_mem_nil,
      or_false] at hc
    rcases hc with rfl | rfl
    · exact ⟨by simp only [column_printable]; decide, by decide⟩
    · exact ⟨by simp only [column_printable]; decide, by decide⟩
  unregistered := by decide
  headers_sorted := by unfold map_sorted; decide
  names_ok := by decide
  properties_sorted := by unfold map_sorted; decide
  properties_ok := by
    intro kv hkv
    simp only [test_table, List.mem_cons, List.mem_singleton, List.not_mem_nil,
      or_false] at hkv
    rcases hkv with rfl | rfl
    · exact ⟨by decide, by simp only [property_printable, data_value.from_int]; decide⟩
    · exact ⟨by decide, by simp only [property_printable, data_value.from_double]; decide⟩

theorem serialization_idempotent_witness :
    ∃ s1, ∃ table : dataframe whole, test_table.to_file = Except.ok s1 ∧
      dataframe.read s1 [] = Except.ok table ∧ table.to_file = Except.ok s1 :=
  serialization_idempotent test_table test_table_columns 5 test_table_printable
    (by
      intro c hc
      simp only [test_table_columns, List.mem_cons, List.mem_singleton, List.not_mem_nil,
        or_false] at hc
      rcases hc with rfl | rfl <;> simp only [column_stable])
    (by
      intro kv hkv
      simp only [test_table, List.mem_cons, List.mem_singleton, List.not_mem_nil,
        or_false] at hkv
      rcases hkv with rfl | rfl
      · simp only [property_stable, data_value.from_int]
      · simp only [property_stable, data_value.from_double]
        decide)

/-! ## The example tables are what the calls leave -/

set_option maxRecDepth 100000 in
theorem example_tables_built :
    twiss_calls = Except.ok twiss ∧
    (do
      let t ← (dataframe.empty whole).add_column (sequence.ints [1, 2, 3]) "b".toList
      t.add_column (sequence.ints [1]) "a".toList) = Except.ok two_lengths ∧
    build [(sequence.ints [7], "a b".toList)] = Except.ok spaced_name ∧
    build [(sequence.strings ["x y".toList], "s".toList)] = Except.ok spaced_cell ∧
    build [(sequence.strings [[]], "a".toList)] = Except.ok empty_cell ∧
    (do
      let t ← build test_columns
      pure ((t.insert_property "Q1".toList (data_value.from_double (⟨62⟩ : whole))
        ).insert_property "N".toList (data_value.from_int whole 3))) =
      Except.ok test_table := by
  decide

end tfs
